import Mathlib

/-!
Verification development for the `lpm` longest-prefix-match library
(`lpm.c`, `lpm.h`, `lpm_internal.h`).

The C data structures are modelled shallowly:
* caller payloads (`void *`) become `Option Val` with `none` for the NULL
  sentinel and `some v` for a non-null payload;
* an address (`u8 *`, network byte order) becomes a total function
  `Nat → Fin 256` giving the byte at each index (the C code only ever
  dereferences in-range bytes of the 16-byte internal buffers);
* the binary trie (`btrie_node_t`) becomes an inductive tree whose `nil`
  constructor stands for the NULL pointer;
* the multibit trie becomes an inductive tree of 256-entry blocks, where
  `nullp` stands for a NULL block pointer (`mtrie_node_t *base`);
* the fallible allocator becomes an oracle: a list of Booleans consumed one
  per allocation, an empty list meaning every further allocation succeeds;
* machine counters: C `int` statistics are `Int`, C `u32`/`u8` quantities are
  `Nat` (with explicit `% 256` where the C relies on `u8` wrap, and
  `% 2 ^ 32` where the C relies on `u32` wrap);
* `assert` / `exit(-1)` paths (all unreachable in consistent tables) are
  modelled as inert branches that leave the state unchanged.
-/

set_option maxRecDepth 40000

/-- Model of a non-null caller payload (`void *` values stored in the table). -/
abbrev Val := Nat

/-- One byte of an address. -/
abbrev Byte := Fin 256

/-- Big-endian address buffer: byte at each index (`u8 *` in the C code). -/
abbrev Addr := Nat → Byte

/-- Truncate a natural number to a `u8`, as C byte arithmetic does. -/
def mkByte (n : Nat) : Byte := ⟨n % 256, Nat.mod_lt _ (by norm_num)⟩

def LPM_STRIDE : Nat := 8
def LPM_LEVEL_MAX : Nat := 16
def LPM_MASKLEN_MAX : Nat := 128
def LPM_TABLE_NAME_LEN : Nat := 32

/-- Operation results (`lpm_result_t` in `lpm.h`). -/
inductive lpm_result_t where
  | LPM_SUCCESS
  | LPM_ERR_RESOURCES
  | LPM_ERR_INVALID
  | LPM_ERR_INTERNAL
  | LPM_ERR_NOTFOUND
  | LPM_ERR_EXISTS
  | LPM_ERR_CONFLICT
  | LPM_ERR_EXOTIC
deriving DecidableEq, Repr

export lpm_result_t (LPM_SUCCESS LPM_ERR_RESOURCES LPM_ERR_INVALID LPM_ERR_INTERNAL
  LPM_ERR_NOTFOUND LPM_ERR_EXISTS LPM_ERR_CONFLICT LPM_ERR_EXOTIC)

/-- Debug option types (`lpm_debug_t`). -/
inductive lpm_debug_t where
  | DEBUG_NORMAL
  | DEBUG_MEMORY
  | DEBUG_ALGORITHM
  | DEBUG_ALL
  | LOGGING
deriving DecidableEq, Repr

/-! ## Bit addressing (`lpm_internal.h`) -/

/-- `BOUNDARY_BIT_POSITION`: positions 7, 15, 23, … are stride boundaries. -/
def BOUNDARY_BIT_POSITION (pos : Nat) : Bool := pos % 8 == 7

/-- `bit_at_position`: bit `pos` (0-indexed from the most significant bit) of a
big-endian byte buffer.  The C function first executes
`assert(pos < LPM_MASKLEN_MAX)`, so any call with `pos ≥ 128` aborts the
program (or, with asserts compiled out, reads past the 16-byte buffer); this
definition is the raw in-range read, and the bit positions actually read by
`btrie_add_node` — the one caller that can reach `pos = 128` — are tracked
separately by `btrie_add_reads_ok` below. -/
def bit_at_position (addr : Addr) (pos : Nat) : Bool :=
  Nat.testBit (addr (pos / 8)).val (7 - pos % 8)

/-- `SET_BIT_AT_POSITION`: set bit `pos` in the buffer. -/
def SET_BIT_AT_POSITION (addr : Addr) (pos : Nat) : Addr :=
  Function.update addr (pos / 8) (mkByte ((addr (pos / 8)).val ||| (1 <<< (7 - pos % 8))))

/-- `CLEAR_BIT_AT_POSITION`: clear bit `pos` in the buffer. -/
def CLEAR_BIT_AT_POSITION (addr : Addr) (pos : Nat) : Addr :=
  Function.update addr (pos / 8)
    (mkByte ((addr (pos / 8)).val &&& (255 ^^^ (1 <<< (7 - pos % 8)))))

/-- The all-zero address buffer. -/
def zeroAddr : Addr := fun _ => (0 : Byte)

/-- Unwrap an optional address argument; the C code never dereferences the
pointer in the cases where the default is used. -/
def addrD : Option Addr → Addr
  | none => zeroAddr
  | some a => a

/-! ## Allocator oracle -/

/-- Allocation oracle: the head Boolean decides the next allocation's outcome,
an exhausted list means all further allocations succeed. -/
structure lpm_alloc_t where
  oracle : List Bool
deriving DecidableEq, Repr

/-- Consume one allocation decision. -/
def lpm_alloc_t.next : lpm_alloc_t → Bool × lpm_alloc_t
  | ⟨[]⟩ => (true, ⟨[]⟩)
  | ⟨b :: r⟩ => (b, ⟨r⟩)

/-- The oracle under which every allocation succeeds. -/
def allocOK : lpm_alloc_t := ⟨[]⟩

/-! ## Statistics (`struct lpm_lkup_table_stat`) -/

structure lpm_lkup_table_stat where
  btrie_node_alloc_stat : Int
  btrie_node_alloc_fail_stat : Nat
  mtrie_block_alloc_stat : Int
  mtrie_block_alloc_fail_stat : Nat
  data_total : Int
  data_per_masklen : Nat → Nat

/-- The zeroed statistics of a freshly created table. -/
def stat0 : lpm_lkup_table_stat :=
  { btrie_node_alloc_stat := 0
    btrie_node_alloc_fail_stat := 0
    mtrie_block_alloc_stat := 0
    mtrie_block_alloc_fail_stat := 0
    data_total := 0
    data_per_masklen := fun _ => 0 }

/-- Effect of a successful `btrie_mem_alloc` on the counters. -/
def statBtrieAlloc (s : lpm_lkup_table_stat) : lpm_lkup_table_stat :=
  { s with btrie_node_alloc_stat := s.btrie_node_alloc_stat + 1 }

/-- Effect of a failed `btrie_mem_alloc` on the counters. -/
def statBtrieFail (s : lpm_lkup_table_stat) : lpm_lkup_table_stat :=
  { s with btrie_node_alloc_fail_stat := s.btrie_node_alloc_fail_stat + 1 }

/-- Effect of freeing `n` btrie nodes (`btrie_mem_free`, `n` times). -/
def statBtrieFreeN (s : lpm_lkup_table_stat) (n : Nat) : lpm_lkup_table_stat :=
  { s with btrie_node_alloc_stat := s.btrie_node_alloc_stat - n }

/-- Effect of a successful `mtrie_mem_alloc` on the counters. -/
def statMtrieAlloc (s : lpm_lkup_table_stat) : lpm_lkup_table_stat :=
  { s with mtrie_block_alloc_stat := s.mtrie_block_alloc_stat + 1 }

/-- Effect of a failed `mtrie_mem_alloc` on the counters. -/
def statMtrieFail (s : lpm_lkup_table_stat) : lpm_lkup_table_stat :=
  { s with mtrie_block_alloc_fail_stat := s.mtrie_block_alloc_fail_stat + 1 }

/-- Effect of freeing `n` mtrie blocks (`mtrie_mem_free`, `n` times). -/
def statMtrieFreeN (s : lpm_lkup_table_stat) (n : Nat) : lpm_lkup_table_stat :=
  { s with mtrie_block_alloc_stat := s.mtrie_block_alloc_stat - n }

/-- Effect on the counters of storing one datum at mask length `m`
(`data_total++; data_per_masklen[m]++`). -/
def statDataAdd (s : lpm_lkup_table_stat) (m : Nat) : lpm_lkup_table_stat :=
  { s with data_total := s.data_total + 1
           data_per_masklen := Function.update s.data_per_masklen m (s.data_per_masklen m + 1) }

/-- Effect on the counters of removing one datum at mask length `m`
(`data_total--; data_per_masklen[m]--`). -/
def statDataDel (s : lpm_lkup_table_stat) (m : Nat) : lpm_lkup_table_stat :=
  { s with data_total := s.data_total - 1
           data_per_masklen := Function.update s.data_per_masklen m (s.data_per_masklen m - 1) }

/-! ## Binary trie (`btrie_node_t`) -/

/-- A btrie node pointer: `nil` is the NULL pointer, a `node` holds the
optional stored value and the two child pointers. -/
inductive btrie_node_t where
  | nil : btrie_node_t
  | node (data : Option Val) (child0 child1 : btrie_node_t) : btrie_node_t
deriving DecidableEq, Repr

/-- Stored value of a node (`p->data`); reading through NULL yields `none`
only as a convenience for specs — the code never does it. -/
def btrie_node_t.data : btrie_node_t → Option Val
  | .nil => none
  | .node d _ _ => d

/-- Child pointer `p->child[bit]`. -/
def btrie_node_t.child : btrie_node_t → Bool → btrie_node_t
  | .nil, _ => .nil
  | .node _ c0 _, false => c0
  | .node _ _ c1, true => c1

/-- Is this node pointer NULL? -/
def btrie_node_t.isNil : btrie_node_t → Bool
  | .nil => true
  | .node _ _ _ => false

/-- Number of nodes in a subtree (what `__btrie_destroy_subtree` frees). -/
def btrie_subtree_size : btrie_node_t → Nat
  | .nil => 0
  | .node _ c0 c1 => btrie_subtree_size c0 + btrie_subtree_size c1 + 1

/-- Number of nodes holding a value in a subtree. -/
def btrie_data_count : btrie_node_t → Nat
  | .nil => 0
  | .node d c0 c1 =>
      (match d with | some _ => 1 | none => 0) + btrie_data_count c0 + btrie_data_count c1

/-- Loop body of `btrie_find_node`: walk `rem` further bits from bit
position `pos`. -/
def btrie_find_node_go (addr : Addr) : btrie_node_t → Nat → Nat → btrie_node_t
  | t, _, 0 => t
  | .nil, _, _ + 1 => .nil
  | .node _ c0 c1, pos, rem + 1 =>
      btrie_find_node_go addr (if bit_at_position addr pos then c1 else c0) (pos + 1) rem

/-- `btrie_find_node`: find the node for `addr/masklen`, never adding nodes. -/
def btrie_find_node (root : btrie_node_t) (addr : Addr) (masklen : Nat) : btrie_node_t :=
  btrie_find_node_go addr root 0 masklen

/-- `btrie_find_data`: exact-match lookup of the stored value. -/
def btrie_find_data (root : btrie_node_t) (addr : Addr) (masklen : Nat) : Option Val :=
  (btrie_find_node root addr masklen).data

/-- Replace the stored value of the node at `addr/…` (the write through the
`newnode` pointer in the C code). Positions `pos`, remaining bits `rem`. -/
def btrie_set_data_go (addr : Addr) : btrie_node_t → Nat → Nat → Option Val → btrie_node_t
  | .nil, _, _, _ => .nil
  | .node _ c0 c1, _, 0, v => .node v c0 c1
  | .node d c0 c1, pos, rem + 1, v =>
      if bit_at_position addr pos then
        .node d c0 (btrie_set_data_go addr c1 (pos + 1) rem v)
      else
        .node d (btrie_set_data_go addr c0 (pos + 1) rem v) c1

/-- Set the stored value of the node at `addr/masklen`. -/
def btrie_set_data (root : btrie_node_t) (addr : Addr) (masklen : Nat) (v : Option Val) :
    btrie_node_t :=
  btrie_set_data_go addr root 0 masklen v

/-- Sever child `bit` of the node at depth `rem` along `addr` (the write
`append_point->child[append_bit] = NULL` in the rollback paths), returning
the modified trie and the severed subtree. -/
def btrie_cut_child_go (addr : Addr) : btrie_node_t → Nat → Nat → Bool →
    btrie_node_t × btrie_node_t
  | .nil, _, _, _ => (.nil, .nil)
  | .node d c0 c1, _, 0, bit =>
      if bit then (.node d c0 .nil, c1) else (.node d .nil c1, c0)
  | .node d c0 c1, pos, rem + 1, bit =>
      if bit_at_position addr pos then
        let (c1', cut) := btrie_cut_child_go addr c1 (pos + 1) rem bit
        (.node d c0 c1', cut)
      else
        let (c0', cut) := btrie_cut_child_go addr c0 (pos + 1) rem bit
        (.node d c0' c1, cut)

/-- Sever and return the child `bit` of the node at depth `depth` along
`addr` (the rollback of a freshly appended chain). -/
def btrie_cut_child (root : btrie_node_t) (addr : Addr) (depth : Nat) (bit : Bool) :
    btrie_node_t × btrie_node_t :=
  btrie_cut_child_go addr root 0 depth bit

/-- Graft `sub` in place of the subtree at depth `rem` along `addr`
(functional counterpart of mutating through a saved node pointer). -/
def btrie_replace_node_go (addr : Addr) : btrie_node_t → Nat → Nat → btrie_node_t →
    btrie_node_t
  | _, _, 0, sub => sub
  | .nil, _, _ + 1, _ => .nil
  | .node d c0 c1, pos, rem + 1, sub =>
      if bit_at_position addr pos then
        .node d c0 (btrie_replace_node_go addr c1 (pos + 1) rem sub)
      else
        .node d (btrie_replace_node_go addr c0 (pos + 1) rem sub) c1

def btrie_replace_node (root : btrie_node_t) (addr : Addr) (depth : Nat)
    (sub : btrie_node_t) : btrie_node_t :=
  btrie_replace_node_go addr root 0 depth sub

/-- `btrie_del_appended`: number of nodes freed when releasing a freshly
appended single-child chain.  A chain node with two children is the
`*BUG*` branch (an `assert` in the C code); there the loop frees the head
and stops. -/
def btrie_del_appended_count : btrie_node_t → Nat
  | .nil => 0
  | .node _ (.node _ _ _) (.node _ _ _) => 1
  | .node _ c0@(.node _ _ _) .nil => 1 + btrie_del_appended_count c0
  | .node _ .nil c1 => 1 + btrie_del_appended_count c1

/-- `btrie_add_node` loop: walk the remaining `rem` bits from position `pos`,
appending missing nodes.  Returns the result (`LPM_ERR_EXISTS` if no node was
appended, `LPM_SUCCESS` if some was, `LPM_ERR_RESOURCES` on allocation
failure, leaving the partially appended chain in the returned trie), the
updated trie, the rollback append point (depth of `*append_point` along the
path, and `*append_bit`), the counters and the remaining oracle. -/
def btrie_add_node_go (addr : Addr) : btrie_node_t → Nat → Nat → lpm_result_t →
    (Nat × Bool) → lpm_lkup_table_stat → lpm_alloc_t →
    lpm_result_t × btrie_node_t × (Nat × Bool) × lpm_lkup_table_stat × lpm_alloc_t
  | place, _, 0, res, ap, st, al => (res, place, ap, st, al)
  | .nil, _, _ + 1, _, ap, st, al => (LPM_ERR_INTERNAL, .nil, ap, st, al)
  | .node d c0 c1, pos, rem + 1, res, ap, st, al =>
      if bit_at_position addr pos then
        match c1 with
        | .nil =>
            if (lpm_alloc_t.next al).1 then
              let out := btrie_add_node_go addr (.node none .nil .nil) (pos + 1) rem
                           LPM_SUCCESS ap (statBtrieAlloc st) (lpm_alloc_t.next al).2
              (out.1, .node d c0 out.2.1, out.2.2)
            else
              (LPM_ERR_RESOURCES, .node d c0 .nil, ap, statBtrieFail st,
               (lpm_alloc_t.next al).2)
        | c1'@(.node _ _ _) =>
            let out := btrie_add_node_go addr c1' (pos + 1) rem res
                         (pos + 1, bit_at_position addr (pos + 1)) st al
            (out.1, .node d c0 out.2.1, out.2.2)
      else
        match c0 with
        | .nil =>
            if (lpm_alloc_t.next al).1 then
              let out := btrie_add_node_go addr (.node none .nil .nil) (pos + 1) rem
                           LPM_SUCCESS ap (statBtrieAlloc st) (lpm_alloc_t.next al).2
              (out.1, .node d out.2.1 c1, out.2.2)
            else
              (LPM_ERR_RESOURCES, .node d .nil c1, ap, statBtrieFail st,
               (lpm_alloc_t.next al).2)
        | c0'@(.node _ _ _) =>
            let out := btrie_add_node_go addr c0' (pos + 1) rem res
                         (pos + 1, bit_at_position addr (pos + 1)) st al
            (out.1, .node d out.2.1 c1, out.2.2)

/-- `btrie_add_node`: ensure the path for `addr/masklen` exists.  Initial
append point as set up by the C prologue. -/
def btrie_add_node (root : btrie_node_t) (addr : Addr) (masklen : Nat)
    (st : lpm_lkup_table_stat) (al : lpm_alloc_t) :
    lpm_result_t × btrie_node_t × (Nat × Bool) × lpm_lkup_table_stat × lpm_alloc_t :=
  if masklen = 0 then
    btrie_add_node_go addr root 0 0 LPM_ERR_EXISTS (0, false) st al
  else
    btrie_add_node_go addr root 0 masklen LPM_ERR_EXISTS (0, bit_at_position addr 0) st al

/-- Do all `bit_at_position` reads performed by the `btrie_add_node` loop stay
below `LPM_MASKLEN_MAX` (the bound `assert`ed by the C `bit_at_position`)?
Each iteration reads bit `pos`; an iteration whose child already exists
additionally reads bit `pos + 1` for `*append_bit` (lpm.c:158) — the read
that reaches position 128 when a fully existing /128 path is walked.  A
failing allocation only truncates the read sequence inside the fresh-append
phase, whose reads are all at `pos < masklen`, so this allocator-free
predicate is `false` exactly when the C loop performs an out-of-range read
(the `.nil` head case is unreachable: `place` is never NULL in the loop). -/
def btrie_add_reads_ok (addr : Addr) : btrie_node_t → Nat → Nat → Bool
  | _, _, 0 => true
  | .nil, _, _ + 1 => true
  | .node _ c0 c1, pos, rem + 1 =>
      decide (pos < LPM_MASKLEN_MAX) &&
      (if bit_at_position addr pos then
         match c1 with
         | .nil => btrie_add_reads_ok addr (.node none .nil .nil) (pos + 1) rem
         | c1'@(.node _ _ _) =>
             decide (pos + 1 < LPM_MASKLEN_MAX) &&
             btrie_add_reads_ok addr c1' (pos + 1) rem
       else
         match c0 with
         | .nil => btrie_add_reads_ok addr (.node none .nil .nil) (pos + 1) rem
         | c0'@(.node _ _ _) =>
             decide (pos + 1 < LPM_MASKLEN_MAX) &&
             btrie_add_reads_ok addr c0' (pos + 1) rem)

/-- `btrie_add_reads_ok` from the root (for `masklen = 0` the loop body never
runs and the prologue performs no read either). -/
def btrie_add_node_reads_ok (root : btrie_node_t) (addr : Addr) (masklen : Nat) : Bool :=
  if masklen = 0 then true else btrie_add_reads_ok addr root 0 masklen

/-! ## Multibit trie (`mtrie_node_t` blocks of 256 entries) -/

/-- An mtrie block pointer: `nullp` is a NULL `base` pointer, a `block` is a
256-entry array where entry `j` holds `(data j, base j)`. -/
inductive mtrie_t where
  | nullp : mtrie_t
  | block (data : Fin 256 → Option Val) (base : Fin 256 → mtrie_t) : mtrie_t

/-- Entry payload `(base + j)->data`. -/
def mtrie_t.dataAt : mtrie_t → Byte → Option Val
  | .nullp, _ => none
  | .block d _, j => d j

/-- Entry child `(base + j)->base`. -/
def mtrie_t.baseAt : mtrie_t → Byte → mtrie_t
  | .nullp, _ => .nullp
  | .block _ b, j => b j

/-- A freshly allocated (zeroed) mtrie block. -/
def mtrie_empty_block : mtrie_t := .block (fun _ => none) (fun _ => .nullp)

/-- Number of blocks in a subtree (what `__mtrie_free_block` frees). -/
def mtrie_block_count : mtrie_t → Nat
  | .nullp => 0
  | .block _ b => 1 + Finset.univ.sum (fun j => mtrie_block_count (b j))

/-- Search loop of `lpm_search_table`: follow `base` pointers, remembering the
last non-null `data` seen. -/
def lpm_search_mtrie (a : Addr) : mtrie_t → Nat → Option Val → Option Val
  | .nullp, _, data => data
  | .block d b, idx, data =>
      let data' := match d (a idx) with
        | some v => some v
        | none => data
      lpm_search_mtrie a (b (a idx)) (idx + 1) data'

/-! ## Table control block (`struct lpm_lkup_table_s`) -/

structure lpm_lkup_table_t where
  name : String
  btrie_root : btrie_node_t
  hi256_table_base : mtrie_t
  default_data : Option Val
  default_addr : Addr
  default_masklen : Nat
  debug_flag : Nat
  stat : lpm_lkup_table_stat

/-! ## Pattern generation and prefix expansion -/

/-- Overwrite `data` of every entry with index in `[lo, hi]`. -/
def mtrie_t.setDataRange : mtrie_t → Nat → Nat → Option Val → mtrie_t
  | .nullp, _, _, _ => .nullp
  | .block d b, lo, hi, v =>
      .block (fun j => if lo ≤ j.val ∧ j.val ≤ hi then v else d j) b

/-- Rewire entry `j`'s `base` pointer. -/
def mtrie_t.setBase : mtrie_t → Byte → mtrie_t → mtrie_t
  | .nullp, _, _ => .nullp
  | .block d b, j, m => .block d (Function.update b j m)

/-- `lpm_pattern_generate`: write `data` into every entry of the block covered
by index `idx` at bit position `bitpos` (`u8` range arithmetic as in C). -/
def lpm_pattern_generate (base : mtrie_t) (idx : Byte) (bitpos : Nat) (data : Option Val) :
    mtrie_t :=
  let masklen := (bitpos + 1) % 8
  let mask : Nat :=
    if BOUNDARY_BIT_POSITION bitpos then 255
    else 255 ^^^ ((1 <<< (8 - masklen)) - 1)
  let tmp_idx := idx.val &&& mask
  let end_idx := idx.val ||| (255 ^^^ mask)
  base.setDataRange tmp_idx end_idx data

/-- The `-1 | 0 | 1` `nextbit` argument of `lpm_gen_combinations`. -/
inductive nextbit_t where
  | nb_zero
  | nb_one
  | nb_none
deriving DecidableEq, Repr

/-- Chain building of `lpm_gen_combinations` for `temp_bitpos >= 8`: descend
`rem` more `base` edges along the bytes of `a`, allocating any missing block
(zeroed), apply `wr` to the final (frontier) block, and hook every freshly
allocated block into its parent.  On allocation failure the blocks freshly
allocated in this call are freed again and nothing is hooked, so the returned
trie is the input one. -/
def mtrie_build_write (a : Addr) : mtrie_t → Nat → Nat → (mtrie_t → mtrie_t) →
    lpm_lkup_table_stat → lpm_alloc_t →
    lpm_result_t × mtrie_t × lpm_lkup_table_stat × lpm_alloc_t
  | .nullp, lvl, rem, wr, st, al =>
      let (ok, al1) := lpm_alloc_t.next al
      if ok then
        match rem with
        | 0 => (LPM_SUCCESS, wr mtrie_empty_block, statMtrieAlloc st, al1)
        | rem' + 1 =>
            match mtrie_build_write a .nullp (lvl + 1) rem' wr (statMtrieAlloc st) al1 with
            | (LPM_SUCCESS, sub, st2, al2) =>
                (LPM_SUCCESS, mtrie_empty_block.setBase (a lvl) sub, st2, al2)
            | (r, _, st2, al2) => (r, .nullp, statMtrieFreeN st2 1, al2)
      else (LPM_ERR_RESOURCES, .nullp, statMtrieFail st, al1)
  | .block d b, lvl, rem, wr, st, al =>
      match rem with
      | 0 => (LPM_SUCCESS, wr (.block d b), st, al)
      | rem' + 1 =>
          match mtrie_build_write a (b (a lvl)) (lvl + 1) rem' wr st al with
          | (LPM_SUCCESS, sub, st2, al2) =>
              (LPM_SUCCESS, (mtrie_t.block d b).setBase (a lvl) sub, st2, al2)
          | (r, _, st2, al2) => (r, .block d b, st2, al2)

/-- `lpm_gen_combinations`: write `data` into the block addressed by
`temp_bitpos` along `a`, adjusting the in-block index according to
`nextbit`, materializing missing blocks of the chain first. -/
def lpm_gen_combinations (m : mtrie_t) (a : Addr) (temp_bitpos : Nat) (data : Option Val)
    (nextbit : nextbit_t) (st : lpm_lkup_table_stat) (al : lpm_alloc_t) :
    lpm_result_t × mtrie_t × lpm_lkup_table_stat × lpm_alloc_t :=
  if temp_bitpos < 8 then
    let idx := a 0
    match nextbit with
    | .nb_zero =>
        (LPM_SUCCESS,
         lpm_pattern_generate m (mkByte (idx.val &&& (255 ^^^ (1 <<< (7 - (temp_bitpos + 1))))))
           (temp_bitpos + 1) data, st, al)
    | .nb_one =>
        (LPM_SUCCESS,
         lpm_pattern_generate m (mkByte (idx.val ||| (1 <<< (7 - (temp_bitpos + 1)))))
           (temp_bitpos + 1) data, st, al)
    | .nb_none => (LPM_SUCCESS, lpm_pattern_generate m idx temp_bitpos data, st, al)
  else
    let trie_count := temp_bitpos / 8 + 1
    let wr : mtrie_t → mtrie_t := fun fr =>
      let idx := a (trie_count - 1)
      match nextbit with
      | .nb_zero =>
          lpm_pattern_generate fr
            (mkByte (idx.val &&& (255 ^^^ (1 <<< (7 - ((temp_bitpos + 1) % 8))))))
            (temp_bitpos + 1) data
      | .nb_one =>
          lpm_pattern_generate fr (mkByte (idx.val ||| (1 <<< (7 - ((temp_bitpos + 1) % 8)))))
            (temp_bitpos + 1) data
      | .nb_none => lpm_pattern_generate fr idx temp_bitpos data
    mtrie_build_write a m 0 (trie_count - 1) wr st al

/-- `__lpm_prefix_expansion`: write `data` into every mtrie entry covered by
the prefix whose btrie node is `t` and whose last bit position is
`temp_bitpos`, never overwriting ranges owned by a more specific stored
value (a descendant btrie node carrying data).  The address buffer is
mutated along the way exactly as in the C code and returned. -/
def __lpm_prefix_expansion : btrie_node_t → Addr → Nat → Option Val → mtrie_t →
    lpm_lkup_table_stat → lpm_alloc_t →
    lpm_result_t × mtrie_t × Addr × lpm_lkup_table_stat × lpm_alloc_t
  | .nil, a, temp_bitpos, data, m, st, al =>
    if BOUNDARY_BIT_POSITION temp_bitpos then
      let out := lpm_gen_combinations m a temp_bitpos data .nb_none st al
      (out.1, out.2.1, a, out.2.2)
    else (LPM_ERR_INTERNAL, m, a, st, al)
  | .node _dd c0 c1, a, temp_bitpos, data, m, st, al =>
    if BOUNDARY_BIT_POSITION temp_bitpos then
      let out := lpm_gen_combinations m a temp_bitpos data .nb_none st al
      (out.1, out.2.1, a, out.2.2)
    else
      if c0.isNil && c1.isNil then
        let out := lpm_gen_combinations m a temp_bitpos data .nb_none st al
        (out.1, out.2.1, a, out.2.2)
      else
        let left : lpm_result_t × mtrie_t × Addr × lpm_lkup_table_stat × lpm_alloc_t :=
          if c0.isNil then
            let out := lpm_gen_combinations m a temp_bitpos data .nb_zero st al
            (out.1, out.2.1, a, out.2.2)
          else if c0.data = none then
            __lpm_prefix_expansion c0 (CLEAR_BIT_AT_POSITION a (temp_bitpos + 1))
              (temp_bitpos + 1) data m st al
          else (LPM_SUCCESS, m, a, st, al)
        if left.1 = LPM_SUCCESS then
          (if c1.isNil then
            let out := lpm_gen_combinations left.2.1 left.2.2.1 temp_bitpos data .nb_one
                         left.2.2.2.1 left.2.2.2.2
            (out.1, out.2.1, left.2.2.1, out.2.2)
          else if c1.data = none then
            __lpm_prefix_expansion c1 (SET_BIT_AT_POSITION left.2.2.1 (temp_bitpos + 1))
              (temp_bitpos + 1) data left.2.1 left.2.2.2.1 left.2.2.2.2
          else (LPM_SUCCESS, left.2.1, left.2.2.1, left.2.2.2))
        else left

/-- `lpm_prefix_expansion` (the wrapper only adds recursion-depth checking). -/
def lpm_prefix_expansion (t : btrie_node_t) (a : Addr) (temp_bitpos : Nat)
    (data : Option Val) (m : mtrie_t) (st : lpm_lkup_table_stat) (al : lpm_alloc_t) :
    lpm_result_t × mtrie_t × Addr × lpm_lkup_table_stat × lpm_alloc_t :=
  __lpm_prefix_expansion t a temp_bitpos data m st al

/-! ## Argument validation and read-only operations -/

/-- `lpm_check_arg`. -/
def lpm_check_arg : Option lpm_lkup_table_t → Option Addr → Nat → lpm_result_t
  | none, _, _ => LPM_ERR_INVALID
  | some _, a, masklen =>
      if masklen > LPM_MASKLEN_MAX then LPM_ERR_INVALID
      else
        match a with
        | none => if masklen > 0 then LPM_ERR_INVALID else LPM_SUCCESS
        | some _ => LPM_SUCCESS

/-- `lpm_search_table`: LPM lookup through the mtrie.  The second component
models the value written through `using_default`: `none` means the function
returned without writing it. -/
def lpm_search_table (table : Option lpm_lkup_table_t) (addr : Option Addr) :
    Option Val × Option Bool :=
  match table, addr with
  | some t, some a =>
      let data := lpm_search_mtrie a t.hi256_table_base 0 none
      (match data with
       | some v => (some v, some false)
       | none => (t.default_data, some true))
  | _, _ => (none, none)

/-! ## Adding and updating entries -/

/-- Internal 16-byte buffer `temp_addr`: first `((masklen-1)>>3)+1` bytes are
copied from the caller's address, the rest is zeroed. -/
def temp_addr_of (a : Addr) (masklen : Nat) : Addr :=
  fun i => if i < (masklen - 1) / 8 + 1 then a i else (0 : Byte)

/-- `lpm_add_entry`. -/
def lpm_add_entry (table : Option lpm_lkup_table_t) (addr : Option Addr) (masklen : Nat)
    (data : Option Val) (al : lpm_alloc_t) :
    lpm_result_t × Option lpm_lkup_table_t × lpm_alloc_t :=
  match lpm_check_arg table addr masklen with
  | LPM_SUCCESS =>
    match table with
    | none => (LPM_ERR_INVALID, none, al)
    | some t =>
      match data with
      | none => (LPM_ERR_INVALID, some t, al)
      | some v =>
        match t.btrie_root, t.hi256_table_base with
        | .nil, _ => (LPM_ERR_INTERNAL, some t, al)
        | _, .nullp => (LPM_ERR_INTERNAL, some t, al)
        | root, _ =>
          let a := addrD addr
          let out1 := btrie_add_node root a masklen t.stat al
          let r1 := out1.1
          let root1 := out1.2.1
          let ap := out1.2.2.1
          let st1 := out1.2.2.2.1
          let al1 := out1.2.2.2.2
          match r1 with
          | LPM_ERR_RESOURCES =>
              let cut := btrie_cut_child root1 a ap.1 ap.2
              let st2 := statBtrieFreeN st1 (btrie_del_appended_count cut.2)
              (LPM_ERR_RESOURCES, some { t with btrie_root := cut.1, stat := st2 }, al1)
          | LPM_ERR_EXISTS | LPM_SUCCESS =>
              let newnode := btrie_find_node root1 a masklen
              (match newnode.data with
              | some d0 =>
                  if d0 = v then
                    (LPM_ERR_EXISTS, some { t with btrie_root := root1, stat := st1 }, al1)
                  else
                    (LPM_ERR_CONFLICT, some { t with btrie_root := root1, stat := st1 }, al1)
              | none =>
                  let root2 := btrie_set_data root1 a masklen (some v)
                  let st2 := statDataAdd st1 masklen
                  if masklen = 0 then
                    (LPM_SUCCESS, some { t with btrie_root := root2, stat := st2 }, al1)
                  else
                    let ta := temp_addr_of a masklen
                    let bitpos := masklen - 1
                    let exp := lpm_prefix_expansion (btrie_find_node root2 a masklen) ta bitpos
                        (some v) t.hi256_table_base st2 al1
                    let m2 := exp.2.1
                    let st3 := exp.2.2.2.1
                    let al2 := exp.2.2.2.2
                    match exp.1 with
                    | LPM_SUCCESS =>
                        (LPM_SUCCESS,
                         some { t with btrie_root := root2, hi256_table_base := m2, stat := st3 },
                         al2)
                    | LPM_ERR_RESOURCES =>
                        let st4 := statDataDel st3 masklen
                        let root3 := btrie_set_data root2 a masklen none
                        if r1 = LPM_ERR_EXISTS then
                          (LPM_ERR_RESOURCES,
                           some { t with btrie_root := root3, hi256_table_base := m2, stat := st4 },
                           al2)
                        else
                          let cut := btrie_cut_child root3 a ap.1 ap.2
                          let st5 := statBtrieFreeN st4 (btrie_del_appended_count cut.2)
                          (LPM_ERR_RESOURCES,
                           some { t with btrie_root := cut.1, hi256_table_base := m2, stat := st5 },
                           al2)
                    | _ =>
                        (LPM_ERR_INTERNAL,
                         some { t with btrie_root := root2, hi256_table_base := m2, stat := st3 },
                         al2))
          | r1bad => (r1bad, some { t with btrie_root := root1, stat := st1 }, al1)
  | r => (r, table, al)

/-- `lpm_update_entry`.  Note: the mtrie rewrite result is returned without
any rollback, exactly as in the C code. -/
def lpm_update_entry (table : Option lpm_lkup_table_t) (addr : Option Addr) (masklen : Nat)
    (data : Option Val) (al : lpm_alloc_t) :
    lpm_result_t × Option lpm_lkup_table_t × lpm_alloc_t :=
  match lpm_check_arg table addr masklen with
  | LPM_SUCCESS =>
    match table with
    | none => (LPM_ERR_INVALID, none, al)
    | some t =>
      match data with
      | none => (LPM_ERR_INVALID, some t, al)
      | some v =>
        match t.btrie_root, t.hi256_table_base with
        | .nil, _ => (LPM_ERR_INTERNAL, some t, al)
        | _, .nullp => (LPM_ERR_INTERNAL, some t, al)
        | root, _ =>
          let a := addrD addr
          let stored_node := btrie_find_node root a masklen
          match stored_node with
          | .nil => (LPM_ERR_NOTFOUND, some t, al)
          | .node none _ _ => (LPM_ERR_NOTFOUND, some t, al)
          | .node (some d0) _ _ =>
            let root1 := if d0 = v then root else btrie_set_data root a masklen (some v)
            if masklen = 0 then (LPM_SUCCESS, some { t with btrie_root := root1 }, al)
            else
              let ta := temp_addr_of a masklen
              let bitpos := masklen - 1
              let exp :=
                lpm_prefix_expansion (btrie_find_node root1 a masklen) ta bitpos (some v)
                  t.hi256_table_base t.stat al
              (exp.1,
               some { t with btrie_root := root1, hi256_table_base := exp.2.1,
                             stat := exp.2.2.2.1 },
               exp.2.2.2.2)
  | r => (r, table, al)

/-! ## Default data operations -/

/-- `lpm_update_default_data`. -/
def lpm_update_default_data (table : Option lpm_lkup_table_t) (addr : Option Addr)
    (masklen : Nat) : lpm_result_t × Option lpm_lkup_table_t :=
  match lpm_check_arg table addr masklen with
  | LPM_SUCCESS =>
    match table with
    | none => (LPM_ERR_INVALID, none)
    | some t =>
      match t.btrie_root with
      | .nil => (LPM_ERR_INTERNAL, some t)
      | root =>
        let a := addrD addr
        match btrie_find_data root a masklen with
        | none => (LPM_ERR_NOTFOUND, some t)
        | some v =>
            let da : Addr :=
              if masklen > 0 then
                let cnt := (masklen - 1) / 8 + 1
                let mask : Nat := 255 ^^^ ((1 <<< (7 - ((masklen - 1) % 8))) - 1)
                fun i =>
                  if i + 1 < cnt then a i
                  else if i + 1 = cnt then mkByte ((a i).val &&& mask)
                  else (0 : Byte)
              else zeroAddr
            (LPM_SUCCESS,
             some { t with default_data := some v, default_masklen := masklen,
                           default_addr := da })
  | r => (r, table)

/-- `lpm_del_default_data`. -/
def lpm_del_default_data : Option lpm_lkup_table_t →
    lpm_result_t × Option lpm_lkup_table_t
  | none => (LPM_ERR_INVALID, none)
  | some t =>
      match t.default_data with
      | none => (LPM_ERR_NOTFOUND, some t)
      | some _ =>
          (LPM_SUCCESS,
           some { t with default_data := none, default_masklen := 0, default_addr := zeroAddr })

/-! ## Deleting entries -/

/-- Is this block pointer NULL? -/
def mtrie_t.isNullp : mtrie_t → Bool
  | .nullp => true
  | .block _ _ => false

/-- `zero_out_data` loop body for levels `>= 1`: clear the path entry data and
descend, or pattern-fill with NULL at the final level. -/
def zero_out_walk (a : Addr) (masklen : Nat) : mtrie_t → Nat → lpm_result_t × mtrie_t
  | .nullp, _ => (LPM_SUCCESS, .nullp)
  | .block d b, level =>
      if 16 ≤ level then (LPM_SUCCESS, .block d b)
      else
        let idx := a level
        if masklen - 8 * level ≤ 8 then
          (LPM_SUCCESS, lpm_pattern_generate (.block d b) idx (masklen - 1) none)
        else
          let d1 := Function.update d idx none
          let out := zero_out_walk a masklen (b idx) (level + 1)
          (out.1, .block d1 (Function.update b idx out.2))

/-- `zero_out_data`: clear the deleted binding's data top-down in the mtrie. -/
def zero_out_data (m : mtrie_t) (a : Addr) (masklen : Nat) : lpm_result_t × mtrie_t :=
  match m with
  | .nullp => (LPM_ERR_INTERNAL, .nullp)
  | .block d b =>
      if masklen ≤ 8 then
        (LPM_SUCCESS, lpm_pattern_generate (.block d b) (a 0) (masklen - 1) none)
      else
        let idx := a 0
        let d1 := Function.update d idx none
        match b idx with
        | .nullp => (LPM_ERR_INTERNAL, .block d1 b)
        | sub =>
            let out := zero_out_walk a masklen sub 1
            (out.1, .block d1 (Function.update b idx out.2))

/-- Descent of `delete_trie_block`: after `rem` further levels, sever the
`base` of the entry reached and free the severed block (whose own entries'
`base` pointers must all be NULL; the fatal inconsistency path never returns
in C — it prints and calls `exit(-1)` — and is modelled as an inert branch
that leaves the state unchanged). -/
def delete_trie_block_go (a : Addr) : mtrie_t → Nat → Nat → lpm_lkup_table_stat →
    mtrie_t × lpm_lkup_table_stat
  | .nullp, _, _, st => (.nullp, st)
  | .block d b, level, 0, st =>
      let idx := a level
      match b idx with
      | .nullp => (.block d b, st)
      | sub@(.block _ bsub) =>
          if ∀ i : Fin 256, (bsub i).isNullp then
            (.block d (Function.update b idx .nullp),
             statMtrieFreeN st (mtrie_block_count sub))
          else
            (.block d b, st)
  | .block d b, level, rem + 1, st =>
      let idx := a level
      match b idx with
      | .nullp => (.block d b, st)
      | sub@(.block _ _) =>
          let out := delete_trie_block_go a sub (level + 1) rem st
          (.block d (Function.update b idx out.1), out.2)

/-- `delete_trie_block`: free the mtrie block below stride boundary `bitpos`
along `a`, nulling its parent entry's `base`. -/
def delete_trie_block (m : mtrie_t) (a : Addr) (bitpos : Nat) (st : lpm_lkup_table_stat) :
    mtrie_t × lpm_lkup_table_stat :=
  let trie_count := bitpos / 8 + 1
  delete_trie_block_go a m 0 (trie_count - 1) st

/-- Handling of one recursed-into child in `__delete_subtree`: a deletable
child subtree is destroyed (freed) and the slot nulled. -/
def del_child_step (res : Bool × btrie_node_t × mtrie_t × lpm_lkup_table_stat) :
    Bool × btrie_node_t × mtrie_t × lpm_lkup_table_stat :=
  if res.1 then
    (true, .nil, res.2.2.1, statBtrieFreeN res.2.2.2 (btrie_subtree_size res.2.1))
  else (false, res.2.1, res.2.2.1, res.2.2.2)

/-- Final step of `__delete_subtree` once both children were handled: report
deletability and free the mtrie block at a stride boundary. -/
def del_finish (d : Option Val) (lout rout : Bool × btrie_node_t × mtrie_t × lpm_lkup_table_stat)
    (a : Addr) (bitpos : Nat) (is_root : Bool) :
    Bool × btrie_node_t × mtrie_t × lpm_lkup_table_stat :=
  if (lout.1 && rout.1) && !is_root then
    if BOUNDARY_BIT_POSITION bitpos then
      (true, .node d lout.2.1 rout.2.1,
       (delete_trie_block rout.2.2.1 a bitpos rout.2.2.2).1,
       (delete_trie_block rout.2.2.1 a bitpos rout.2.2.2).2)
    else (true, .node d lout.2.1 rout.2.1, rout.2.2.1, rout.2.2.2)
  else (false, .node d lout.2.1 rout.2.1, rout.2.2.1, rout.2.2.2)

/-- `__delete_subtree`: recursively prune value-free btrie subtrees below
`temp_root`, freeing the corresponding mtrie block at each stride boundary
crossed; returns whether the caller may delete `temp_root` itself.  `bitpos`
follows the C `u32` arithmetic (the root call uses `(u32)-1`, and children
get `bitpos + 1` mod `2^32`). -/
def __delete_subtree (a : Addr) : btrie_node_t → Nat → Bool → mtrie_t →
    lpm_lkup_table_stat → Bool × btrie_node_t × mtrie_t × lpm_lkup_table_stat
  | .nil, _, _, m, st => (false, .nil, m, st)
  | .node d c0 c1, bitpos, is_root, m, st =>
      if c0.isNil && c1.isNil then
        (d.isNone, .node d c0 c1, m, st)
      else
        let lout : Bool × btrie_node_t × mtrie_t × lpm_lkup_table_stat :=
          if c0.isNil then (true, .nil, m, st)
          else del_child_step (__delete_subtree a c0 ((bitpos + 1) % 4294967296) false m st)
        if !c0.isNil && !lout.1 then
          (false, .node d lout.2.1 c1, lout.2.2.1, lout.2.2.2)
        else
          let rout : Bool × btrie_node_t × mtrie_t × lpm_lkup_table_stat :=
            if c1.isNil then (true, .nil, lout.2.2.1, lout.2.2.2)
            else del_child_step (__delete_subtree a c1 ((bitpos + 1) % 4294967296) false
                   lout.2.2.1 lout.2.2.2)
          if !c1.isNil && !rout.1 then
            (false, .node d lout.2.1 rout.2.1, rout.2.2.1, rout.2.2.2)
          else del_finish d lout rout a bitpos is_root

/-- `delete_subtree` wrapper. -/
def delete_subtree (a : Addr) (temp_root : btrie_node_t) (bitpos : Nat) (is_root : Bool)
    (m : mtrie_t) (st : lpm_lkup_table_stat) :
    Bool × btrie_node_t × mtrie_t × lpm_lkup_table_stat :=
  __delete_subtree a temp_root bitpos is_root m st

/-- Walk loop at the top of `__lpm_del_entry`: descend `rem` more bits from
position `pos`, tracking the deepest strictly less specific node carrying
data as `(depth, data, bitpos)`.  `none` models the `LPM_ERR_NOTFOUND` early
return when a child pointer is NULL. -/
def del_walk (a : Addr) : btrie_node_t → Nat → Nat → (Nat × Option Val × Nat) →
    Option (btrie_node_t × (Nat × Option Val × Nat))
  | cur, _, 0, lk => some (cur, lk)
  | cur, pos, rem + 1, lk =>
      match cur.child (bit_at_position a pos) with
      | .nil => none
      | nxt =>
          let lk' := if nxt.data ≠ none ∧ rem ≠ 0 then (pos + 1, nxt.data, pos) else lk
          del_walk a nxt (pos + 1) rem lk'

/-- The mtrie fixup step of `__lpm_del_entry` after the btrie data slot is
cleared: re-expand the deepest less specific route over the freed range (or
clear it), depending on the `lucky_node` bookkeeping. -/
def del_mtrie_fix (t : lpm_lkup_table_t) (a : Addr) (masklen : Nat) (lk_depth : Nat)
    (lk_data : Option Val) (lk_bitpos : Nat) (al : lpm_alloc_t) :
    lpm_result_t × mtrie_t × lpm_lkup_table_stat × lpm_alloc_t :=
  let bitpos := masklen - 1
  let root1 := btrie_set_data t.btrie_root a masklen none
  let st1 := statDataDel t.stat masklen
  let node1 := btrie_find_node root1 a masklen
  match lk_data with
  | some lkv =>
      if bitpos / 8 = lk_bitpos / 8 then
        let out := lpm_prefix_expansion (btrie_find_node root1 a lk_depth) a lk_bitpos
                     (some lkv) t.hi256_table_base st1 al
        (out.1, out.2.1, out.2.2.2)
      else
        let out := lpm_prefix_expansion node1 a bitpos none t.hi256_table_base st1 al
        (out.1, out.2.1, out.2.2.2)
  | none =>
      if node1.child false ≠ .nil ∨ node1.child true ≠ .nil then
        let out := lpm_prefix_expansion node1 a bitpos none t.hi256_table_base st1 al
        (out.1, out.2.1, out.2.2.2)
      else
        let out := zero_out_data t.hi256_table_base a masklen
        (out.1, out.2, st1, al)

/-- `__lpm_del_entry` (`masklen ≥ 1`, `a` is the zero-padded `temp_addr`). -/
def __lpm_del_entry (t : lpm_lkup_table_t) (a : Addr) (masklen : Nat) (al : lpm_alloc_t) :
    lpm_result_t × lpm_lkup_table_t × lpm_alloc_t :=
  match del_walk a t.btrie_root 0 masklen (0, none, 0) with
  | none => (LPM_ERR_NOTFOUND, t, al)
  | some walked =>
    let nodeEnd := walked.1
    let lk_depth := walked.2.1
    let lk_data := walked.2.2.1
    let lk_bitpos := walked.2.2.2
    match nodeEnd.data with
    | none => (LPM_ERR_NOTFOUND, t, al)
    | some _ =>
      let root1 := btrie_set_data t.btrie_root a masklen none
      let after := del_mtrie_fix t a masklen lk_depth lk_data lk_bitpos al
      if after.1 = LPM_SUCCESS then
        let bp := if lk_depth = 0 then 4294967295 else lk_bitpos
        let sub := btrie_find_node root1 a lk_depth
        let out := delete_subtree a sub bp (lk_depth = 0) after.2.1 after.2.2.1
        let root2 := btrie_replace_node root1 a lk_depth out.2.1
        (LPM_SUCCESS,
         { t with btrie_root := root2, hi256_table_base := out.2.2.1, stat := out.2.2.2 },
         after.2.2.2)
      else
        (after.1,
         { t with btrie_root := root1, hi256_table_base := after.2.1, stat := after.2.2.1 },
         after.2.2.2)

/-- `lpm_del_entry`. -/
def lpm_del_entry (table : Option lpm_lkup_table_t) (addr : Option Addr) (masklen : Nat)
    (al : lpm_alloc_t) : lpm_result_t × Option lpm_lkup_table_t × lpm_alloc_t :=
  match lpm_check_arg table addr masklen with
  | LPM_SUCCESS =>
    match table with
    | none => (LPM_ERR_INVALID, none, al)
    | some t =>
      match t.btrie_root, t.hi256_table_base with
      | .nil, _ => (LPM_ERR_INTERNAL, some t, al)
      | _, .nullp => (LPM_ERR_INTERNAL, some t, al)
      | root, _ =>
        if masklen = 0 then
          match root.data with
          | none => (LPM_ERR_NOTFOUND, some t, al)
          | some _ =>
              let root1 := btrie_set_data root (addrD addr) 0 none
              (LPM_SUCCESS,
               some { t with btrie_root := root1, stat := statDataDel t.stat 0 }, al)
        else
          let ta := temp_addr_of (addrD addr) masklen
          let out := __lpm_del_entry t ta masklen al
          (out.1, some out.2.1, out.2.2)
  | r => (r, table, al)

/-! ## Walking all entries -/

/-- What a visitor can observe of the 16-byte address buffer. -/
def addrBytes (a : Addr) : List Byte := (List.range LPM_LEVEL_MAX).map a

/-- Visitor type (`lpm_data_walker_func_t`), observing the address bytes. -/
abbrev lpm_data_walker_func_t := List Byte → Nat → Val → Int

/-- `__btrie_dfs_walk`: in-order walk (value, then left, then right) with the
classic set-bit/recurse/clear-bit address buffer discipline; also returns the
list of performed visitor invocations. -/
def __btrie_dfs_walk (w : lpm_data_walker_func_t) :
    btrie_node_t → Addr → Nat → lpm_result_t × Addr × List (List Byte × Nat × Val)
  | .nil, a, _ => (LPM_SUCCESS, a, [])
  | .node d c0 c1, a, bitpos =>
      let visit : List (List Byte × Nat × Val) :=
        match d with
        | some v => [(addrBytes a, bitpos, v)]
        | none => []
      let bad : Bool :=
        match d with
        | some v => decide (w (addrBytes a) bitpos v ≠ 0)
        | none => false
      if bad then (LPM_ERR_EXOTIC, a, visit)
      else
        let lout : lpm_result_t × Addr × List (List Byte × Nat × Val) :=
          if c0.isNil then (LPM_SUCCESS, a, [])
          else __btrie_dfs_walk w c0 (CLEAR_BIT_AT_POSITION a bitpos) (bitpos + 1)
        if lout.1 = LPM_SUCCESS then
          (if c1.isNil then (LPM_SUCCESS, lout.2.1, visit ++ lout.2.2)
          else
            let out := __btrie_dfs_walk w c1 (SET_BIT_AT_POSITION lout.2.1 bitpos) (bitpos + 1)
            (out.1, CLEAR_BIT_AT_POSITION out.2.1 bitpos, visit ++ lout.2.2 ++ out.2.2))
        else (lout.1, lout.2.1, visit ++ lout.2.2)

/-- `btrie_dfs_walk`: walk from a zeroed 16-byte buffer. -/
def btrie_dfs_walk (root : btrie_node_t) (w : lpm_data_walker_func_t) :
    lpm_result_t × List (List Byte × Nat × Val) :=
  let out := __btrie_dfs_walk w root zeroAddr 0
  (out.1, out.2.2)

/-- `lpm_walk_entry`: btrie DFS, then the default entry if present. -/
def lpm_walk_entry (table : Option lpm_lkup_table_t) (w : lpm_data_walker_func_t) :
    lpm_result_t × List (List Byte × Nat × Val) :=
  match table with
  | none => (LPM_ERR_INVALID, [])
  | some t =>
      match t.btrie_root with
      | .nil => (LPM_ERR_INTERNAL, [])
      | root =>
          let out := btrie_dfs_walk root w
          match t.default_data with
          | none => (out.1, out.2)
          | some dv =>
              let e := (addrBytes t.default_addr, t.default_masklen, dv)
              if w (addrBytes t.default_addr) t.default_masklen dv ≠ 0 then
                (LPM_ERR_EXOTIC, out.2 ++ [e])
              else (out.1, out.2 ++ [e])

/-! ## Table lifecycle and debug switches -/

/-- `lpm_create_table`: allocate the control block, the btrie root node and
the mtrie root block; `none` on any allocation failure (everything already
allocated is released again together with the table). -/
def lpm_create_table (name : Option String) (al : lpm_alloc_t) :
    Option lpm_lkup_table_t × lpm_alloc_t :=
  let (ok0, al0) := lpm_alloc_t.next al
  if ¬ok0 then (none, al0)
  else
    let nm := match name with
      | none => "Unknown"
      | some s => s.take (LPM_TABLE_NAME_LEN - 1)
    let (ok1, al1) := lpm_alloc_t.next al0
    if ¬ok1 then (none, al1)
    else
      let (ok2, al2) := lpm_alloc_t.next al1
      if ¬ok2 then (none, al2)
      else
        (some { name := nm
                btrie_root := .node none .nil .nil
                hi256_table_base := mtrie_empty_block
                default_data := none
                default_addr := zeroAddr
                default_masklen := 0
                debug_flag := 0
                stat := { stat0 with btrie_node_alloc_stat := 1, mtrie_block_alloc_stat := 1 } },
         al2)

def LPM_DEBUG_MASK : Nat := 2 ^ 64 - 1
def LPM_DEBUG_NORM : Nat := 1
def LPM_DEBUG_MEM : Nat := 2
def LPM_DEBUG_ALG : Nat := 4
def LPM_LOGGING : Nat := 8

/-- `lpm_debug_support`. -/
def lpm_debug_support (table : Option lpm_lkup_table_t) (debug : lpm_debug_t) (onv : Int) :
    lpm_result_t × Option lpm_lkup_table_t :=
  match table with
  | none => (LPM_ERR_INVALID, none)
  | some t =>
      if onv = 1 then
        let f : Nat :=
          match debug with
          | .DEBUG_NORMAL => t.debug_flag ||| LPM_DEBUG_NORM
          | .DEBUG_MEMORY => t.debug_flag ||| LPM_DEBUG_MEM
          | .DEBUG_ALGORITHM => t.debug_flag ||| LPM_DEBUG_ALG
          | .DEBUG_ALL => t.debug_flag ||| LPM_DEBUG_MASK
          | .LOGGING => t.debug_flag ||| LPM_LOGGING
        (LPM_SUCCESS, some { t with debug_flag := f })
      else if onv = 0 then
        let f : Nat :=
          match debug with
          | .DEBUG_NORMAL => t.debug_flag &&& (LPM_DEBUG_MASK ^^^ LPM_DEBUG_NORM)
          | .DEBUG_MEMORY => t.debug_flag &&& (LPM_DEBUG_MASK ^^^ LPM_DEBUG_MEM)
          | .DEBUG_ALGORITHM => t.debug_flag &&& (LPM_DEBUG_MASK ^^^ LPM_DEBUG_ALG)
          | .DEBUG_ALL => t.debug_flag &&& (LPM_DEBUG_MASK ^^^ LPM_DEBUG_MASK)
          | .LOGGING => t.debug_flag &&& (LPM_DEBUG_MASK ^^^ LPM_LOGGING)
        (LPM_SUCCESS, some { t with debug_flag := f })
      else (LPM_ERR_INVALID, some t)

/-! ## Specification-side functions -/

/-- Does the subtree contain any node holding a value? -/
def btrie_has_data : btrie_node_t → Bool
  | .nil => false
  | .node d c0 c1 => d.isSome || btrie_has_data c0 || btrie_has_data c1

/-- Does the subtree contain a value strictly below its root node? -/
def btrie_has_data_below : btrie_node_t → Bool
  | .nil => false
  | .node _ c0 c1 => btrie_has_data c0 || btrie_has_data c1

/-- A tidy btrie: every existing child subtree contains at least one value
(no value-free dangling subtrees, the shape §3 of the spec describes). -/
def btrie_clean : btrie_node_t → Bool
  | .nil => true
  | .node _ c0 c1 =>
      (c0.isNil || btrie_has_data c0) && (c1.isNil || btrie_has_data c1) &&
      btrie_clean c0 && btrie_clean c1

/-- Walk `rem` bits of `a` from position `pos` and return the value of the
deepest node carrying data whose depth `d` satisfies `lo < d`; `best`
accumulates.  `btrie_best_in_range a root lo hi` is the value bound to the
longest prefix `q` with `lo < |q| ≤ hi` matched by `a`. -/
def btrie_best_go (a : Addr) (lo : Nat) : btrie_node_t → Nat → Nat → Option Val → Option Val
  | _, _, 0, best => best
  | t, pos, rem + 1, best =>
      match t.child (bit_at_position a pos) with
      | .nil => best
      | nxt =>
          btrie_best_go a lo nxt (pos + 1) rem
            (if lo ≤ pos ∧ nxt.data ≠ none then nxt.data else best)

def btrie_best_in_range (a : Addr) (root : btrie_node_t) (lo hi : Nat) : Option Val :=
  btrie_best_go a lo root 0 hi none

/-- Value of the longest prefix with mask length in `[1, 128]` matching `a`. -/
def btrie_lpm (root : btrie_node_t) (a : Addr) : Option Val :=
  btrie_best_in_range a root 0 LPM_MASKLEN_MAX

/-- The mtrie block reached by following `rem` `base` edges along the bytes
of `a` starting at byte `lvl`. -/
def mtrie_block_at (a : Addr) : mtrie_t → Nat → Nat → mtrie_t
  | m, _, 0 => m
  | .nullp, _, _ + 1 => .nullp
  | .block _ b, lvl, rem + 1 => mtrie_block_at a (b (a lvl)) (lvl + 1) rem

/-- Chain completeness: blocks exist along `rem` `base` edges from byte
`lvl` of `a` (including the final frontier block). -/
def mtrie_chain_ok (a : Addr) : mtrie_t → Nat → Nat → Bool
  | .nullp, _, _ => false
  | .block _ _, _, 0 => true
  | .block _ b, lvl, rem + 1 => mtrie_chain_ok a (b (a lvl)) (lvl + 1) rem

/-- Main coherence invariant between the two tries.

* `mtrie_root`: the root block exists;
* `clean`: no value-free dangling btrie subtrees;
* `depth_ok`: no value deeper than mask length 128;
* `struct`: an mtrie block at level `k ≥ 1` exists on the chain of some
  address iff the btrie holds a binding longer than `8k` bits extending the
  first `8k` bits of that address;
* `content`: entry `a k` of the level-`k` block on `a`'s chain holds
  exactly the value of the longest binding of mask length in
  `(8k, 8k+8]` matched by `a` (or `none`). -/
structure lpm_inv (t : lpm_lkup_table_t) : Prop where
  mtrie_root : t.hi256_table_base.isNullp = false
  clean : btrie_clean t.btrie_root = true
  depth_ok : ∀ a : Addr, btrie_has_data_below (btrie_find_node t.btrie_root a 128) = false
  struct : ∀ (a : Addr) (k : Nat), 1 ≤ k → k ≤ 16 →
    ((mtrie_block_at a t.hi256_table_base 0 k).isNullp = false ↔
      btrie_has_data_below (btrie_find_node t.btrie_root a (8 * k)) = true)
  content : ∀ (a : Addr) (k : Nat), k ≤ 15 →
    (mtrie_block_at a t.hi256_table_base 0 k).isNullp = false →
    (mtrie_block_at a t.hi256_table_base 0 k).dataAt (a k) =
      btrie_best_in_range a t.btrie_root (8 * k) (8 * k + 8)

/-- Statistics invariant: the allocation counters track the number of live
btrie nodes and mtrie blocks, `data_total` tracks the per-mask-length
histogram and the number of value-carrying btrie nodes. -/
structure lpm_stat_inv (t : lpm_lkup_table_t) : Prop where
  btrie_cnt : t.stat.btrie_node_alloc_stat = (btrie_subtree_size t.btrie_root : Int)
  mtrie_cnt : t.stat.mtrie_block_alloc_stat = (mtrie_block_count t.hi256_table_base : Int)
  data_cnt : t.stat.data_total = (btrie_data_count t.btrie_root : Int)
  data_sum : t.stat.data_total =
    (Finset.range (LPM_MASKLEN_MAX + 1)).sum (fun i => (t.stat.data_per_masklen i : Int))
  masklen_bound : ∀ i, LPM_MASKLEN_MAX < i → t.stat.data_per_masklen i = 0

/-- States reachable from `lpm_create_table` by any sequence of public
mutating operations, with arbitrary allocation outcomes and any results. -/
inductive lpm_reachable : lpm_lkup_table_t → Prop where
  | created : ∀ (name : Option String) (al al' : lpm_alloc_t) (t : lpm_lkup_table_t),
      lpm_create_table name al = (some t, al') → lpm_reachable t
  | add_step : ∀ (t : lpm_lkup_table_t) (addr : Option Addr) (masklen : Nat)
      (data : Option Val) (al : lpm_alloc_t) (r : lpm_result_t) (t' : lpm_lkup_table_t)
      (al' : lpm_alloc_t), lpm_reachable t →
      lpm_add_entry (some t) addr masklen data al = (r, some t', al') → lpm_reachable t'
  | update_step : ∀ (t : lpm_lkup_table_t) (addr : Option Addr) (masklen : Nat)
      (data : Option Val) (al : lpm_alloc_t) (r : lpm_result_t) (t' : lpm_lkup_table_t)
      (al' : lpm_alloc_t), lpm_reachable t →
      lpm_update_entry (some t) addr masklen data al = (r, some t', al') → lpm_reachable t'
  | del_step : ∀ (t : lpm_lkup_table_t) (addr : Option Addr) (masklen : Nat)
      (al : lpm_alloc_t) (r : lpm_result_t) (t' : lpm_lkup_table_t) (al' : lpm_alloc_t),
      lpm_reachable t →
      lpm_del_entry (some t) addr masklen al = (r, some t', al') → lpm_reachable t'
  | update_default_step : ∀ (t : lpm_lkup_table_t) (addr : Option Addr) (masklen : Nat)
      (r : lpm_result_t) (t' : lpm_lkup_table_t), lpm_reachable t →
      lpm_update_default_data (some t) addr masklen = (r, some t') → lpm_reachable t'
  | del_default_step : ∀ (t : lpm_lkup_table_t) (r : lpm_result_t) (t' : lpm_lkup_table_t),
      lpm_reachable t →
      lpm_del_default_data (some t) = (r, some t') → lpm_reachable t'
  | debug_step : ∀ (t : lpm_lkup_table_t) (debug : lpm_debug_t) (onv : Int)
      (r : lpm_result_t) (t' : lpm_lkup_table_t), lpm_reachable t →
      lpm_debug_support (some t) debug onv = (r, some t') → lpm_reachable t'

/-- `t'` is a pruning of `t`: the same tree with some whole subtrees replaced
by NULL (what `__delete_subtree` does to the btrie). -/
inductive is_pruning : btrie_node_t → btrie_node_t → Prop where
  | nil (t : btrie_node_t) : is_pruning .nil t
  | node (d : Option Val) (c0' c1' c0 c1 : btrie_node_t) :
      is_pruning c0' c0 → is_pruning c1' c1 →
      is_pruning (.node d c0' c1') (.node d c0 c1)

/-! ## Concrete values used by witnesses -/

/-- A 4-byte (IPv4-style) address, remaining bytes zero. -/
def ipv4 (b0 b1 b2 b3 : Nat) : Addr :=
  fun i =>
    if i = 0 then mkByte b0
    else if i = 1 then mkByte b1
    else if i = 2 then mkByte b2
    else if i = 3 then mkByte b3
    else (0 : Byte)

/-- The table produced by `lpm_create_table` under a succeeding allocator. -/
def table0 : lpm_lkup_table_t :=
  { name := "v4"
    btrie_root := .node none .nil .nil
    hi256_table_base := mtrie_empty_block
    default_data := none
    default_addr := zeroAddr
    default_masklen := 0
    debug_flag := 0
    stat := { stat0 with btrie_node_alloc_stat := 1, mtrie_block_alloc_stat := 1 } }

/-- `table0` with a default datum installed (for witnesses). -/
def table0d : lpm_lkup_table_t := { table0 with default_data := some 5 }

def ip10 : Addr := ipv4 10 0 0 0

def addA : lpm_result_t × Option lpm_lkup_table_t × lpm_alloc_t :=
  lpm_add_entry (some table0) (some ip10) 8 (some 2) allocOK

def tableA : lpm_lkup_table_t :=
  match addA.2.1 with
  | some t => t
  | none => table0

/-- The failing add: the single btrie-node allocation for `10.0.0.0/8` on the
fresh table fails. -/
def addF : lpm_result_t × Option lpm_lkup_table_t × lpm_alloc_t :=
  lpm_add_entry (some table0) (some ip10) 8 (some 2) ⟨[false]⟩

/-- The table returned by the failing add. -/
def tableF : lpm_lkup_table_t :=
  match addF.2.1 with
  | some t => t
  | none => table0

def delD : lpm_result_t × Option lpm_lkup_table_t × lpm_alloc_t :=
  lpm_del_entry (some tableA) (some ip10) 8 allocOK

def tableD : lpm_lkup_table_t :=
  match delD.2.1 with
  | some t => t
  | none => tableA

def bytes_bit (bs : List Byte) (pos : Nat) : Bool :=
  Nat.testBit (bs.getD (pos / 8) 0).val (7 - pos % 8)

def btrie_bindings : btrie_node_t → Nat → List (Nat × Val)
  | .nil, _ => []
  | .node d c0 c1, depth =>
      (match d with
       | some v => [(depth, v)]
       | none => []) ++
      (btrie_bindings c0 (depth + 1) ++ btrie_bindings c1 (depth + 1))

/-- The `(address bytes, masklen, value)` bindings of a btrie subtree, the
address buffer maintained with the same clear-bit/recurse and
set-bit/recurse/clear-bit discipline as `__btrie_dfs_walk`: the entry for a
node at depth `bitpos` records the buffer whose bits on the path positions
hold the node's prefix and whose remaining bits are the caller's. -/
def btrie_bindings_addr : btrie_node_t → Addr → Nat → List (List Byte × Nat × Val)
  | .nil, _, _ => []
  | .node d c0 c1, a, bitpos =>
      (match d with
       | some v => [(addrBytes a, bitpos, v)]
       | none => []) ++
      (btrie_bindings_addr c0 (CLEAR_BIT_AT_POSITION a bitpos) (bitpos + 1) ++
       btrie_bindings_addr c1 (SET_BIT_AT_POSITION a bitpos) (bitpos + 1))

/-- Does a trace entry `e` report exactly the binding `(p, d, v)` (same
masklen, same value, and the same `d` leading address bits)? -/
def entry_matches (p : Addr) (d : Nat) (v : Val) (e : List Byte × Nat × Val) : Bool :=
  decide (e.2.1 = d ∧ e.2.2 = v ∧ ∀ i, i < d → bytes_bit e.1 i = bit_at_position p i)

/-- Adding the host route `0.0.0.0/128` to a fresh table (succeeds). -/
def add128 : lpm_result_t × Option lpm_lkup_table_t × lpm_alloc_t :=
  lpm_add_entry (some table0) (some zeroAddr) 128 (some 7) allocOK

def table128 : lpm_lkup_table_t :=
  match add128.2.1 with
  | some t => t
  | none => table0


/-! # Theorems -/

/-! ## C7: `lpm_search_table` and `using_default` -/

/-- Claim C7, counterexample: with a NULL table (or NULL address) the function
returns NULL *without* writing through `using_default` (the early-return at
the top of `lpm_search_table` precedes `*using_default = 0`), contradicting
the claim that every call with a non-null `using_default` pointer writes 0 or
1 through it. -/
theorem C7_counterexample :
    (lpm_search_table none (some zeroAddr)).2 = none ∧
    (lpm_search_table (some table0) none).2 = none :=
  ⟨rfl, rfl⟩

/-- Claim C7, amended: whenever `table` and `addr` are both non-null,
`lpm_search_table` writes 0 or 1 through `using_default` before returning;
with a NULL `table` or `addr` it returns NULL without writing. -/
theorem C7_search_writes_flag (t : lpm_lkup_table_t) (a : Addr) :
    (∃ b : Bool, (lpm_search_table (some t) (some a)).2 = some b) ∧
    (lpm_search_table none (some a)).2 = none ∧
    (lpm_search_table (some t) none).2 = none := by
  refine ⟨?_, rfl, rfl⟩
  cases h : lpm_search_mtrie a t.hi256_table_base 0 none with
  | none => exact ⟨true, by simp [lpm_search_table, h]⟩
  | some v => exact ⟨false, by simp [lpm_search_table, h]⟩

/-! ## C9: search miss with no default -/

/-- Claim C9: if no mtrie entry along the search path holds a value (the
mtrie walk yields `none`) and no default datum is installed, the search
returns NULL and still writes 1 through `using_default`; so
`used_default = 1` does not imply a non-null default was returned. -/
theorem C9_search_miss_no_default (t : lpm_lkup_table_t) (a : Addr)
    (hm : lpm_search_mtrie a t.hi256_table_base 0 none = none)
    (hd : t.default_data = none) :
    lpm_search_table (some t) (some a) = (none, some true) := by
  simp [lpm_search_table, hm, hd]

/-- Witness for C9 on the freshly created table and the zero address. -/
theorem C9_search_miss_no_default_witness :
    lpm_search_table (some table0) (some zeroAddr) = (none, some true) :=
  C9_search_miss_no_default table0 zeroAddr rfl rfl

/-! ## C10: `lpm_del_default_data` -/

/-- Claim C10: on a valid table, `lpm_del_default_data` returns NOTFOUND and
changes nothing when no default is installed; otherwise it returns SUCCESS
after clearing `default_data`, `default_masklen` and `default_addr`, leaving
every other field (btrie, mtrie, statistics) untouched. -/
theorem C10_del_default_data (t : lpm_lkup_table_t) :
    (t.default_data = none →
      lpm_del_default_data (some t) = (LPM_ERR_NOTFOUND, some t)) ∧
    (∀ d : Val, t.default_data = some d →
      lpm_del_default_data (some t) =
        (LPM_SUCCESS,
         some { t with default_data := none, default_masklen := 0,
                       default_addr := zeroAddr })) := by
  constructor
  · intro h
    simp [lpm_del_default_data, h]
  · intro d h
    simp [lpm_del_default_data, h]

/-- Witness for C10: both branches at concrete tables. -/
theorem C10_del_default_data_witness :
    lpm_del_default_data (some table0) = (LPM_ERR_NOTFOUND, some table0) ∧
    lpm_del_default_data (some table0d) =
      (LPM_SUCCESS,
       some { table0d with default_data := none, default_masklen := 0,
                           default_addr := zeroAddr }) :=
  ⟨(C10_del_default_data table0).1 rfl, (C10_del_default_data table0d).2 5 rfl⟩

/-! ## C1: the counterexample -/

/-- Claim C3, counterexample: an `lpm_add_entry` whose single allocation
(the first btrie node of `10.0.0.0/8`) fails does return RESOURCES, but the
post-call state is not identical to the pre-call state: the statistics
counter `btrie_node_alloc_fail_stat` has advanced from 0 to 1. -/
theorem C3_counterexample :
    (lpm_add_entry (some table0) (some (ipv4 10 0 0 0)) 8 (some 2) ⟨[false]⟩).1 =
      LPM_ERR_RESOURCES ∧
    ((lpm_add_entry (some table0) (some (ipv4 10 0 0 0)) 8 (some 2) ⟨[false]⟩).2.1.elim 0
      (fun t' => t'.stat.btrie_node_alloc_fail_stat)) = 1 ∧
    table0.stat.btrie_node_alloc_fail_stat = 0 :=
  ⟨rfl, rfl, rfl⟩

/-! ## Basic btrie lemmas -/

theorem lpm_check_arg_ok (t : lpm_lkup_table_t) (a : Addr) (m : Nat)
    (hm : m ≤ LPM_MASKLEN_MAX) : lpm_check_arg (some t) (some a) m = LPM_SUCCESS := by
  simp [lpm_check_arg, Nat.not_lt.2 hm]

theorem btrie_find_go_zero (a : Addr) (t : btrie_node_t) (pos : Nat) :
    btrie_find_node_go a t pos 0 = t := by
  cases t <;> rfl

theorem btrie_find_go_nil (a : Addr) (pos rem : Nat) :
    btrie_find_node_go a .nil pos rem = .nil := by
  cases rem <;> rfl

theorem btrie_find_go_succ (a : Addr) (d : Option Val) (c0 c1 : btrie_node_t)
    (pos rem : Nat) :
    btrie_find_node_go a (.node d c0 c1) pos (rem + 1) =
      btrie_find_node_go a (if bit_at_position a pos then c1 else c0) (pos + 1) rem := rfl

/-- Splitting a path walk at an intermediate depth. -/
theorem btrie_find_go_add (a : Addr) :
    ∀ (dd k pos : Nat) (t : btrie_node_t),
    btrie_find_node_go a t pos (dd + k) =
      btrie_find_node_go a (btrie_find_node_go a t pos dd) (pos + dd) k := by
  intro dd
  induction dd with
  | zero =>
      intro k pos t
      rw [Nat.zero_add, btrie_find_go_zero, Nat.add_zero]
  | succ dd ih =>
      intro k pos t
      cases t with
      | nil => rw [btrie_find_go_nil, btrie_find_go_nil, btrie_find_go_nil]
      | node d c0 c1 =>
          rw [Nat.succ_add, btrie_find_go_succ, btrie_find_go_succ, ih]
          have : pos + (dd + 1) = pos + 1 + dd := by omega
          rw [this]

/-- If the walk of `dd + k` bits succeeds, so does the walk of the first
`dd` bits. -/
theorem btrie_find_go_le (a : Addr) (dd k pos : Nat) (t : btrie_node_t)
    (h : btrie_find_node_go a t pos (dd + k) ≠ .nil) :
    btrie_find_node_go a t pos dd ≠ .nil := by
  intro hnil
  rw [btrie_find_go_add a dd k pos t, hnil, btrie_find_go_nil] at h
  exact h rfl

/-- Setting the value of an existing node makes the walk read it back. -/
theorem btrie_find_set_data (a : Addr) :
    ∀ (rem pos : Nat) (t : btrie_node_t) (v : Option Val),
    btrie_find_node_go a t pos rem ≠ .nil →
    (btrie_find_node_go a (btrie_set_data_go a t pos rem v) pos rem).data = v := by
  intro rem
  induction rem with
  | zero =>
      intro pos t v h
      rw [btrie_find_go_zero] at h
      cases t with
      | nil => exact absurd rfl h
      | node d c0 c1 => rfl
  | succ rem ih =>
      intro pos t v h
      cases t with
      | nil => exact absurd (btrie_find_go_nil a pos (rem + 1)) h
      | node d c0 c1 =>
          rw [btrie_find_go_succ] at h
          cases hb : bit_at_position a pos with
          | true =>
              rw [hb, if_pos rfl] at h
              have := ih (pos + 1) c1 v h
              simpa [btrie_set_data_go, hb, btrie_find_go_succ] using this
          | false =>
              rw [hb] at h
              simp only [Bool.false_eq_true, if_false] at h
              have := ih (pos + 1) c0 v h
              simpa [btrie_set_data_go, hb, btrie_find_go_succ] using this

/-- Data writes never change the NULL-ness of the tree. -/
theorem btrie_set_data_go_nil (a : Addr) :
    ∀ (rem pos : Nat) (t : btrie_node_t) (v : Option Val),
    btrie_set_data_go a t pos rem v = .nil ↔ t = .nil := by
  intro rem pos t v
  cases rem with
  | zero => cases t <;> simp [btrie_set_data_go]
  | succ rem =>
      cases t with
      | nil => simp [btrie_set_data_go]
      | node d c0 c1 =>
          cases hb : bit_at_position a pos <;> simp [btrie_set_data_go, hb]

theorem btrie_add_node_go_zero (a : Addr) (t : btrie_node_t) (pos : Nat)
    (res : lpm_result_t) (ap : Nat × Bool) (st : lpm_lkup_table_stat) (al : lpm_alloc_t) :
    btrie_add_node_go a t pos 0 res ap st al = (res, t, ap, st, al) := by
  cases t <;> rfl

/-- `btrie_add_node_go` on a fully existing path touches nothing and
reports `res`. -/
theorem btrie_add_node_go_exists (a : Addr) :
    ∀ (rem pos : Nat) (t : btrie_node_t) (res : lpm_result_t) (ap : Nat × Bool)
      (st : lpm_lkup_table_stat) (al : lpm_alloc_t),
    btrie_find_node_go a t pos rem ≠ .nil →
    ∃ ap', btrie_add_node_go a t pos rem res ap st al = (res, t, ap', st, al) := by
  intro rem
  induction rem with
  | zero =>
      intro pos t res ap st al _
      exact ⟨ap, btrie_add_node_go_zero a t pos res ap st al⟩
  | succ rem ih =>
      intro pos t res ap st al h
      cases t with
      | nil => exact absurd (btrie_find_go_nil a pos (rem + 1)) h
      | node d c0 c1 =>
          rw [btrie_find_go_succ] at h
          cases hb : bit_at_position a pos with
          | true =>
              rw [hb, if_pos rfl] at h
              have hc1 : c1 ≠ .nil := by
                intro hc; rw [hc, btrie_find_go_nil] at h; exact h rfl
              cases c1 with
              | nil => exact absurd rfl hc1
              | node d1 l1 r1 =>
                  obtain ⟨ap', heq⟩ :=
                    ih (pos + 1) (.node d1 l1 r1) res
                      (pos + 1, bit_at_position a (pos + 1)) st al h
                  exact ⟨ap', by simp [btrie_add_node_go, hb, heq]⟩
          | false =>
              rw [hb] at h
              simp only [Bool.false_eq_true, if_false] at h
              have hc0 : c0 ≠ .nil := by
                intro hc; rw [hc, btrie_find_go_nil] at h; exact h rfl
              cases c0 with
              | nil => exact absurd rfl hc0
              | node d0 l0 r0 =>
                  obtain ⟨ap', heq⟩ :=
                    ih (pos + 1) (.node d0 l0 r0) res
                      (pos + 1, bit_at_position a (pos + 1)) st al h
                  exact ⟨ap', by simp [btrie_add_node_go, hb, heq]⟩

/-- After a non-RESOURCES `btrie_add_node_go`, the path exists. -/
theorem btrie_add_node_go_ensures (a : Addr) :
    ∀ (rem pos : Nat) (t : btrie_node_t) (res : lpm_result_t) (ap : Nat × Bool)
      (st : lpm_lkup_table_stat) (al : lpm_alloc_t),
    t ≠ .nil →
    (btrie_add_node_go a t pos rem res ap st al).1 = LPM_ERR_RESOURCES ∨
      btrie_find_node_go a (btrie_add_node_go a t pos rem res ap st al).2.1 pos rem ≠ .nil := by
  intro rem
  induction rem with
  | zero =>
      intro pos t res ap st al ht
      rw [btrie_add_node_go_zero]
      right
      rw [btrie_find_go_zero]
      exact ht
  | succ rem ih =>
      intro pos t res ap st al ht
      cases t with
      | nil => exact absurd rfl ht
      | node d c0 c1 =>
          cases hb : bit_at_position a pos with
          | true =>
              cases c1 with
              | nil =>
                  cases hok : (lpm_alloc_t.next al).1 with
                  | true =>
                      have := ih (pos + 1) (.node none .nil .nil) LPM_SUCCESS ap
                        (statBtrieAlloc st) (lpm_alloc_t.next al).2 (by simp)
                      rcases this with hres | hfind
                      · left; simp [btrie_add_node_go, hb, hok, hres]
                      · right; simp [btrie_add_node_go, hb, hok, btrie_find_go_succ, hfind]
                  | false => left; simp [btrie_add_node_go, hb, hok]
              | node d1 l1 r1 =>
                  have := ih (pos + 1) (.node d1 l1 r1) res
                    (pos + 1, bit_at_position a (pos + 1)) st al (by simp)
                  rcases this with hres | hfind
                  · left; simp [btrie_add_node_go, hb, hres]
                  · right; simp [btrie_add_node_go, hb, btrie_find_go_succ, hfind]
          | false =>
              cases c0 with
              | nil =>
                  cases hok : (lpm_alloc_t.next al).1 with
                  | true =>
                      have := ih (pos + 1) (.node none .nil .nil) LPM_SUCCESS ap
                        (statBtrieAlloc st) (lpm_alloc_t.next al).2 (by simp)
                      rcases this with hres | hfind
                      · left; simp [btrie_add_node_go, hb, hok, hres]
                      · right; simp [btrie_add_node_go, hb, hok, btrie_find_go_succ, hfind]
                  | false => left; simp [btrie_add_node_go, hb, hok]
              | node d0 l0 r0 =>
                  have := ih (pos + 1) (.node d0 l0 r0) res
                    (pos + 1, bit_at_position a (pos + 1)) st al (by simp)
                  rcases this with hres | hfind
                  · left; simp [btrie_add_node_go, hb, hres]
                  · right; simp [btrie_add_node_go, hb, btrie_find_go_succ, hfind]

/-- The returned root of `btrie_add_node_go` is non-NULL when the input is. -/
theorem btrie_add_node_go_ne_nil (a : Addr) :
    ∀ (rem pos : Nat) (t : btrie_node_t) (res : lpm_result_t) (ap : Nat × Bool)
      (st : lpm_lkup_table_stat) (al : lpm_alloc_t),
    t ≠ .nil → (btrie_add_node_go a t pos rem res ap st al).2.1 ≠ .nil := by
  intro rem pos t res ap st al ht
  cases rem with
  | zero => rw [btrie_add_node_go_zero]; exact ht
  | succ rem =>
      cases t with
      | nil => exact absurd rfl ht
      | node d c0 c1 =>
          cases hb : bit_at_position a pos with
          | true =>
              cases c1 with
              | nil =>
                  cases hok : (lpm_alloc_t.next al).1 <;>
                    simp [btrie_add_node_go, hb, hok]
              | node d1 l1 r1 => simp [btrie_add_node_go, hb]
          | false =>
              cases c0 with
              | nil =>
                  cases hok : (lpm_alloc_t.next al).1 <;>
                    simp [btrie_add_node_go, hb, hok]
              | node d0 l0 r0 => simp [btrie_add_node_go, hb]

/-- `del_walk` either fails or stops at the node of the walked path. -/
theorem del_walk_char (a : Addr) :
    ∀ (rem pos : Nat) (t : btrie_node_t) (lk : Nat × Option Val × Nat),
    del_walk a t pos rem lk = none ∨
      ∃ lk', del_walk a t pos rem lk = some (btrie_find_node_go a t pos rem, lk') := by
  intro rem
  induction rem with
  | zero =>
      intro pos t lk
      right
      exact ⟨lk, by rw [btrie_find_go_zero]; rfl⟩
  | succ rem ih =>
      intro pos t lk
      cases t with
      | nil => left; rfl
      | node d c0 c1 =>
          cases hb : bit_at_position a pos with
          | true =>
              cases c1 with
              | nil => left; simp [del_walk, btrie_node_t.child, hb]
              | node d1 l1 r1 =>
                  rcases ih (pos + 1) (.node d1 l1 r1)
                    (if (.node d1 l1 r1 : btrie_node_t).data ≠ none ∧ rem ≠ 0
                     then (pos + 1, (.node d1 l1 r1 : btrie_node_t).data, pos) else lk)
                    with h | ⟨lk', h⟩
                  · left; simp [del_walk, btrie_node_t.child, hb, h]
                  · right
                    exact ⟨lk', by simp [del_walk, btrie_node_t.child, hb, h,
                      btrie_find_go_succ]⟩
          | false =>
              cases c0 with
              | nil => left; simp [del_walk, btrie_node_t.child, hb]
              | node d0 l0 r0 =>
                  rcases ih (pos + 1) (.node d0 l0 r0)
                    (if (.node d0 l0 r0 : btrie_node_t).data ≠ none ∧ rem ≠ 0
                     then (pos + 1, (.node d0 l0 r0 : btrie_node_t).data, pos) else lk)
                    with h | ⟨lk', h⟩
                  · left; simp [del_walk, btrie_node_t.child, hb, h]
                  · right
                    exact ⟨lk', by simp [del_walk, btrie_node_t.child, hb, h,
                      btrie_find_go_succ]⟩

/-! ## Pruning lemmas -/

theorem is_pruning_refl : ∀ (t : btrie_node_t), is_pruning t t := by
  intro t
  induction t with
  | nil => exact .nil _
  | node d c0 c1 ih0 ih1 => exact .node d c0 c1 c0 c1 ih0 ih1

/-- Walking a pruned tree yields NULL or a node holding the original value. -/
theorem is_pruning_find (a : Addr) :
    ∀ (rem pos : Nat) (t' t : btrie_node_t), is_pruning t' t →
    btrie_find_node_go a t' pos rem = .nil ∨
      (btrie_find_node_go a t' pos rem).data = (btrie_find_node_go a t pos rem).data := by
  intro rem
  induction rem with
  | zero =>
      intro pos t' t hp
      rw [btrie_find_go_zero, btrie_find_go_zero]
      cases hp with
      | nil => exact Or.inl rfl
      | node d c0' c1' c0 c1 h0 h1 => exact Or.inr rfl
  | succ rem ih =>
      intro pos t' t hp
      cases hp with
      | nil => left; exact btrie_find_go_nil a pos (rem + 1)
      | node d c0' c1' c0 c1 h0 h1 =>
          rw [btrie_find_go_succ, btrie_find_go_succ]
          cases hb : bit_at_position a pos with
          | true => simpa using ih (pos + 1) c1' c1 h1
          | false => simpa using ih (pos + 1) c0' c0 h0

theorem is_pruning_node (d : Option Val) {c0' c0 c1' c1 : btrie_node_t}
    (h0 : is_pruning c0' c0) (h1 : is_pruning c1' c1) :
    is_pruning (.node d c0' c1') (.node d c0 c1) :=
  .node d c0' c1' c0 c1 h0 h1

theorem del_child_step_pruning (res : Bool × btrie_node_t × mtrie_t × lpm_lkup_table_stat)
    (c : btrie_node_t) (h : is_pruning res.2.1 c) :
    is_pruning (del_child_step res).2.1 c := by
  unfold del_child_step
  split
  · exact .nil _
  · exact h

/-- `__delete_subtree` returns a pruning of its input whose root constructor
is preserved. -/
theorem delete_subtree_pruning (a : Addr) :
    ∀ (t : btrie_node_t) (bp : Nat) (ir : Bool) (m : mtrie_t) (st : lpm_lkup_table_stat),
    is_pruning (__delete_subtree a t bp ir m st).2.1 t ∧
      (__delete_subtree a t bp ir m st).2.1.isNil = t.isNil := by
  intro t
  induction t with
  | nil =>
      intro bp ir m st
      rw [__delete_subtree]
      exact ⟨.nil _, rfl⟩
  | node d c0 c1 ih0 ih1 =>
      intro bp ir m st
      rw [__delete_subtree]
      dsimp only [del_finish]
      split_ifs
      all_goals
        first
          | exact ⟨is_pruning_refl _, rfl⟩
          | (refine ⟨is_pruning_node d ?_ ?_, rfl⟩ <;>
              first
                | exact is_pruning.nil _
                | exact is_pruning_refl _
                | exact del_child_step_pruning _ _ ((ih0 _ _ _ _).1)
                | exact del_child_step_pruning _ _ ((ih1 _ _ _ _).1))

/-! ## The mtrie root block survives every operation -/

theorem lpm_pattern_generate_isNullp (m : mtrie_t) (idx : Byte) (bp : Nat) (v : Option Val) :
    (lpm_pattern_generate m idx bp v).isNullp = m.isNullp := by
  cases m <;> rfl

theorem mtrie_build_write_isNullp (a : Addr) (m : mtrie_t) (lvl rem : Nat)
    (wr : mtrie_t → mtrie_t) (st : lpm_lkup_table_stat) (al : lpm_alloc_t)
    (hm : m.isNullp = false) (hwr : ∀ x : mtrie_t, (wr x).isNullp = x.isNullp) :
    (mtrie_build_write a m lvl rem wr st al).2.1.isNullp = false := by
  cases m with
  | nullp => simp [mtrie_t.isNullp] at hm
  | block d b =>
      cases rem with
      | zero =>
          rw [mtrie_build_write]
          simpa using hwr (.block d b)
      | succ rem =>
          rw [mtrie_build_write]
          split <;> rfl

theorem lpm_gen_combinations_isNullp (m : mtrie_t) (a : Addr) (tb : Nat) (v : Option Val)
    (nb : nextbit_t) (st : lpm_lkup_table_stat) (al : lpm_alloc_t)
    (hm : m.isNullp = false) :
    (lpm_gen_combinations m a tb v nb st al).2.1.isNullp = false := by
  unfold lpm_gen_combinations
  split
  · cases nb <;> simpa [lpm_pattern_generate_isNullp] using hm
  · apply mtrie_build_write_isNullp _ _ _ _ _ _ _ hm
    intro x
    cases nb <;> simp [lpm_pattern_generate_isNullp]

theorem seq_success_isNullp
    (L : lpm_result_t × mtrie_t × Addr × lpm_lkup_table_stat × lpm_alloc_t)
    (f : lpm_result_t × mtrie_t × Addr × lpm_lkup_table_stat × lpm_alloc_t →
         lpm_result_t × mtrie_t × Addr × lpm_lkup_table_stat × lpm_alloc_t)
    (hL : L.2.1.isNullp = false)
    (hf : ∀ x, x.2.1.isNullp = false → (f x).2.1.isNullp = false) :
    (if L.1 = LPM_SUCCESS then f L else L).2.1.isNullp = false := by
  split
  · exact hf L hL
  · exact hL

theorem lpm_prefix_expansion_isNullp :
    ∀ (t : btrie_node_t) (a : Addr) (tb : Nat) (v : Option Val) (m : mtrie_t)
      (st : lpm_lkup_table_stat) (al : lpm_alloc_t), m.isNullp = false →
    (__lpm_prefix_expansion t a tb v m st al).2.1.isNullp = false := by
  intro t
  induction t with
  | nil =>
      intro a tb v m st al hm
      rw [__lpm_prefix_expansion]
      split
      · exact lpm_gen_combinations_isNullp _ _ _ _ _ _ _ hm
      · exact hm
  | node d c0 c1 ih0 ih1 =>
      intro a tb v m st al hm
      rw [__lpm_prefix_expansion]
      dsimp only
      split
      · exact lpm_gen_combinations_isNullp _ _ _ _ _ _ _ hm
      · split
        · exact lpm_gen_combinations_isNullp _ _ _ _ _ _ _ hm
        · exact seq_success_isNullp
            (if c0.isNil then
               let out := lpm_gen_combinations m a tb v .nb_zero st al
               (out.1, out.2.1, a, out.2.2)
             else if c0.data = none then
               __lpm_prefix_expansion c0 (CLEAR_BIT_AT_POSITION a (tb + 1)) (tb + 1) v m st al
             else (LPM_SUCCESS, m, a, st, al))
            (fun x =>
              if c1.isNil then
                let out := lpm_gen_combinations x.2.1 x.2.2.1 tb v .nb_one x.2.2.2.1 x.2.2.2.2
                (out.1, out.2.1, x.2.2.1, out.2.2)
              else if c1.data = none then
                __lpm_prefix_expansion c1 (SET_BIT_AT_POSITION x.2.2.1 (tb + 1)) (tb + 1) v
                  x.2.1 x.2.2.2.1 x.2.2.2.2
              else (LPM_SUCCESS, x.2.1, x.2.2.1, x.2.2.2))
            (by
              split
              · exact lpm_gen_combinations_isNullp _ _ _ _ _ _ _ hm
              · split
                · exact ih0 _ _ _ _ _ _ hm
                · exact hm)
            (fun x hx => by
              split
              · exact lpm_gen_combinations_isNullp _ _ _ _ _ _ _ hx
              · split
                · exact ih1 _ _ _ _ _ _ hx
                · exact hx)

theorem zero_out_walk_isNullp (a : Addr) (ml : Nat) :
    ∀ (m : mtrie_t) (lvl : Nat), m.isNullp = false →
    (zero_out_walk a ml m lvl).2.isNullp = false := by
  intro m lvl hm
  cases m with
  | nullp => simp [mtrie_t.isNullp] at hm
  | block d b =>
      rw [zero_out_walk]
      dsimp only
      split
      · exact hm
      · split
        · simp [lpm_pattern_generate, mtrie_t.setDataRange, mtrie_t.isNullp]
        · rfl

theorem zero_out_data_isNullp (m : mtrie_t) (a : Addr) (ml : Nat)
    (hm : m.isNullp = false) : (zero_out_data m a ml).2.isNullp = false := by
  cases m with
  | nullp => simp [mtrie_t.isNullp] at hm
  | block d b =>
      rw [zero_out_data]
      dsimp only
      split
      · simp [lpm_pattern_generate, mtrie_t.setDataRange, mtrie_t.isNullp]
      · split
        · rfl
        · rfl

theorem delete_trie_block_go_isNullp (a : Addr) :
    ∀ (m : mtrie_t) (lvl rem : Nat) (st : lpm_lkup_table_stat), m.isNullp = false →
    (delete_trie_block_go a m lvl rem st).1.isNullp = false := by
  intro m lvl rem st hm
  cases m with
  | nullp => simp [mtrie_t.isNullp] at hm
  | block d b =>
      cases rem with
      | zero =>
          rw [delete_trie_block_go]
          split
          · exact hm
          · split <;> rfl
      | succ rem =>
          rw [delete_trie_block_go]
          split
          · exact hm
          · rfl

theorem delete_trie_block_isNullp (m : mtrie_t) (a : Addr) (bp : Nat)
    (st : lpm_lkup_table_stat) (hm : m.isNullp = false) :
    (delete_trie_block m a bp st).1.isNullp = false :=
  delete_trie_block_go_isNullp a m 0 (bp / 8 + 1 - 1) st hm

theorem del_finish_isNullp (d : Option Val)
    (lout rout : Bool × btrie_node_t × mtrie_t × lpm_lkup_table_stat) (a : Addr)
    (bp : Nat) (ir : Bool) (hm : rout.2.2.1.isNullp = false) :
    (del_finish d lout rout a bp ir).2.2.1.isNullp = false := by
  unfold del_finish
  split
  · split
    · exact delete_trie_block_isNullp _ _ _ _ hm
    · exact hm
  · exact hm

theorem delete_subtree_isNullp (a : Addr) :
    ∀ (t : btrie_node_t) (bp : Nat) (ir : Bool) (m : mtrie_t) (st : lpm_lkup_table_stat),
    m.isNullp = false → (__delete_subtree a t bp ir m st).2.2.1.isNullp = false := by
  intro t
  induction t with
  | nil =>
      intro bp ir m st hm
      rw [__delete_subtree]
      exact hm
  | node d c0 c1 ih0 ih1 =>
      intro bp ir m st hm
      rw [__delete_subtree]
      have hg : ∀ x : Bool × btrie_node_t × mtrie_t × lpm_lkup_table_stat,
          x.2.2.1.isNullp = false →
          (if (!c0.isNil && !x.1) = true then
             (false, btrie_node_t.node d x.2.1 c1, x.2.2.1, x.2.2.2)
           else
             let rout : Bool × btrie_node_t × mtrie_t × lpm_lkup_table_stat :=
               if c1.isNil then (true, btrie_node_t.nil, x.2.2.1, x.2.2.2)
               else del_child_step (__delete_subtree a c1 ((bp + 1) % 4294967296) false
                      x.2.2.1 x.2.2.2)
             if (!c1.isNil && !rout.1) = true then
               (false, btrie_node_t.node d x.2.1 rout.2.1, rout.2.2.1, rout.2.2.2)
             else del_finish d x rout a bp ir).2.2.1.isNullp = false := by
        intro x hx
        split
        · exact hx
        · have hr : ∀ y : Bool × btrie_node_t × mtrie_t × lpm_lkup_table_stat,
              y.2.2.1.isNullp = false →
              (if (!c1.isNil && !y.1) = true then
                 (false, btrie_node_t.node d x.2.1 y.2.1, y.2.2.1, y.2.2.2)
               else del_finish d x y a bp ir).2.2.1.isNullp = false := by
            intro y hy
            split
            · exact hy
            · exact del_finish_isNullp _ _ _ _ _ _ hy
          have hrout : (if c1.isNil then (true, btrie_node_t.nil, x.2.2.1, x.2.2.2)
              else del_child_step (__delete_subtree a c1 ((bp + 1) % 4294967296) false
                     x.2.2.1 x.2.2.2)).2.2.1.isNullp = false := by
            split
            · exact hx
            · unfold del_child_step
              split
              · exact ih1 _ _ _ _ hx
              · exact ih1 _ _ _ _ hx
          exact hr _ hrout
      have hlout : (if c0.isNil then (true, btrie_node_t.nil, m, st)
          else del_child_step (__delete_subtree a c0 ((bp + 1) % 4294967296) false
                 m st)).2.2.1.isNullp = false := by
        split
        · exact hm
        · unfold del_child_step
          split
          · exact ih0 _ _ _ _ hm
          · exact ih0 _ _ _ _ hm
      by_cases hc : (c0.isNil && c1.isNil) = true
      · rw [if_pos hc]
        exact hm
      · rw [if_neg hc]
        exact hg _ hlout

theorem lpm_prefix_expansion_wrap_isNullp (t : btrie_node_t) (a : Addr) (tb : Nat)
    (v : Option Val) (m : mtrie_t) (st : lpm_lkup_table_stat) (al : lpm_alloc_t)
    (hm : m.isNullp = false) :
    (lpm_prefix_expansion t a tb v m st al).2.1.isNullp = false :=
  lpm_prefix_expansion_isNullp t a tb v m st al hm

theorem del_mtrie_fix_isNullp (t : lpm_lkup_table_t) (a : Addr) (m lkd : Nat)
    (lkv : Option Val) (lkb : Nat) (al : lpm_alloc_t)
    (hm : t.hi256_table_base.isNullp = false) :
    (del_mtrie_fix t a m lkd lkv lkb al).2.1.isNullp = false := by
  unfold del_mtrie_fix
  cases lkv with
  | none =>
      dsimp only
      split
      · exact lpm_prefix_expansion_wrap_isNullp _ _ _ _ _ _ _ hm
      · exact zero_out_data_isNullp _ _ _ hm
  | some lkv0 =>
      dsimp only
      split
      · exact lpm_prefix_expansion_wrap_isNullp _ _ _ _ _ _ _ hm
      · exact lpm_prefix_expansion_wrap_isNullp _ _ _ _ _ _ _ hm

/-! ## Replace/find composition -/

theorem btrie_replace_find_go (a : Addr) :
    ∀ (dd pos : Nat) (t sub : btrie_node_t),
    btrie_find_node_go a t pos dd ≠ .nil →
    btrie_find_node_go a (btrie_replace_node_go a t pos dd sub) pos dd = sub := by
  intro dd
  induction dd with
  | zero =>
      intro pos t sub _
      rw [btrie_find_go_zero]
      cases t <;> rfl
  | succ dd ih =>
      intro pos t sub h
      cases t with
      | nil => exact absurd (btrie_find_go_nil a pos (dd + 1)) h
      | node d c0 c1 =>
          rw [btrie_find_go_succ] at h
          cases hb : bit_at_position a pos with
          | true =>
              rw [hb, if_pos rfl] at h
              have := ih (pos + 1) c1 sub h
              simp [btrie_replace_node_go, hb, btrie_find_go_succ, this]
          | false =>
              rw [hb] at h
              simp only [Bool.false_eq_true, if_false] at h
              have := ih (pos + 1) c0 sub h
              simp [btrie_replace_node_go, hb, btrie_find_go_succ, this]

theorem btrie_replace_go_succ_ne_nil (a : Addr) (d : Option Val) (c0 c1 sub : btrie_node_t)
    (pos dd : Nat) :
    btrie_replace_node_go a (.node d c0 c1) pos (dd + 1) sub ≠ .nil := by
  cases hb : bit_at_position a pos <;> simp [btrie_replace_node_go, hb]

/-- Writing a value does not change which paths exist in the trie. -/
theorem btrie_find_go_set_data_nil (a : Addr) :
    ∀ (dd rem pos : Nat) (t : btrie_node_t) (v : Option Val),
    btrie_find_node_go a (btrie_set_data_go a t pos rem v) pos dd = .nil ↔
      btrie_find_node_go a t pos dd = .nil := by
  intro dd
  induction dd with
  | zero =>
      intro rem pos t v
      rw [btrie_find_go_zero, btrie_find_go_zero]
      exact btrie_set_data_go_nil a rem pos t v
  | succ dd ih =>
      intro rem pos t v
      cases t with
      | nil => cases rem <;> simp [btrie_set_data_go]
      | node d c0 c1 =>
          cases rem with
          | zero => simp [btrie_set_data_go, btrie_find_go_succ]
          | succ rem =>
              cases hb : bit_at_position a pos with
              | true => simp [btrie_set_data_go, hb, btrie_find_go_succ, ih]
              | false => simp [btrie_set_data_go, hb, btrie_find_go_succ, ih]

/-- The `lucky_node` depth recorded by the delete walk never exceeds the
walked depth. -/
theorem del_walk_lk_le (a : Addr) :
    ∀ (rem pos : Nat) (t : btrie_node_t) (lk : Nat × Option Val × Nat)
      (out : btrie_node_t × (Nat × Option Val × Nat)),
    lk.1 ≤ pos → del_walk a t pos rem lk = some out → out.2.1 ≤ pos + rem := by
  intro rem
  induction rem with
  | zero =>
      intro pos t lk out hlk h
      simp only [del_walk, Option.some.injEq] at h
      subst h
      simpa using hlk
  | succ rem ih =>
      intro pos t lk out hlk h
      cases hc : t.child (bit_at_position a pos) with
      | nil => rw [del_walk, hc] at h; exact absurd h (by simp)
      | node nd n0 n1 =>
          rw [del_walk, hc] at h
          simp only at h
          have := ih (pos + 1) (.node nd n0 n1)
            (if (btrie_node_t.node nd n0 n1).data ≠ none ∧ rem ≠ 0
             then (pos + 1, (btrie_node_t.node nd n0 n1).data, pos) else lk) out
            (by split
                · exact Nat.le_refl _
                · exact Nat.le_succ_of_le hlk) h
          omega

/-! ## `btrie_add_node` wrapper lemmas -/

theorem btrie_add_node_exists (a : Addr) (root : btrie_node_t) (m : Nat)
    (st : lpm_lkup_table_stat) (al : lpm_alloc_t)
    (h : btrie_find_node_go a root 0 m ≠ .nil) :
    ∃ ap', btrie_add_node root a m st al = (LPM_ERR_EXISTS, root, ap', st, al) := by
  unfold btrie_add_node
  by_cases hm : m = 0
  · subst hm
    simp only [if_pos rfl]
    exact ⟨(0, false), btrie_add_node_go_zero a root 0 LPM_ERR_EXISTS (0, false) st al⟩
  · rw [if_neg hm]
    exact btrie_add_node_go_exists a m 0 root LPM_ERR_EXISTS (0, bit_at_position a 0) st al h

theorem btrie_add_node_ensures (a : Addr) (root : btrie_node_t) (m : Nat)
    (st : lpm_lkup_table_stat) (al : lpm_alloc_t) (hr : root ≠ .nil) :
    (btrie_add_node root a m st al).1 = LPM_ERR_RESOURCES ∨
      btrie_find_node_go a (btrie_add_node root a m st al).2.1 0 m ≠ .nil := by
  unfold btrie_add_node
  by_cases hm : m = 0
  · subst hm
    simp only [if_pos rfl]
    exact btrie_add_node_go_ensures a 0 0 root LPM_ERR_EXISTS (0, false) st al hr
  · rw [if_neg hm]
    exact btrie_add_node_go_ensures a m 0 root LPM_ERR_EXISTS (0, bit_at_position a 0) st al hr

theorem btrie_add_node_ne_nil (a : Addr) (root : btrie_node_t) (m : Nat)
    (st : lpm_lkup_table_stat) (al : lpm_alloc_t) (hr : root ≠ .nil) :
    (btrie_add_node root a m st al).2.1 ≠ .nil := by
  unfold btrie_add_node
  by_cases hm : m = 0
  · subst hm
    simp only [if_pos rfl]
    exact btrie_add_node_go_ne_nil a 0 0 root LPM_ERR_EXISTS (0, false) st al hr
  · rw [if_neg hm]
    exact btrie_add_node_go_ne_nil a m 0 root LPM_ERR_EXISTS (0, bit_at_position a 0) st al hr

set_option maxHeartbeats 1000000 in
theorem lpm_add_entry_success_shape (t t1 : lpm_lkup_table_t) (a : Addr) (m : Nat) (v : Val)
    (al al' : lpm_alloc_t)
    (h : lpm_add_entry (some t) (some a) m (some v) al = (LPM_SUCCESS, some t1, al')) :
    btrie_find_data t1.btrie_root a m = some v ∧ t1.btrie_root ≠ .nil ∧
      t1.hi256_table_base.isNullp = false ∧ m ≤ LPM_MASKLEN_MAX := by
  by_cases hm : m ≤ LPM_MASKLEN_MAX
  case neg =>
    exfalso
    have hc : lpm_check_arg (some t) (some a) m = LPM_ERR_INVALID := by
      simp [lpm_check_arg, Nat.lt_of_not_le hm]
    unfold lpm_add_entry at h
    rw [hc] at h
    simp at h
  case pos =>
    have hc := lpm_check_arg_ok t a m hm
    unfold lpm_add_entry at h
    rw [hc] at h
    simp only [addrD] at h
    rcases hroot : t.btrie_root with _ | ⟨rd, rc0, rc1⟩
    · rw [hroot] at h; simp at h
    rcases hmt : t.hi256_table_base with _ | ⟨db, bb⟩
    · rw [hroot, hmt] at h; simp at h
    rw [hroot, hmt] at h
    simp only at h
    split at h
    · simp at h
    · rename_i heq1
      have hnodenil : (btrie_node_t.node rd rc0 rc1 : btrie_node_t) ≠ .nil := by simp
      have hne : (btrie_add_node (btrie_node_t.node rd rc0 rc1) a m t.stat al).2.1 ≠ .nil :=
        btrie_add_node_ne_nil a _ m t.stat al hnodenil
      have hfind : btrie_find_node_go a
          (btrie_add_node (btrie_node_t.node rd rc0 rc1) a m t.stat al).2.1 0 m ≠ .nil := by
        rcases btrie_add_node_ensures a (.node rd rc0 rc1) m t.stat al hnodenil with hres | hf
        · rw [heq1] at hres; simp at hres
        · exact hf
      split at h
      · split at h <;> simp at h
      · rename_i heq2
        split at h
        · rename_i hm0
          subst hm0
          simp only [Prod.mk.injEq, Option.some.injEq] at h
          obtain ⟨-, ht1, -⟩ := h
          subst ht1
          refine ⟨?_, ?_, ?_, hm⟩
          · exact btrie_find_set_data a 0 0 _ (some v) hfind
          · intro hnil
            exact hne ((btrie_set_data_go_nil a 0 0 _ (some v)).mp hnil)
          · rfl
        · split at h
          · simp only [Prod.mk.injEq, Option.some.injEq] at h
            obtain ⟨-, ht1, -⟩ := h
            subst ht1
            refine ⟨?_, ?_, ?_, hm⟩
            · exact btrie_find_set_data a m 0 _ (some v) hfind
            · intro hnil
              exact hne ((btrie_set_data_go_nil a m 0 _ (some v)).mp hnil)
            · exact lpm_prefix_expansion_wrap_isNullp _ _ _ _ _ _ _ rfl
          · first
              | (split at h <;> simp at h)
              | simp at h
          · simp at h
    · rename_i heq1
      have hnodenil : (btrie_node_t.node rd rc0 rc1 : btrie_node_t) ≠ .nil := by simp
      have hne : (btrie_add_node (btrie_node_t.node rd rc0 rc1) a m t.stat al).2.1 ≠ .nil :=
        btrie_add_node_ne_nil a _ m t.stat al hnodenil
      have hfind : btrie_find_node_go a
          (btrie_add_node (btrie_node_t.node rd rc0 rc1) a m t.stat al).2.1 0 m ≠ .nil := by
        rcases btrie_add_node_ensures a (.node rd rc0 rc1) m t.stat al hnodenil with hres | hf
        · rw [heq1] at hres; simp at hres
        · exact hf
      split at h
      · split at h <;> simp at h
      · rename_i heq2
        split at h
        · rename_i hm0
          subst hm0
          simp only [Prod.mk.injEq, Option.some.injEq] at h
          obtain ⟨-, ht1, -⟩ := h
          subst ht1
          refine ⟨?_, ?_, ?_, hm⟩
          · exact btrie_find_set_data a 0 0 _ (some v) hfind
          · intro hnil
            exact hne ((btrie_set_data_go_nil a 0 0 _ (some v)).mp hnil)
          · rfl
        · split at h
          · simp only [Prod.mk.injEq, Option.some.injEq] at h
            obtain ⟨-, ht1, -⟩ := h
            subst ht1
            refine ⟨?_, ?_, ?_, hm⟩
            · exact btrie_find_set_data a m 0 _ (some v) hfind
            · intro hnil
              exact hne ((btrie_set_data_go_nil a m 0 _ (some v)).mp hnil)
            · exact lpm_prefix_expansion_wrap_isNullp _ _ _ _ _ _ _ rfl
          · first
              | (split at h <;> simp at h)
              | simp at h
          · simp at h
    · rename_i hns
      simp only [Prod.mk.injEq] at h
      exact absurd h.1 hns

theorem lpm_add_entry_exists (t1 : lpm_lkup_table_t) (a : Addr) (m : Nat) (v : Val)
    (al2 : lpm_alloc_t)
    (h1 : btrie_find_data t1.btrie_root a m = some v)
    (h2 : t1.btrie_root ≠ .nil) (h3 : t1.hi256_table_base.isNullp = false)
    (hm : m ≤ LPM_MASKLEN_MAX) :
    lpm_add_entry (some t1) (some a) m (some v) al2 = (LPM_ERR_EXISTS, some t1, al2) := by
  have hfind : btrie_find_node_go a t1.btrie_root 0 m ≠ .nil := by
    intro hnil
    unfold btrie_find_data btrie_find_node at h1
    rw [hnil] at h1
    simp [btrie_node_t.data] at h1
  unfold lpm_add_entry
  rw [lpm_check_arg_ok t1 a m hm]
  simp only [addrD]
  rcases hroot : t1.btrie_root with _ | ⟨rd, rc0, rc1⟩
  · exact absurd hroot h2
  rcases hmt : t1.hi256_table_base with _ | ⟨db, bb⟩
  · rw [hmt] at h3; simp [mtrie_t.isNullp] at h3
  simp only
  obtain ⟨ap', hadd⟩ :=
    btrie_add_node_exists a (.node rd rc0 rc1) m t1.stat al2 (hroot ▸ hfind)
  have hd : (btrie_find_node (btrie_node_t.node rd rc0 rc1) a m).data = some v := by
    unfold btrie_find_data at h1
    rw [hroot] at h1
    exact h1
  rw [hadd]
  simp only [hd]
  rw [if_pos trivial, ← hroot, ← hmt]

theorem find_after_replace (a : Addr) (root1 sub' : btrie_node_t) (dd m : Nat)
    (hle : dd ≤ m) (hpath : btrie_find_node_go a root1 0 dd ≠ .nil)
    (hp : is_pruning sub' (btrie_find_node_go a root1 0 dd))
    (hdata : (btrie_find_node_go a root1 0 m).data = none) :
    (btrie_find_node_go a (btrie_replace_node_go a root1 0 dd sub') 0 m).data = none := by
  obtain ⟨k, hk⟩ : ∃ k, m = dd + k := ⟨m - dd, by omega⟩
  subst hk
  rw [btrie_find_go_add a dd k 0, btrie_replace_find_go a dd 0 root1 sub' hpath]
  rcases is_pruning_find a k (0 + dd) sub' (btrie_find_node_go a root1 0 dd) hp with hnil | hdeq
  · rw [hnil]; rfl
  · rw [hdeq, ← btrie_find_go_add]
    exact hdata

theorem btrie_replace_preserve_ne_nil (a : Addr) (root1 sub' : btrie_node_t) (dd : Nat)
    (hr1 : root1 ≠ .nil) (he : sub'.isNil = (btrie_find_node_go a root1 0 dd).isNil) :
    btrie_replace_node_go a root1 0 dd sub' ≠ .nil := by
  cases dd with
  | zero =>
      have h0 : btrie_replace_node_go a root1 0 0 sub' = sub' := by cases root1 <;> rfl
      rw [h0]
      rw [btrie_find_go_zero] at he
      intro hs
      subst hs
      cases hroot1 : root1 with
      | nil => exact hr1 hroot1
      | node d c0 c1 => rw [hroot1] at he; simp [btrie_node_t.isNil] at he
  | succ dd =>
      cases root1 with
      | nil => exact absurd rfl hr1
      | node d c0 c1 => exact btrie_replace_go_succ_ne_nil a d c0 c1 sub' 0 dd

set_option maxHeartbeats 1000000 in
theorem lpm_del_core_shape (t : lpm_lkup_table_t) (ta : Addr) (m : Nat) (al : lpm_alloc_t)
    (hroot : t.btrie_root ≠ .nil) (hmt : t.hi256_table_base.isNullp = false)
    (hr : (__lpm_del_entry t ta m al).1 = LPM_SUCCESS) :
    btrie_find_data (__lpm_del_entry t ta m al).2.1.btrie_root ta m = none ∧
      (__lpm_del_entry t ta m al).2.1.btrie_root ≠ .nil ∧
      (__lpm_del_entry t ta m al).2.1.hi256_table_base.isNullp = false := by
  unfold __lpm_del_entry at hr ⊢
  rcases del_walk_char ta m 0 t.btrie_root (0, none, 0) with hw | ⟨lk', hw⟩
  · rw [hw] at hr ⊢
    simp at hr
  · rw [hw] at hr ⊢
    simp only at hr ⊢
    rcases hnd : (btrie_find_node_go ta t.btrie_root 0 m).data with _ | d0
    · first
        | simp at hr
        | (rw [hnd] at hr; simp at hr)
    · rw [hnd] at hr
      simp only at hr ⊢
      split at hr
      case isFalse hcnd =>
        simp only at hr
        exact absurd hr hcnd
      case isTrue hcnd =>
        rw [if_pos hcnd]
        simp only
        have hend_ne : btrie_find_node_go ta t.btrie_root 0 m ≠ .nil := by
          intro hn; rw [hn] at hnd; simp [btrie_node_t.data] at hnd
        have hlk_le : lk'.1 ≤ m := by
          have := del_walk_lk_le ta m 0 t.btrie_root (0, none, 0)
            (btrie_find_node_go ta t.btrie_root 0 m, lk') (by simp) hw
          simpa using this
        have hr1_ne : btrie_set_data t.btrie_root ta m none ≠ .nil := by
          intro hn
          exact hroot ((btrie_set_data_go_nil ta m 0 t.btrie_root none).mp hn)
        have hfr1_ne : btrie_find_node_go ta (btrie_set_data t.btrie_root ta m none) 0 m
            ≠ .nil := by
          intro hn
          exact hend_ne ((btrie_find_go_set_data_nil ta m m 0 t.btrie_root none).mp hn)
        have hfr1_data :
            (btrie_find_node_go ta (btrie_set_data t.btrie_root ta m none) 0 m).data = none :=
          btrie_find_set_data ta m 0 t.btrie_root none hend_ne
        have hsub_ne : btrie_find_node_go ta (btrie_set_data t.btrie_root ta m none) 0 lk'.1
            ≠ .nil := by
          apply btrie_find_go_le ta lk'.1 (m - lk'.1) 0
          have hksum : lk'.1 + (m - lk'.1) = m := by omega
          rw [hksum]
          exact hfr1_ne
        obtain ⟨hp, hnil_eq⟩ := delete_subtree_pruning ta
          (btrie_find_node (btrie_set_data t.btrie_root ta m none) ta lk'.1)
          (if lk'.1 = 0 then 4294967295 else lk'.2.2) (decide (lk'.1 = 0))
          (del_mtrie_fix t ta m lk'.1 lk'.2.1 lk'.2.2 al).2.1
          (del_mtrie_fix t ta m lk'.1 lk'.2.1 lk'.2.2 al).2.2.1
        refine ⟨?_, ?_, ?_⟩
        · exact find_after_replace ta (btrie_set_data t.btrie_root ta m none) _ lk'.1 m
            hlk_le hsub_ne hp hfr1_data
        · exact btrie_replace_preserve_ne_nil ta (btrie_set_data t.btrie_root ta m none) _
            lk'.1 hr1_ne hnil_eq
        · exact delete_subtree_isNullp ta _ _ _ _ _
            (del_mtrie_fix_isNullp t ta m lk'.1 lk'.2.1 lk'.2.2 al hmt)

set_option maxHeartbeats 1000000 in
theorem lpm_del_entry_success_shape (t t1 : lpm_lkup_table_t) (a : Addr) (m : Nat)
    (al al' : lpm_alloc_t)
    (h : lpm_del_entry (some t) (some a) m al = (LPM_SUCCESS, some t1, al')) :
    btrie_find_data t1.btrie_root (temp_addr_of a m) m = none ∧ t1.btrie_root ≠ .nil ∧
      t1.hi256_table_base.isNullp = false ∧ m ≤ LPM_MASKLEN_MAX := by
  by_cases hm : m ≤ LPM_MASKLEN_MAX
  case neg =>
    exfalso
    have hc : lpm_check_arg (some t) (some a) m = LPM_ERR_INVALID := by
      simp [lpm_check_arg, Nat.lt_of_not_le hm]
    unfold lpm_del_entry at h
    rw [hc] at h
    simp at h
  case pos =>
    have hc := lpm_check_arg_ok t a m hm
    unfold lpm_del_entry at h
    rw [hc] at h
    simp only [addrD] at h
    rcases hroot : t.btrie_root with _ | ⟨rd, rc0, rc1⟩
    · rw [hroot] at h; simp at h
    rcases hmt : t.hi256_table_base with _ | ⟨db, bb⟩
    · rw [hroot, hmt] at h; simp at h
    rw [hroot, hmt] at h
    simp only at h
    by_cases hm0 : m = 0
    · subst hm0
      rw [if_pos rfl] at h
      rcases rd with _ | d0
      · simp [btrie_node_t.data] at h
      · simp only [btrie_node_t.data, Prod.mk.injEq, Option.some.injEq] at h
        obtain ⟨-, ht1, -⟩ := h
        subst ht1
        refine ⟨?_, ?_, ?_, hm⟩
        · simp [btrie_find_data, btrie_find_node, btrie_set_data, btrie_set_data_go,
            btrie_find_go_zero, btrie_node_t.data]
        · simp [btrie_set_data, btrie_set_data_go]
        · rfl
    · rw [if_neg hm0] at h
      simp only [Prod.mk.injEq, Option.some.injEq] at h
      obtain ⟨hr, ht1, hal⟩ := h
      have hcore := lpm_del_core_shape t (temp_addr_of a m) m al
        (by rw [hroot]; simp) (by rw [hmt]; rfl) hr
      rw [ht1] at hcore
      exact ⟨hcore.1, hcore.2.1, hcore.2.2, hm⟩

set_option maxHeartbeats 1000000 in
theorem lpm_del_entry_notfound (t1 : lpm_lkup_table_t) (a : Addr) (m : Nat) (al2 : lpm_alloc_t)
    (h1 : btrie_find_data t1.btrie_root (temp_addr_of a m) m = none)
    (h2 : t1.btrie_root ≠ .nil) (h3 : t1.hi256_table_base.isNullp = false)
    (hm : m ≤ LPM_MASKLEN_MAX) :
    lpm_del_entry (some t1) (some a) m al2 = (LPM_ERR_NOTFOUND, some t1, al2) := by
  unfold lpm_del_entry
  rw [lpm_check_arg_ok t1 a m hm]
  simp only [addrD]
  rcases hroot : t1.btrie_root with _ | ⟨rd, rc0, rc1⟩
  · exact absurd hroot h2
  rcases hmt : t1.hi256_table_base with _ | ⟨db, bb⟩
  · rw [hmt] at h3; simp [mtrie_t.isNullp] at h3
  simp only
  by_cases hm0 : m = 0
  · subst hm0
    rw [if_pos rfl]
    have hd : rd = none := by
      unfold btrie_find_data btrie_find_node at h1
      rw [hroot, btrie_find_go_zero] at h1
      exact h1
    subst hd
    simp [btrie_node_t.data]
  · rw [if_neg hm0]
    have hsuf : __lpm_del_entry t1 (temp_addr_of a m) m al2 =
        (LPM_ERR_NOTFOUND, t1, al2) := by
      unfold __lpm_del_entry
      rcases del_walk_char (temp_addr_of a m) m 0 t1.btrie_root (0, none, 0)
        with hw | ⟨lk', hw⟩
      · rw [hw]
      · rw [hw]
        have hnd : (btrie_find_node_go (temp_addr_of a m) t1.btrie_root 0 m).data = none := h1
        simp [hnd]
    rw [hsuf]

/-- **C4**: adding the same prefix with the same value twice makes the second
`lpm_add_entry` return `LPM_ERR_EXISTS` with the table (and allocator)
unchanged, and deleting the same prefix twice makes the second
`lpm_del_entry` return `LPM_ERR_NOTFOUND` with the table unchanged. -/
theorem btrie_add_reads_ok_of_lt (a : Addr) :
    ∀ (rem pos : Nat) (t : btrie_node_t), pos + rem < LPM_MASKLEN_MAX →
    btrie_add_reads_ok a t pos rem = true := by
  intro rem
  induction rem with
  | zero =>
      intro pos t _
      cases t <;> rfl
  | succ rem ih =>
      intro pos t h
      simp only [LPM_MASKLEN_MAX] at h
      cases t with
      | nil => rfl
      | node d c0 c1 =>
          have hp : decide (pos < LPM_MASKLEN_MAX) = true := by
            simp only [LPM_MASKLEN_MAX]
            simp only [decide_eq_true_eq]
            omega
          have hp1 : decide (pos + 1 < LPM_MASKLEN_MAX) = true := by
            simp only [LPM_MASKLEN_MAX]
            simp only [decide_eq_true_eq]
            omega
          simp only [btrie_add_reads_ok, hp, hp1, Bool.true_and]
          split
          · cases c1 with
            | nil =>
                exact ih (pos + 1) (.node none .nil .nil)
                  (by simp only [LPM_MASKLEN_MAX]; omega)
            | node d1 l1 r1 =>
                exact ih (pos + 1) (.node d1 l1 r1)
                  (by simp only [LPM_MASKLEN_MAX]; omega)
          · cases c0 with
            | nil =>
                exact ih (pos + 1) (.node none .nil .nil)
                  (by simp only [LPM_MASKLEN_MAX]; omega)
            | node d0 l0 r0 =>
                exact ih (pos + 1) (.node d0 l0 r0)
                  (by simp only [LPM_MASKLEN_MAX]; omega)

theorem btrie_add_node_reads_ok_of_lt (root : btrie_node_t) (a : Addr) (m : Nat)
    (hm : m < LPM_MASKLEN_MAX) : btrie_add_node_reads_ok root a m = true := by
  unfold btrie_add_node_reads_ok
  split
  · rfl
  · exact btrie_add_reads_ok_of_lt a m 0 root (by simpa using hm)

/-- **C4** (amended): for `masklen < 128`, re-adding an existing
`(addr, masklen, value)` binding returns `LPM_ERR_EXISTS` and leaves table
and allocator untouched, and — for any masklen — re-deleting a deleted
binding returns `LPM_ERR_NOTFOUND` with the table untouched; moreover for
`masklen < 128` every bit position read by the `btrie_add_node` loop stays
below `LPM_MASKLEN_MAX`, so the `assert` inside the C `bit_at_position`
cannot fire in the amended range.  At `masklen = 128` the original claim
fails: the re-add reads bit position 128 and aborts (`C4_counterexample`). -/
theorem C4_idempotence :
    (∀ (t t1 : lpm_lkup_table_t) (a : Addr) (m : Nat) (v : Val) (al al' al2 : lpm_alloc_t),
       m < LPM_MASKLEN_MAX →
       lpm_add_entry (some t) (some a) m (some v) al = (LPM_SUCCESS, some t1, al') →
       lpm_add_entry (some t1) (some a) m (some v) al2 = (LPM_ERR_EXISTS, some t1, al2)) ∧
    (∀ (t t1 : lpm_lkup_table_t) (a : Addr) (m : Nat) (al al' al2 : lpm_alloc_t),
       lpm_del_entry (some t) (some a) m al = (LPM_SUCCESS, some t1, al') →
       lpm_del_entry (some t1) (some a) m al2 = (LPM_ERR_NOTFOUND, some t1, al2)) ∧
    (∀ (root : btrie_node_t) (a : Addr) (m : Nat), m < LPM_MASKLEN_MAX →
       btrie_add_node_reads_ok root a m = true) := by
  refine ⟨?_, ?_, ?_⟩
  · intro t t1 a m v al al' al2 _ h
    obtain ⟨h1, h2, h3, hm⟩ := lpm_add_entry_success_shape t t1 a m v al al' h
    exact lpm_add_entry_exists t1 a m v al2 h1 h2 h3 hm
  · intro t t1 a m al al' al2 h
    obtain ⟨h1, h2, h3, hm⟩ := lpm_del_entry_success_shape t t1 a m al al' h
    exact lpm_del_entry_notfound t1 a m al2 h1 h2 h3 hm
  · intro root a m hm
    exact btrie_add_node_reads_ok_of_lt root a m hm

set_option maxRecDepth 10000 in
/-- Claim C4, counterexample at `masklen = 128` (a value the claim covers):
`add(0.0.0.0/128, 7)` on a fresh table succeeds, but the second identical
add walks the now fully existing 128-bit path, whose final iteration stores
`*append_bit = bit_at_position(addr, pos + 1)` with `pos = 127` (lpm.c:158):
a read at bit position 128 that fails `assert(pos < LPM_MASKLEN_MAX)` in
`bit_at_position` (lpm_internal.h:198) — the program aborts (or reads past
the 16-byte buffer) instead of returning `LPM_ERR_EXISTS` with the table
unchanged. -/
theorem C4_counterexample :
    add128.1 = LPM_SUCCESS ∧
    btrie_add_node_reads_ok table128.btrie_root zeroAddr 128 = false := by
  constructor
  · rfl
  · rfl

/-- Witness for C4 on a concrete run: add 10.0.0.0/8 → 2 to a fresh table,
re-add (EXISTS), delete it, re-delete (NOTFOUND); the /8 re-add performs
only in-range bit reads. -/
theorem C4_idempotence_witness :
    lpm_add_entry (some table0) (some ip10) 8 (some 2) allocOK
        = (LPM_SUCCESS, some tableA, addA.2.2) ∧
    lpm_add_entry (some tableA) (some ip10) 8 (some 2) allocOK
        = (LPM_ERR_EXISTS, some tableA, allocOK) ∧
    lpm_del_entry (some tableA) (some ip10) 8 allocOK
        = (LPM_SUCCESS, some tableD, delD.2.2) ∧
    lpm_del_entry (some tableD) (some ip10) 8 allocOK
        = (LPM_ERR_NOTFOUND, some tableD, allocOK) ∧
    btrie_add_node_reads_ok tableA.btrie_root ip10 8 = true := by
  have h1 : lpm_add_entry (some table0) (some ip10) 8 (some 2) allocOK
      = (LPM_SUCCESS, some tableA, addA.2.2) := rfl
  have h3 : lpm_del_entry (some tableA) (some ip10) 8 allocOK
      = (LPM_SUCCESS, some tableD, delD.2.2) := rfl
  exact ⟨h1, C4_idempotence.1 table0 tableA ip10 8 2 allocOK addA.2.2 allocOK (by decide) h1,
         h3, C4_idempotence.2.1 tableA tableD ip10 8 allocOK delD.2.2 allocOK h3,
         C4_idempotence.2.2 tableA.btrie_root ip10 8 (by decide)⟩

theorem bit_at_set (a : Addr) (pos q : Nat) :
    bit_at_position (SET_BIT_AT_POSITION a pos) q =
      if q = pos then true else bit_at_position a q := by
  unfold bit_at_position SET_BIT_AT_POSITION
  by_cases hb : q / 8 = pos / 8
  · rw [hb, Function.update_same]
    have hlt : (a (pos / 8)).val ||| 1 <<< (7 - pos % 8) < 256 := by
      have h1 : (a (pos / 8)).val < 2 ^ 8 := (a (pos / 8)).isLt
      have h2 : 1 <<< (7 - pos % 8) < 2 ^ 8 := by
        rw [Nat.shiftLeft_eq, one_mul]
        exact Nat.pow_lt_pow_right (by norm_num) (by omega)
      exact Nat.or_lt_two_pow h1 h2
    simp only [mkByte, Nat.mod_eq_of_lt hlt]
    rw [Nat.testBit_or]
    rw [Nat.shiftLeft_eq, one_mul]
    by_cases hq : q = pos
    · subst hq
      rw [Nat.testBit_two_pow_self]
      simp
    · have hne : q % 8 ≠ pos % 8 := by
        intro he
        exact hq (by omega)
      rw [Nat.testBit_two_pow_of_ne (by omega)]
      simp [hb, hq]
  · rw [Function.update_noteq hb]
    have hq : q ≠ pos := fun he => hb (by rw [he])
    simp [hq]

theorem bit_at_clear (a : Addr) (pos q : Nat) :
    bit_at_position (CLEAR_BIT_AT_POSITION a pos) q =
      if q = pos then false else bit_at_position a q := by
  unfold bit_at_position CLEAR_BIT_AT_POSITION
  by_cases hb : q / 8 = pos / 8
  · rw [hb, Function.update_same]
    have hlt : (a (pos / 8)).val &&& (255 ^^^ 1 <<< (7 - pos % 8)) < 256 :=
      Nat.lt_of_le_of_lt Nat.and_le_left (a (pos / 8)).isLt
    simp only [mkByte, Nat.mod_eq_of_lt hlt]
    rw [Nat.testBit_and, Nat.testBit_xor]
    rw [Nat.shiftLeft_eq, one_mul]
    have h255 : (255 : Nat) = 2 ^ 8 - 1 := by norm_num
    rw [h255, Nat.testBit_two_pow_sub_one]
    by_cases hq : q = pos
    · subst hq
      rw [Nat.testBit_two_pow_self]
      simp [Nat.sub_lt_succ]
    · have hne : q % 8 ≠ pos % 8 := by
        intro he
        exact hq (by omega)
      rw [Nat.testBit_two_pow_of_ne (by omega)]
      have h78 : 7 - q % 8 < 8 := by omega
      simp [h78, hb, hq]
  · rw [Function.update_noteq hb]
    have hq : q ≠ pos := fun he => hb (by rw [he])
    simp [hq]

theorem addrBytes_getD (a : Addr) (i : Nat) :
    (addrBytes a).getD i 0 = if i < 16 then a i else 0 := by
  unfold addrBytes
  by_cases hi : i < 16
  · rw [if_pos hi]
    rw [List.getD_eq_getElem?_getD]
    rw [List.getElem?_map]
    rw [List.getElem?_range (by simpa [LPM_LEVEL_MAX] using hi)]
    rfl
  · rw [if_neg hi]
    rw [List.getD_eq_getElem?_getD]
    rw [List.getElem?_eq_none]
    · rfl
    · simp [LPM_LEVEL_MAX]
      omega

theorem bytes_bit_addrBytes (a : Addr) (p : Nat)
    (h : bit_at_position a p = false) : bytes_bit (addrBytes a) p = false := by
  unfold bytes_bit
  rw [addrBytes_getD]
  by_cases hp : p / 8 < 16
  · rw [if_pos hp]
    exact h
  · rw [if_neg hp]
    simp

set_option maxHeartbeats 1000000 in
theorem btrie_dfs_walk_addr (w : lpm_data_walker_func_t) :
    ∀ (t : btrie_node_t) (a : Addr) (bitpos : Nat),
    (∀ p, bitpos ≤ p → bit_at_position a p = false) →
    (∀ p, p < bitpos →
        bit_at_position (__btrie_dfs_walk w t a bitpos).2.1 p = bit_at_position a p) ∧
    (∀ p, bitpos ≤ p →
        bit_at_position (__btrie_dfs_walk w t a bitpos).2.1 p = false) ∧
    (∀ e ∈ (__btrie_dfs_walk w t a bitpos).2.2, ∀ p, e.2.1 ≤ p →
        bytes_bit e.1 p = false) := by
  intro t
  induction t with
  | nil =>
      intro a bitpos ha
      refine ⟨fun p _ => rfl, fun p hp => ha p hp, fun e he => ?_⟩
      simp [__btrie_dfs_walk] at he
  | node d c0 c1 ih0 ih1 =>
      intro a bitpos ha
      simp only [__btrie_dfs_walk]
      have hvisit : ∀ e ∈ ((match d with
          | some v => [(addrBytes a, bitpos, v)]
          | none => []) : List (List Byte × Nat × Val)), ∀ p, e.2.1 ≤ p →
          bytes_bit e.1 p = false := by
        cases d with
        | none => intro e he; simp at he
        | some v =>
            intro e he p hp
            simp only [List.mem_singleton] at he
            subst he
            exact bytes_bit_addrBytes a p (ha p hp)
      have hstep : ∀ (vis : List (List Byte × Nat × Val))
          (hv : ∀ e ∈ vis, ∀ p, e.2.1 ≤ p → bytes_bit e.1 p = false)
          (L : lpm_result_t × Addr × List (List Byte × Nat × Val)),
          (∀ p, p < bitpos + 1 → bit_at_position L.2.1 p = bit_at_position a p) →
          (∀ p, bitpos + 1 ≤ p → bit_at_position L.2.1 p = false) →
          (∀ e ∈ L.2.2, ∀ p, e.2.1 ≤ p → bytes_bit e.1 p = false) →
          (∀ p, p < bitpos → bit_at_position
              (if L.1 = LPM_SUCCESS then
                 (if c1.isNil then (LPM_SUCCESS, L.2.1,
                     vis ++ L.2.2)
                  else
                    let out := __btrie_dfs_walk w c1 (SET_BIT_AT_POSITION L.2.1 bitpos)
                        (bitpos + 1)
                    (out.1, CLEAR_BIT_AT_POSITION out.2.1 bitpos,
                     vis ++ L.2.2 ++ out.2.2))
               else (L.1, L.2.1,
                     vis ++ L.2.2)).2.1 p = bit_at_position a p) ∧
          (∀ p, bitpos ≤ p → bit_at_position
              (if L.1 = LPM_SUCCESS then
                 (if c1.isNil then (LPM_SUCCESS, L.2.1,
                     vis ++ L.2.2)
                  else
                    let out := __btrie_dfs_walk w c1 (SET_BIT_AT_POSITION L.2.1 bitpos)
                        (bitpos + 1)
                    (out.1, CLEAR_BIT_AT_POSITION out.2.1 bitpos,
                     vis ++ L.2.2 ++ out.2.2))
               else (L.1, L.2.1,
                     vis ++ L.2.2)).2.1 p = false) ∧
          (∀ e ∈ (if L.1 = LPM_SUCCESS then
                 (if c1.isNil then (LPM_SUCCESS, L.2.1,
                     vis ++ L.2.2)
                  else
                    let out := __btrie_dfs_walk w c1 (SET_BIT_AT_POSITION L.2.1 bitpos)
                        (bitpos + 1)
                    (out.1, CLEAR_BIT_AT_POSITION out.2.1 bitpos,
                     vis ++ L.2.2 ++ out.2.2))
               else (L.1, L.2.1,
                     vis ++ L.2.2)).2.2, ∀ p, e.2.1 ≤ p →
              bytes_bit e.1 p = false) := by
        intro vis hv L hL1 hL2 hLe
        have hLbit : ∀ p, bitpos ≤ p → bit_at_position L.2.1 p = false := by
          intro p hp
          rcases Nat.eq_or_lt_of_le hp with he | hlt
          · subst he
            rw [hL1 bitpos (by omega)]
            exact ha bitpos (by omega)
          · exact hL2 p (by omega)
        split
        · split
          · refine ⟨fun p hp => hL1 p (by omega), fun p hp => hLbit p hp, ?_⟩
            intro e he
            rcases List.mem_append.mp he with he | he
            · exact hv e he
            · exact hLe e he
          · have hin : ∀ p, bitpos + 1 ≤ p →
                bit_at_position (SET_BIT_AT_POSITION L.2.1 bitpos) p = false := by
              intro p hp
              rw [bit_at_set, if_neg (by omega)]
              exact hL2 p hp
            obtain ⟨ho1, ho2, hoe⟩ :=
              ih1 (SET_BIT_AT_POSITION L.2.1 bitpos) (bitpos + 1) hin
            refine ⟨?_, ?_, ?_⟩
            · intro p hp
              rw [bit_at_clear, if_neg (by omega), ho1 p (by omega),
                bit_at_set, if_neg (by omega)]
              exact hL1 p (by omega)
            · intro p hp
              rcases Nat.eq_or_lt_of_le hp with he | hlt
              · rw [bit_at_clear, if_pos (by omega)]
              · rw [bit_at_clear, if_neg (by omega)]
                exact ho2 p (by omega)
            · intro e he
              rcases List.mem_append.mp he with he | he
              · rcases List.mem_append.mp he with he | he
                · exact hv e he
                · exact hLe e he
              · exact hoe e he
        · refine ⟨fun p hp => hL1 p (by omega), fun p hp => hLbit p hp, ?_⟩
          intro e he
          rcases List.mem_append.mp he with he | he
          · exact hv e he
          · exact hLe e he
      have hleft :
          (∀ p, p < bitpos + 1 → bit_at_position
              (if c0.isNil then (LPM_SUCCESS, a, ([] : List (List Byte × Nat × Val)))
               else __btrie_dfs_walk w c0 (CLEAR_BIT_AT_POSITION a bitpos)
                 (bitpos + 1)).2.1 p = bit_at_position a p) ∧
          (∀ p, bitpos + 1 ≤ p → bit_at_position
              (if c0.isNil then (LPM_SUCCESS, a, ([] : List (List Byte × Nat × Val)))
               else __btrie_dfs_walk w c0 (CLEAR_BIT_AT_POSITION a bitpos)
                 (bitpos + 1)).2.1 p = false) ∧
          (∀ e ∈ (if c0.isNil then (LPM_SUCCESS, a, ([] : List (List Byte × Nat × Val)))
               else __btrie_dfs_walk w c0 (CLEAR_BIT_AT_POSITION a bitpos)
                 (bitpos + 1)).2.2, ∀ p, e.2.1 ≤ p → bytes_bit e.1 p = false) := by
        split
        · refine ⟨fun p _ => rfl, fun p hp => ha p (by omega), ?_⟩
          intro e he
          simp at he
        · have hin : ∀ p, bitpos + 1 ≤ p →
              bit_at_position (CLEAR_BIT_AT_POSITION a bitpos) p = false := by
            intro p hp
            rw [bit_at_clear, if_neg (by omega)]
            exact ha p (by omega)
          obtain ⟨hc1, hc2, hce⟩ :=
            ih0 (CLEAR_BIT_AT_POSITION a bitpos) (bitpos + 1) hin
          refine ⟨?_, hc2, hce⟩
          intro p hp
          rcases Nat.lt_succ_iff_lt_or_eq.mp hp with hlt | he
          · rw [hc1 p (by omega), bit_at_clear, if_neg (by omega)]
          · subst he
            rw [hc1 p (by omega), bit_at_clear, if_pos rfl]
            exact (ha p (by omega)).symm
      cases d with
      | none =>
          exact hstep _ hvisit _ hleft.1 hleft.2.1 hleft.2.2
      | some v =>
          by_cases hw0 : w (addrBytes a) bitpos v = 0
          · have hb : decide (w (addrBytes a) bitpos v ≠ 0) = false := by
              simp [hw0]
            simp only [hb]
            exact hstep _ hvisit _ hleft.1 hleft.2.1 hleft.2.2
          · have hb : decide (w (addrBytes a) bitpos v ≠ 0) = true := by
              simp [hw0]
            simp only [hb]
            refine ⟨fun p _ => rfl, fun p hp => ha p hp, ?_⟩
            intro e he
            simp at he
            subst he
            intro p hp
            exact bytes_bit_addrBytes a p (ha p hp)

theorem btrie_bindings_of_isNil (t : btrie_node_t) (dd : Nat) (h : t.isNil = true) :
    btrie_bindings t dd = [] := by
  cases t with
  | nil => rfl
  | node d c0 c1 => simp [btrie_node_t.isNil] at h

set_option maxHeartbeats 1000000 in
theorem btrie_dfs_walk_trace (w : lpm_data_walker_func_t)
    (hw : ∀ bs ml v, w bs ml v = 0) :
    ∀ (t : btrie_node_t) (a : Addr) (bitpos : Nat),
    (__btrie_dfs_walk w t a bitpos).1 = LPM_SUCCESS ∧
    (__btrie_dfs_walk w t a bitpos).2.2.map (fun e => (e.2.1, e.2.2)) =
      btrie_bindings t bitpos := by
  intro t
  induction t with
  | nil =>
      intro a bitpos
      exact ⟨rfl, rfl⟩
  | node d c0 c1 ih0 ih1 =>
      intro a bitpos
      simp only [__btrie_dfs_walk]
      have hstep : ∀ (vis : List (List Byte × Nat × Val)) (bnd : List (Nat × Val)),
          vis.map (fun e => (e.2.1, e.2.2)) = bnd →
          ∀ (L : lpm_result_t × Addr × List (List Byte × Nat × Val)),
          L.1 = LPM_SUCCESS →
          L.2.2.map (fun e => (e.2.1, e.2.2)) = btrie_bindings c0 (bitpos + 1) →
          ((if L.1 = LPM_SUCCESS then
              (if c1.isNil then (LPM_SUCCESS, L.2.1, vis ++ L.2.2)
               else
                 let out := __btrie_dfs_walk w c1 (SET_BIT_AT_POSITION L.2.1 bitpos)
                     (bitpos + 1)
                 (out.1, CLEAR_BIT_AT_POSITION out.2.1 bitpos, vis ++ L.2.2 ++ out.2.2))
            else (L.1, L.2.1, vis ++ L.2.2)).1 = LPM_SUCCESS ∧
           (if L.1 = LPM_SUCCESS then
              (if c1.isNil then (LPM_SUCCESS, L.2.1, vis ++ L.2.2)
               else
                 let out := __btrie_dfs_walk w c1 (SET_BIT_AT_POSITION L.2.1 bitpos)
                     (bitpos + 1)
                 (out.1, CLEAR_BIT_AT_POSITION out.2.1 bitpos, vis ++ L.2.2 ++ out.2.2))
            else (L.1, L.2.1, vis ++ L.2.2)).2.2.map (fun e => (e.2.1, e.2.2)) =
            bnd ++ (btrie_bindings c0 (bitpos + 1) ++ btrie_bindings c1 (bitpos + 1))) := by
        intro vis bnd hvb L hLs hLm
        rw [if_pos hLs]
        split
        · next hc1 =>
            refine ⟨rfl, ?_⟩
            rw [btrie_bindings_of_isNil c1 (bitpos + 1) hc1]
            simp [hvb, hLm]
        · next hc1 =>
            obtain ⟨hr1, hrm⟩ :=
              ih1 (SET_BIT_AT_POSITION L.2.1 bitpos) (bitpos + 1)
            refine ⟨hr1, ?_⟩
            simp [hvb, hLm, hrm]
      have hleft :
          (if c0.isNil then (LPM_SUCCESS, a, ([] : List (List Byte × Nat × Val)))
           else __btrie_dfs_walk w c0 (CLEAR_BIT_AT_POSITION a bitpos)
             (bitpos + 1)).1 = LPM_SUCCESS ∧
          (if c0.isNil then (LPM_SUCCESS, a, ([] : List (List Byte × Nat × Val)))
           else __btrie_dfs_walk w c0 (CLEAR_BIT_AT_POSITION a bitpos)
             (bitpos + 1)).2.2.map (fun e => (e.2.1, e.2.2)) =
            btrie_bindings c0 (bitpos + 1) := by
        split
        · next hc0 =>
            exact ⟨rfl, (btrie_bindings_of_isNil c0 (bitpos + 1) hc0).symm⟩
        · next hc0 =>
            exact ih0 (CLEAR_BIT_AT_POSITION a bitpos) (bitpos + 1)
      cases d with
      | none =>
          exact hstep [] [] rfl _ hleft.1 hleft.2
      | some v =>
          have hb : decide (w (addrBytes a) bitpos v ≠ 0) = false := by
            simp [hw]
          simp only [hb]
          exact hstep [(addrBytes a, bitpos, v)] [(bitpos, v)] rfl _ hleft.1 hleft.2

set_option maxHeartbeats 1000000 in
theorem btrie_dfs_walk_exotic (w : lpm_data_walker_func_t) :
    ∀ (t : btrie_node_t) (a : Addr) (bitpos : Nat),
    ((__btrie_dfs_walk w t a bitpos).1 = LPM_SUCCESS ∨
     (__btrie_dfs_walk w t a bitpos).1 = LPM_ERR_EXOTIC) ∧
    ((__btrie_dfs_walk w t a bitpos).1 = LPM_ERR_EXOTIC ↔
      ∃ e ∈ (__btrie_dfs_walk w t a bitpos).2.2, w e.1 e.2.1 e.2.2 ≠ 0) := by
  intro t
  induction t with
  | nil =>
      intro a bitpos
      refine ⟨Or.inl rfl, ?_⟩
      simp [__btrie_dfs_walk]
  | node d c0 c1 ih0 ih1 =>
      intro a bitpos
      simp only [__btrie_dfs_walk]
      have hstep : ∀ (vis : List (List Byte × Nat × Val))
          (hv : ∀ e ∈ vis, w e.1 e.2.1 e.2.2 = 0)
          (L : lpm_result_t × Addr × List (List Byte × Nat × Val)),
          (L.1 = LPM_SUCCESS ∨ L.1 = LPM_ERR_EXOTIC) →
          (L.1 = LPM_ERR_EXOTIC ↔ ∃ e ∈ L.2.2, w e.1 e.2.1 e.2.2 ≠ 0) →
          (((if L.1 = LPM_SUCCESS then
              (if c1.isNil then (LPM_SUCCESS, L.2.1, vis ++ L.2.2)
               else
                 let out := __btrie_dfs_walk w c1 (SET_BIT_AT_POSITION L.2.1 bitpos)
                     (bitpos + 1)
                 (out.1, CLEAR_BIT_AT_POSITION out.2.1 bitpos, vis ++ L.2.2 ++ out.2.2))
            else (L.1, L.2.1, vis ++ L.2.2)).1 = LPM_SUCCESS ∨
            (if L.1 = LPM_SUCCESS then
              (if c1.isNil then (LPM_SUCCESS, L.2.1, vis ++ L.2.2)
               else
                 let out := __btrie_dfs_walk w c1 (SET_BIT_AT_POSITION L.2.1 bitpos)
                     (bitpos + 1)
                 (out.1, CLEAR_BIT_AT_POSITION out.2.1 bitpos, vis ++ L.2.2 ++ out.2.2))
            else (L.1, L.2.1, vis ++ L.2.2)).1 = LPM_ERR_EXOTIC) ∧
           ((if L.1 = LPM_SUCCESS then
              (if c1.isNil then (LPM_SUCCESS, L.2.1, vis ++ L.2.2)
               else
                 let out := __btrie_dfs_walk w c1 (SET_BIT_AT_POSITION L.2.1 bitpos)
                     (bitpos + 1)
                 (out.1, CLEAR_BIT_AT_POSITION out.2.1 bitpos, vis ++ L.2.2 ++ out.2.2))
            else (L.1, L.2.1, vis ++ L.2.2)).1 = LPM_ERR_EXOTIC ↔
            ∃ e ∈ (if L.1 = LPM_SUCCESS then
              (if c1.isNil then (LPM_SUCCESS, L.2.1, vis ++ L.2.2)
               else
                 let out := __btrie_dfs_walk w c1 (SET_BIT_AT_POSITION L.2.1 bitpos)
                     (bitpos + 1)
                 (out.1, CLEAR_BIT_AT_POSITION out.2.1 bitpos, vis ++ L.2.2 ++ out.2.2))
            else (L.1, L.2.1, vis ++ L.2.2)).2.2, w e.1 e.2.1 e.2.2 ≠ 0)) := by
        intro vis hv L hLd hLiff
        rcases hLd with hLs | hLe
        · rw [if_pos hLs]
          have hnoL : ∀ e ∈ L.2.2, w e.1 e.2.1 e.2.2 = 0 := by
            intro e he
            by_contra hne
            have : L.1 = LPM_ERR_EXOTIC := hLiff.mpr ⟨e, he, hne⟩
            rw [hLs] at this
            simp at this
          split
          · refine ⟨Or.inl rfl, ?_⟩
            constructor
            · intro hx; simp at hx
            · rintro ⟨e, he, hne⟩
              rcases List.mem_append.mp he with he | he
              · exact absurd (hv e he) hne
              · exact absurd (hnoL e he) hne
          · obtain ⟨ho_d, ho_iff⟩ :=
              ih1 (SET_BIT_AT_POSITION L.2.1 bitpos) (bitpos + 1)
            refine ⟨ho_d, ?_⟩
            constructor
            · intro hx
              obtain ⟨e, he, hne⟩ := ho_iff.mp hx
              exact ⟨e, by simp [he], hne⟩
            · rintro ⟨e, he, hne⟩
              rcases List.mem_append.mp he with he | he
              · rcases List.mem_append.mp he with he | he
                · exact absurd (hv e he) hne
                · exact absurd (hnoL e he) hne
              · exact ho_iff.mpr ⟨e, he, hne⟩
        · rw [if_neg (by rw [hLe]; simp)]
          refine ⟨Or.inr hLe, ?_⟩
          constructor
          · intro _
            obtain ⟨e, he, hne⟩ := hLiff.mp hLe
            exact ⟨e, by simp [he], hne⟩
          · intro _
            exact hLe
      have hleft :
          ((if c0.isNil then (LPM_SUCCESS, a, ([] : List (List Byte × Nat × Val)))
            else __btrie_dfs_walk w c0 (CLEAR_BIT_AT_POSITION a bitpos)
              (bitpos + 1)).1 = LPM_SUCCESS ∨
           (if c0.isNil then (LPM_SUCCESS, a, ([] : List (List Byte × Nat × Val)))
            else __btrie_dfs_walk w c0 (CLEAR_BIT_AT_POSITION a bitpos)
              (bitpos + 1)).1 = LPM_ERR_EXOTIC) ∧
          ((if c0.isNil then (LPM_SUCCESS, a, ([] : List (List Byte × Nat × Val)))
            else __btrie_dfs_walk w c0 (CLEAR_BIT_AT_POSITION a bitpos)
              (bitpos + 1)).1 = LPM_ERR_EXOTIC ↔
           ∃ e ∈ (if c0.isNil then (LPM_SUCCESS, a, ([] : List (List Byte × Nat × Val)))
            else __btrie_dfs_walk w c0 (CLEAR_BIT_AT_POSITION a bitpos)
              (bitpos + 1)).2.2, w e.1 e.2.1 e.2.2 ≠ 0) := by
        split
        · refine ⟨Or.inl rfl, ?_⟩
          constructor
          · intro hx; simp at hx
          · rintro ⟨e, he, _⟩
            simp at he
        · exact ih0 (CLEAR_BIT_AT_POSITION a bitpos) (bitpos + 1)
      cases d with
      | none =>
          exact hstep [] (by intro e he; simp at he) _ hleft.1 hleft.2
      | some v =>
          by_cases hw0 : w (addrBytes a) bitpos v = 0
          · have hb : decide (w (addrBytes a) bitpos v ≠ 0) = false := by
              simp [hw0]
            simp only [hb]
            exact hstep [(addrBytes a, bitpos, v)]
              (by intro e he; simp at he; subst he; exact hw0) _ hleft.1 hleft.2
          · have hb : decide (w (addrBytes a) bitpos v ≠ 0) = true := by
              simp [hw0]
            simp only [hb]
            refine ⟨Or.inr rfl, ?_⟩
            constructor
            · intro _
              exact ⟨(addrBytes a, bitpos, v), by simp, hw0⟩
            · intro _
              rfl

theorem bit_at_zeroAddr (p : Nat) : bit_at_position zeroAddr p = false := by
  simp [bit_at_position, zeroAddr]

theorem bytes_bit_addrBytes_lt (a : Addr) (p : Nat) (hp : p < 8 * LPM_LEVEL_MAX) :
    bytes_bit (addrBytes a) p = bit_at_position a p := by
  unfold bytes_bit bit_at_position
  rw [addrBytes_getD, if_pos (by simp only [LPM_LEVEL_MAX] at hp ⊢; omega)]

theorem addrBytes_congr (x y : Addr)
    (h : ∀ p, bit_at_position x p = bit_at_position y p) : addrBytes x = addrBytes y := by
  unfold addrBytes
  rw [List.map_inj_left]
  intro i _
  refine Fin.ext (Nat.eq_of_testBit_eq fun k => ?_)
  by_cases hk : k < 8
  · have hbit := h (8 * i + (7 - k))
    unfold bit_at_position at hbit
    have hdiv : (8 * i + (7 - k)) / 8 = i := by omega
    have hmod : 7 - (8 * i + (7 - k)) % 8 = k := by omega
    rw [hdiv, hmod] at hbit
    exact hbit
  · have hx : (x i).val < 2 ^ k :=
      lt_of_lt_of_le (show (x i).val < 2 ^ 8 from (x i).isLt)
        (Nat.pow_le_pow_right (by norm_num) (by omega))
    have hy : (y i).val < 2 ^ k :=
      lt_of_lt_of_le (show (y i).val < 2 ^ 8 from (y i).isLt)
        (Nat.pow_le_pow_right (by norm_num) (by omega))
    rw [Nat.testBit_lt_two_pow hx, Nat.testBit_lt_two_pow hy]

theorem btrie_bindings_addr_congr :
    ∀ (t : btrie_node_t) (x y : Addr) (n : Nat),
    (∀ p, bit_at_position x p = bit_at_position y p) →
    btrie_bindings_addr t x n = btrie_bindings_addr t y n := by
  intro t
  induction t with
  | nil => intro x y n _; rfl
  | node d c0 c1 ih0 ih1 =>
      intro x y n h
      simp only [btrie_bindings_addr]
      rw [addrBytes_congr x y h]
      rw [ih0 (CLEAR_BIT_AT_POSITION x n) (CLEAR_BIT_AT_POSITION y n) (n + 1)
        (fun p => by
          rw [bit_at_clear, bit_at_clear]
          by_cases hp : p = n
          · simp [hp]
          · simp [hp, h p])]
      rw [ih1 (SET_BIT_AT_POSITION x n) (SET_BIT_AT_POSITION y n) (n + 1)
        (fun p => by
          rw [bit_at_set, bit_at_set]
          by_cases hp : p = n
          · simp [hp]
          · simp [hp, h p])]

theorem btrie_bindings_addr_depth :
    ∀ (t : btrie_node_t) (a : Addr) (n : Nat), ∀ e ∈ btrie_bindings_addr t a n,
    n ≤ e.2.1 := by
  intro t
  induction t with
  | nil => intro a n e he; simp [btrie_bindings_addr] at he
  | node d c0 c1 ih0 ih1 =>
      intro a n e he
      simp only [btrie_bindings_addr, List.mem_append] at he
      rcases he with he | he
      · cases d with
        | none => simp at he
        | some v =>
            simp only [List.mem_singleton] at he
            subst he
            exact Nat.le_refl n
      · rcases he with he | he
        · exact Nat.le_of_succ_le (ih0 _ _ e he)
        · exact Nat.le_of_succ_le (ih1 _ _ e he)

theorem btrie_bindings_addr_low_bits :
    ∀ (t : btrie_node_t) (a : Addr) (n : Nat), ∀ e ∈ btrie_bindings_addr t a n,
    ∀ i, i < n → i < 8 * LPM_LEVEL_MAX → bytes_bit e.1 i = bit_at_position a i := by
  intro t
  induction t with
  | nil => intro a n e he; simp [btrie_bindings_addr] at he
  | node d c0 c1 ih0 ih1 =>
      intro a n e he i hin hi16
      simp only [btrie_bindings_addr, List.mem_append] at he
      rcases he with he | he
      · cases d with
        | none => simp at he
        | some v =>
            simp only [List.mem_singleton] at he
            subst he
            exact bytes_bit_addrBytes_lt a i hi16
      · rcases he with he | he
        · rw [ih0 _ _ e he i (by omega) hi16, bit_at_clear, if_neg (by omega)]
        · rw [ih1 _ _ e he i (by omega) hi16, bit_at_set, if_neg (by omega)]

theorem btrie_bindings_addr_of_isNil (t : btrie_node_t) (a : Addr) (n : Nat)
    (h : t.isNil = true) : btrie_bindings_addr t a n = [] := by
  cases t with
  | nil => rfl
  | node d c0 c1 => simp [btrie_node_t.isNil] at h

set_option maxHeartbeats 1000000 in
theorem btrie_dfs_walk_trace_addr (w : lpm_data_walker_func_t)
    (hw : ∀ bs ml v, w bs ml v = 0) :
    ∀ (t : btrie_node_t) (a : Addr) (bitpos : Nat),
    (∀ p, bitpos ≤ p → bit_at_position a p = false) →
    (__btrie_dfs_walk w t a bitpos).1 = LPM_SUCCESS ∧
    (__btrie_dfs_walk w t a bitpos).2.2 = btrie_bindings_addr t a bitpos := by
  intro t
  induction t with
  | nil =>
      intro a bitpos _
      exact ⟨rfl, rfl⟩
  | node d c0 c1 ih0 ih1 =>
      intro a bitpos ha
      simp only [__btrie_dfs_walk]
      have hstep : ∀ (vis : List (List Byte × Nat × Val))
          (L : lpm_result_t × Addr × List (List Byte × Nat × Val)),
          L.1 = LPM_SUCCESS →
          L.2.2 = btrie_bindings_addr c0 (CLEAR_BIT_AT_POSITION a bitpos) (bitpos + 1) →
          (∀ p, bit_at_position L.2.1 p = bit_at_position a p) →
          ((if L.1 = LPM_SUCCESS then
              (if c1.isNil then (LPM_SUCCESS, L.2.1, vis ++ L.2.2)
               else
                 let out := __btrie_dfs_walk w c1 (SET_BIT_AT_POSITION L.2.1 bitpos)
                     (bitpos + 1)
                 (out.1, CLEAR_BIT_AT_POSITION out.2.1 bitpos, vis ++ L.2.2 ++ out.2.2))
            else (L.1, L.2.1, vis ++ L.2.2)).1 = LPM_SUCCESS ∧
           (if L.1 = LPM_SUCCESS then
              (if c1.isNil then (LPM_SUCCESS, L.2.1, vis ++ L.2.2)
               else
                 let out := __btrie_dfs_walk w c1 (SET_BIT_AT_POSITION L.2.1 bitpos)
                     (bitpos + 1)
                 (out.1, CLEAR_BIT_AT_POSITION out.2.1 bitpos, vis ++ L.2.2 ++ out.2.2))
            else (L.1, L.2.1, vis ++ L.2.2)).2.2 =
            vis ++
              (btrie_bindings_addr c0 (CLEAR_BIT_AT_POSITION a bitpos) (bitpos + 1) ++
               btrie_bindings_addr c1 (SET_BIT_AT_POSITION a bitpos) (bitpos + 1))) := by
        intro vis L hLs hLm hLbit
        rw [if_pos hLs]
        split
        · next hc1 =>
            refine ⟨rfl, ?_⟩
            rw [btrie_bindings_addr_of_isNil c1 (SET_BIT_AT_POSITION a bitpos)
              (bitpos + 1) hc1]
            simp [hLm]
        · next hc1 =>
            have hin : ∀ p, bitpos + 1 ≤ p →
                bit_at_position (SET_BIT_AT_POSITION L.2.1 bitpos) p = false := by
              intro p hp
              rw [bit_at_set, if_neg (by omega), hLbit p]
              exact ha p (by omega)
            obtain ⟨hr1, hrm⟩ := ih1 (SET_BIT_AT_POSITION L.2.1 bitpos) (bitpos + 1) hin
            refine ⟨hr1, ?_⟩
            show vis ++ L.2.2 ++
                (__btrie_dfs_walk w c1 (SET_BIT_AT_POSITION L.2.1 bitpos)
                  (bitpos + 1)).2.2 = _
            rw [hrm, hLm]
            rw [btrie_bindings_addr_congr c1 (SET_BIT_AT_POSITION L.2.1 bitpos)
              (SET_BIT_AT_POSITION a bitpos) (bitpos + 1)
              (fun p => by
                rw [bit_at_set, bit_at_set]
                by_cases hp : p = bitpos
                · simp [hp]
                · simp [hp, hLbit p])]
            simp
      have hleft :
          (if c0.isNil then (LPM_SUCCESS, a, ([] : List (List Byte × Nat × Val)))
           else __btrie_dfs_walk w c0 (CLEAR_BIT_AT_POSITION a bitpos)
             (bitpos + 1)).1 = LPM_SUCCESS ∧
          (if c0.isNil then (LPM_SUCCESS, a, ([] : List (List Byte × Nat × Val)))
           else __btrie_dfs_walk w c0 (CLEAR_BIT_AT_POSITION a bitpos)
             (bitpos + 1)).2.2 =
            btrie_bindings_addr c0 (CLEAR_BIT_AT_POSITION a bitpos) (bitpos + 1) ∧
          (∀ p, bit_at_position
            (if c0.isNil then (LPM_SUCCESS, a, ([] : List (List Byte × Nat × Val)))
             else __btrie_dfs_walk w c0 (CLEAR_BIT_AT_POSITION a bitpos)
               (bitpos + 1)).2.1 p = bit_at_position a p) := by
        split
        · next hc0 =>
            exact ⟨rfl, (btrie_bindings_addr_of_isNil c0 _ _ hc0).symm, fun p => rfl⟩
        · next hc0 =>
            have hin : ∀ p, bitpos + 1 ≤ p →
                bit_at_position (CLEAR_BIT_AT_POSITION a bitpos) p = false := by
              intro p hp
              rw [bit_at_clear, if_neg (by omega)]
              exact ha p (by omega)
            obtain ⟨h1, h2⟩ := ih0 (CLEAR_BIT_AT_POSITION a bitpos) (bitpos + 1) hin
            obtain ⟨ha1, ha2, -⟩ :=
              btrie_dfs_walk_addr w c0 (CLEAR_BIT_AT_POSITION a bitpos) (bitpos + 1) hin
            refine ⟨h1, h2, ?_⟩
            intro p
            by_cases hp : p < bitpos + 1
            · rw [ha1 p hp, bit_at_clear]
              by_cases hpb : p = bitpos
              · subst hpb
                rw [if_pos rfl]
                exact (ha p (Nat.le_refl p)).symm
              · rw [if_neg hpb]
            · rw [ha2 p (by omega)]
              exact (ha p (by omega)).symm
      cases d with
      | none =>
          exact hstep [] _ hleft.1 hleft.2.1 hleft.2.2
      | some v =>
          have hb : decide (w (addrBytes a) bitpos v ≠ 0) = false := by
            simp [hw]
          simp only [hb]
          exact hstep [(addrBytes a, bitpos, v)] _ hleft.1 hleft.2.1 hleft.2.2

set_option maxHeartbeats 1000000 in
theorem btrie_bindings_addr_count (p : Addr) (v : Val) :
    ∀ (t : btrie_node_t) (a : Addr) (bitpos d : Nat),
    bitpos ≤ d → d ≤ 8 * LPM_LEVEL_MAX →
    (∀ i, i < bitpos → bit_at_position a i = bit_at_position p i) →
    (btrie_bindings_addr t a bitpos).countP (entry_matches p d v) =
      (if (btrie_find_node_go p t bitpos (d - bitpos)).data = some v then 1 else 0) := by
  intro t
  induction t with
  | nil =>
      intro a bitpos d _ _ _
      have hnil : btrie_find_node_go p .nil bitpos (d - bitpos) = .nil := by
        cases h : d - bitpos with
        | zero => rfl
        | succ k => rfl
      rw [hnil]
      simp [btrie_bindings_addr, btrie_node_t.data]
  | node d0 c0 c1 ih0 ih1 =>
      intro a bitpos dd hbd hdm hag
      simp only [btrie_bindings_addr, List.countP_append]
      rcases Nat.eq_or_lt_of_le hbd with heq | hlt
      · subst heq
        have hchild0 : (btrie_bindings_addr c0 (CLEAR_BIT_AT_POSITION a bitpos)
            (bitpos + 1)).countP (entry_matches p bitpos v) = 0 := by
          rw [List.countP_eq_zero]
          intro e he
          have hd := btrie_bindings_addr_depth c0 _ _ e he
          simp only [entry_matches, decide_eq_true_eq, not_and]
          intro h1
          omega
        have hchild1 : (btrie_bindings_addr c1 (SET_BIT_AT_POSITION a bitpos)
            (bitpos + 1)).countP (entry_matches p bitpos v) = 0 := by
          rw [List.countP_eq_zero]
          intro e he
          have hd := btrie_bindings_addr_depth c1 _ _ e he
          simp only [entry_matches, decide_eq_true_eq, not_and]
          intro h1
          omega
        rw [hchild0, hchild1, Nat.sub_self, btrie_find_go_zero]
        cases d0 with
        | none => simp [btrie_node_t.data]
        | some v0 =>
            by_cases hv : v0 = v
            · subst hv
              have hm : entry_matches p bitpos v0 (addrBytes a, bitpos, v0) = true := by
                unfold entry_matches
                rw [decide_eq_true_eq]
                refine ⟨rfl, rfl, ?_⟩
                intro i hi
                show bytes_bit (addrBytes a) i = bit_at_position p i
                rw [bytes_bit_addrBytes_lt a i (by omega)]
                exact hag i hi
              simp [hm, btrie_node_t.data, List.countP_cons]
            · have hm : entry_matches p bitpos v (addrBytes a, bitpos, v0) = false := by
                simp only [entry_matches, decide_eq_false_iff_not, not_and]
                intro _ h2
                exact absurd h2 hv
              simp [hm, btrie_node_t.data, List.countP_cons, hv]
      · have hself : ((match d0 with
            | some v0 => [(addrBytes a, bitpos, v0)]
            | none => []) : List (List Byte × Nat × Val)).countP
              (entry_matches p dd v) = 0 := by
          cases d0 with
          | none => rfl
          | some v0 =>
              have hm : entry_matches p dd v (addrBytes a, bitpos, v0) = false := by
                simp only [entry_matches, decide_eq_false_iff_not, not_and]
                intro h1
                omega
              simp [hm, List.countP_cons]
        rw [hself]
        rw [show dd - bitpos = (dd - (bitpos + 1)) + 1 from by omega, btrie_find_go_succ]
        cases hb : bit_at_position p bitpos with
        | false =>
            have h0 := ih0 (CLEAR_BIT_AT_POSITION a bitpos) (bitpos + 1) dd (by omega) hdm
              (by
                intro i hi
                rw [bit_at_clear]
                by_cases hib : i = bitpos
                · subst hib
                  rw [if_pos rfl, hb]
                · rw [if_neg hib]
                  exact hag i (by omega))
            have h1 : (btrie_bindings_addr c1 (SET_BIT_AT_POSITION a bitpos)
                (bitpos + 1)).countP (entry_matches p dd v) = 0 := by
              rw [List.countP_eq_zero]
              intro e he
              have hlow := btrie_bindings_addr_low_bits c1 (SET_BIT_AT_POSITION a bitpos)
                (bitpos + 1) e he bitpos (by omega) (by omega)
              simp only [entry_matches, decide_eq_true_eq, not_and]
              intro h1 h2 hbits
              have := hbits bitpos hlt
              rw [hlow, bit_at_set, if_pos rfl, hb] at this
              exact absurd this (by simp)
            rw [h0, h1]
            simp
        | true =>
            have h1 := ih1 (SET_BIT_AT_POSITION a bitpos) (bitpos + 1) dd (by omega) hdm
              (by
                intro i hi
                rw [bit_at_set]
                by_cases hib : i = bitpos
                · subst hib
                  rw [if_pos rfl, hb]
                · rw [if_neg hib]
                  exact hag i (by omega))
            have h0 : (btrie_bindings_addr c0 (CLEAR_BIT_AT_POSITION a bitpos)
                (bitpos + 1)).countP (entry_matches p dd v) = 0 := by
              rw [List.countP_eq_zero]
              intro e he
              have hlow := btrie_bindings_addr_low_bits c0 (CLEAR_BIT_AT_POSITION a bitpos)
                (bitpos + 1) e he bitpos (by omega) (by omega)
              simp only [entry_matches, decide_eq_true_eq, not_and]
              intro h1 h2 hbits
              have := hbits bitpos hlt
              rw [hlow, bit_at_clear, if_pos rfl, hb] at this
              exact absurd this (by simp)
            rw [h0, h1]
            simp

set_option maxHeartbeats 1000000 in
/-- **C6**: on a table with a live btrie root (and a normalised default
address, as installed by `lpm_update_default_data`), `lpm_walk_entry` with an
always-zero visitor (1) performs exactly the DFS visit sequence of the stored
bindings — each visit carrying the binding's full address bytes, maintained
by the clear-bit/set-bit discipline — followed by one extra visit with the
default `(addr, masklen, data)` when default data is present; (2) for every
prefix `(p, d)` with `d ≤ 128` and value `v`, the btrie DFS invokes the
visitor exactly once with that prefix's address bits, masklen `d` and value
`v` iff `(p, d) ↦ v` is stored in the btrie (and zero times otherwise);
(3) only passes address buffers whose bits at positions `≥ masklen` are zero;
and (4) returns `LPM_ERR_EXOTIC` exactly when some performed visit returned
non-zero. -/
theorem C6_walk_entry (t : lpm_lkup_table_t) (w : lpm_data_walker_func_t)
    (hroot : t.btrie_root ≠ .nil)
    (hdef : ∀ p, t.default_masklen ≤ p → bit_at_position t.default_addr p = false) :
    ((∀ bs ml v, w bs ml v = 0) →
      (lpm_walk_entry (some t) w).2 =
        btrie_bindings_addr t.btrie_root zeroAddr 0 ++
        (match t.default_data with
         | some dv => [(addrBytes t.default_addr, t.default_masklen, dv)]
         | none => [])) ∧
    ((∀ bs ml v, w bs ml v = 0) →
      ∀ (p : Addr) (d : Nat) (v : Val), d ≤ LPM_MASKLEN_MAX →
      (btrie_dfs_walk t.btrie_root w).2.countP (entry_matches p d v) =
        (if btrie_find_data t.btrie_root p d = some v then 1 else 0)) ∧
    (∀ e ∈ (lpm_walk_entry (some t) w).2, ∀ p, e.2.1 ≤ p → bytes_bit e.1 p = false) ∧
    ((lpm_walk_entry (some t) w).1 = LPM_ERR_EXOTIC ↔
      ∃ e ∈ (lpm_walk_entry (some t) w).2, w e.1 e.2.1 e.2.2 ≠ 0) := by
  simp only [lpm_walk_entry, btrie_dfs_walk]
  rcases hr : t.btrie_root with _ | ⟨rd, rc0, rc1⟩
  · exact absurd hr hroot
  obtain ⟨ha1, ha2, ha3⟩ :=
    btrie_dfs_walk_addr w (.node rd rc0 rc1) zeroAddr 0 (fun p _ => bit_at_zeroAddr p)
  obtain ⟨hx1, hx2⟩ := btrie_dfs_walk_exotic w (.node rd rc0 rc1) zeroAddr 0
  have hcount : (∀ bs ml v, w bs ml v = 0) →
      ∀ (p : Addr) (d : Nat) (v : Val), d ≤ LPM_MASKLEN_MAX →
      (__btrie_dfs_walk w (btrie_node_t.node rd rc0 rc1) zeroAddr 0).2.2.countP
          (entry_matches p d v) =
        (if (btrie_find_node_go p (btrie_node_t.node rd rc0 rc1) 0 d).data = some v
         then 1 else 0) := by
    intro hw p d v hdm
    obtain ⟨ht1, ht2⟩ := btrie_dfs_walk_trace_addr w hw (.node rd rc0 rc1) zeroAddr 0
      (fun q _ => bit_at_zeroAddr q)
    have hc := btrie_bindings_addr_count p v (.node rd rc0 rc1) zeroAddr 0 d
      (Nat.zero_le d)
      (by simp only [LPM_MASKLEN_MAX] at hdm; simp only [LPM_LEVEL_MAX]; omega)
      (fun i hi => absurd hi (Nat.not_lt_zero i))
    rw [Nat.sub_zero] at hc
    rw [ht2, hc]
  rcases hdd : t.default_data with _ | dv
  · refine ⟨?_, ?_, ?_, ?_⟩
    · intro hw
      obtain ⟨ht1, ht2⟩ := btrie_dfs_walk_trace_addr w hw (.node rd rc0 rc1) zeroAddr 0
        (fun q _ => bit_at_zeroAddr q)
      simpa [← hr] using ht2
    · intro hw p d v hdm
      exact hcount hw p d v hdm
    · intro e he p hp
      exact ha3 e he p hp
    · exact hx2
  · refine ⟨?_, ?_, ?_, ?_⟩
    · intro hw
      obtain ⟨ht1, ht2⟩ := btrie_dfs_walk_trace_addr w hw (.node rd rc0 rc1) zeroAddr 0
        (fun q _ => bit_at_zeroAddr q)
      simp [hw, ht2]
    · intro hw p d v hdm
      exact hcount hw p d v hdm
    · intro e he p hp
      have he' : e ∈ (__btrie_dfs_walk w (btrie_node_t.node rd rc0 rc1) zeroAddr 0).2.2 ∨
          e = (addrBytes t.default_addr, t.default_masklen, dv) := by
        by_cases hwd : w (addrBytes t.default_addr) t.default_masklen dv = 0
        · simp [hwd] at he
          exact he
        · simp [hwd] at he
          exact he
      rcases he' with he | he
      · exact ha3 e he p hp
      · subst he
        exact bytes_bit_addrBytes _ p (hdef p hp)
    · by_cases hwd : w (addrBytes t.default_addr) t.default_masklen dv = 0
      · constructor
        · intro hx
          simp [hwd] at hx
          obtain ⟨e, he, hne⟩ := hx2.mp hx
          refine ⟨e, ?_, hne⟩
          simp [hwd]
          exact Or.inl he
        · rintro ⟨e, he, hne⟩
          simp [hwd] at he ⊢
          rcases he with he | he
          · exact hx2.mpr ⟨e, he, hne⟩
          · subst he
            exact absurd hwd hne
      · constructor
        · intro _
          refine ⟨(addrBytes t.default_addr, t.default_masklen, dv), ?_, hwd⟩
          simp [hwd]
        · intro _
          simp [hwd]

/-- Witness for C6 on a concrete table (10.0.0.0/8 → 2, no default data):
the always-accepting visitor enumerates exactly the stored bindings with
their address bytes, the binding `(10.0.0.0, 8) ↦ 2` is visited exactly
once, and the walk does not report `LPM_ERR_EXOTIC`. -/
theorem C6_walk_entry_witness :
    (lpm_walk_entry (some tableA) (fun _ _ _ => 0)).2 =
      btrie_bindings_addr tableA.btrie_root zeroAddr 0 ++ [] ∧
    (btrie_dfs_walk tableA.btrie_root (fun _ _ _ => 0)).2.countP (entry_matches ip10 8 2) =
      (if btrie_find_data tableA.btrie_root ip10 8 = some 2 then 1 else 0) ∧
    ((lpm_walk_entry (some tableA) (fun _ _ _ => 0)).1 = LPM_ERR_EXOTIC ↔
      ∃ e ∈ (lpm_walk_entry (some tableA) (fun _ _ _ => 0)).2,
        (fun (_ : List Byte) (_ : Nat) (_ : Val) => (0 : Int)) e.1 e.2.1 e.2.2 ≠ 0) := by
  have hza : tableA.default_addr = zeroAddr := rfl
  have h := C6_walk_entry tableA (fun _ _ _ => 0) (by decide)
    (by intro p _; rw [hza]; exact bit_at_zeroAddr p)
  exact ⟨h.1 (fun _ _ _ => rfl),
         h.2.1 (fun _ _ _ => rfl) ip10 8 2 (by decide),
         h.2.2.2⟩


/-! ## Counter arithmetic -/

theorem statBtrieFreeN_zero (s : lpm_lkup_table_stat) : statBtrieFreeN s 0 = s := by
  simp [statBtrieFreeN]

theorem statBtrieFreeN_add (s : lpm_lkup_table_stat) (m n : Nat) :
    statBtrieFreeN s (m + n) = statBtrieFreeN (statBtrieFreeN s m) n := by
  simp [statBtrieFreeN]
  omega

theorem statBtrieFreeN_alloc (s : lpm_lkup_table_stat) :
    statBtrieFreeN (statBtrieAlloc s) 1 = s := by
  simp [statBtrieFreeN, statBtrieAlloc]

theorem statBtrieFreeN_fail (s : lpm_lkup_table_stat) (n : Nat) :
    statBtrieFreeN (statBtrieFail s) n = statBtrieFail (statBtrieFreeN s n) := by
  simp [statBtrieFreeN, statBtrieFail]

theorem statMtrieFreeN_zero (s : lpm_lkup_table_stat) : statMtrieFreeN s 0 = s := by
  simp [statMtrieFreeN]

theorem statMtrieFreeN_alloc (s : lpm_lkup_table_stat) :
    statMtrieFreeN (statMtrieAlloc s) 1 = s := by
  simp [statMtrieFreeN, statMtrieAlloc]

theorem statMtrieFreeN_fail (s : lpm_lkup_table_stat) (n : Nat) :
    statMtrieFreeN (statMtrieFail s) n = statMtrieFail (statMtrieFreeN s n) := by
  simp [statMtrieFreeN, statMtrieFail]

theorem btrie_del_appended_count_nil : btrie_del_appended_count .nil = 0 := by
  rw [btrie_del_appended_count]

theorem btrie_del_appended_nil_left (d : Option Val) (c1 : btrie_node_t) :
    btrie_del_appended_count (.node d .nil c1) = 1 + btrie_del_appended_count c1 := by
  cases c1 <;> simp [btrie_del_appended_count]

theorem btrie_del_appended_nil_right (d d0 : Option Val) (l0 r0 : btrie_node_t) :
    btrie_del_appended_count (.node d (.node d0 l0 r0) .nil) =
      1 + btrie_del_appended_count (btrie_node_t.node d0 l0 r0) := by
  simp [btrie_del_appended_count]

theorem statDataDel_add (s : lpm_lkup_table_stat) (m : Nat) :
    statDataDel (statDataAdd s m) m = s := by
  unfold statDataDel statDataAdd
  congr 1
  · show s.data_total + 1 - 1 = s.data_total
    omega
  · show Function.update (Function.update s.data_per_masklen m (s.data_per_masklen m + 1)) m
        (Function.update s.data_per_masklen m (s.data_per_masklen m + 1) m - 1) =
      s.data_per_masklen
    rw [Function.update_idem, Function.update_same,
      show s.data_per_masklen m + 1 - 1 = s.data_per_masklen m from by omega]
    exact Function.update_eq_self m s.data_per_masklen

theorem statDataDel_mtrieFail (s : lpm_lkup_table_stat) (m : Nat) :
    statDataDel (statMtrieFail s) m = statMtrieFail (statDataDel s m) := by
  simp [statDataDel, statMtrieFail]

theorem statDataAdd_btrieFreeN (s : lpm_lkup_table_stat) (m n : Nat) :
    statDataAdd (statBtrieFreeN s n) m = statBtrieFreeN (statDataAdd s m) n := by
  simp [statDataAdd, statBtrieFreeN]

theorem statDataDel_btrieFreeN (s : lpm_lkup_table_stat) (m n : Nat) :
    statDataDel (statBtrieFreeN s n) m = statBtrieFreeN (statDataDel s m) n := by
  simp [statDataDel, statBtrieFreeN]

/-! ## Rollback of `btrie_add_node` appends -/

theorem btrie_add_fresh_roll (a : Addr) :
    ∀ (rem pos : Nat) (ap : Nat × Bool) (st : lpm_lkup_table_stat) (al : lpm_alloc_t),
    ((btrie_add_node_go a (.node none .nil .nil) pos rem LPM_SUCCESS ap st al).1 =
        LPM_ERR_RESOURCES ∨
      (btrie_add_node_go a (.node none .nil .nil) pos rem LPM_SUCCESS ap st al).1 =
        LPM_SUCCESS) ∧
    (btrie_add_node_go a (.node none .nil .nil) pos rem LPM_SUCCESS ap st al).2.2.1 = ap ∧
    statBtrieFreeN
        (btrie_add_node_go a (.node none .nil .nil) pos rem LPM_SUCCESS ap st al).2.2.2.1
        (btrie_del_appended_count
          (btrie_add_node_go a (.node none .nil .nil) pos rem LPM_SUCCESS ap st al).2.1) =
      (if (btrie_add_node_go a (.node none .nil .nil) pos rem LPM_SUCCESS ap st al).1 =
          LPM_ERR_RESOURCES
       then statBtrieFail (statBtrieFreeN st 1)
       else statBtrieFreeN st 1) := by
  intro rem
  induction rem with
  | zero =>
      intro pos ap st al
      rw [btrie_add_node_go_zero]
      refine ⟨Or.inr rfl, rfl, ?_⟩
      simp [btrie_del_appended_nil_left, btrie_del_appended_count_nil]
  | succ rem ih =>
      intro pos ap st al
      cases hb : bit_at_position a pos with
      | true =>
          cases hok : (lpm_alloc_t.next al).1 with
          | false =>
              simp only [btrie_add_node_go, hb, hok]
              refine ⟨Or.inl rfl, rfl, ?_⟩
              simp [btrie_del_appended_nil_left, btrie_del_appended_count_nil,
                statBtrieFreeN_fail]
          | true =>
              simp only [btrie_add_node_go, hb, hok, if_true, Bool.false_eq_true, if_false]
              obtain ⟨hd, hap, hst⟩ := ih (pos + 1) ap (statBtrieAlloc st)
                (lpm_alloc_t.next al).2
              have hne := btrie_add_node_go_ne_nil a rem (pos + 1) (.node none .nil .nil)
                LPM_SUCCESS ap (statBtrieAlloc st) (lpm_alloc_t.next al).2 (by simp)
              refine ⟨hd, hap, ?_⟩
              rcases hcc : (btrie_add_node_go a (.node none .nil .nil) (pos + 1) rem
                  LPM_SUCCESS ap (statBtrieAlloc st) (lpm_alloc_t.next al).2).2.1 with _ | ⟨d2, e0, e1⟩
              · exact absurd hcc hne
              · rw [hcc] at hst
                rw [btrie_del_appended_nil_left]
                rw [show (1 + btrie_del_appended_count (btrie_node_t.node d2 e0 e1)) =
                    btrie_del_appended_count (btrie_node_t.node d2 e0 e1) + 1 from by omega]
                rw [statBtrieFreeN_add, hst]
                split
                · rw [statBtrieFreeN_fail, statBtrieFreeN_alloc]
                · rw [statBtrieFreeN_alloc]
      | false =>
          cases hok : (lpm_alloc_t.next al).1 with
          | false =>
              simp only [btrie_add_node_go, hb, hok]
              refine ⟨Or.inl rfl, rfl, ?_⟩
              simp [btrie_del_appended_nil_left, btrie_del_appended_count_nil,
                statBtrieFreeN_fail]
          | true =>
              simp only [btrie_add_node_go, hb, hok, if_true, Bool.false_eq_true, if_false]
              obtain ⟨hd, hap, hst⟩ := ih (pos + 1) ap (statBtrieAlloc st)
                (lpm_alloc_t.next al).2
              have hne := btrie_add_node_go_ne_nil a rem (pos + 1) (.node none .nil .nil)
                LPM_SUCCESS ap (statBtrieAlloc st) (lpm_alloc_t.next al).2 (by simp)
              refine ⟨hd, hap, ?_⟩
              rcases hcc : (btrie_add_node_go a (.node none .nil .nil) (pos + 1) rem
                  LPM_SUCCESS ap (statBtrieAlloc st) (lpm_alloc_t.next al).2).2.1 with _ | ⟨d2, e0, e1⟩
              · exact absurd hcc hne
              · rw [hcc] at hst
                rw [btrie_del_appended_nil_right]
                rw [show (1 + btrie_del_appended_count (btrie_node_t.node d2 e0 e1)) =
                    btrie_del_appended_count (btrie_node_t.node d2 e0 e1) + 1 from by omega]
                rw [statBtrieFreeN_add, hst]
                split
                · rw [statBtrieFreeN_fail, statBtrieFreeN_alloc]
                · rw [statBtrieFreeN_alloc]

/-! ## Clean failure of the mtrie chain builder -/

theorem statBtrieFreeN_mtrieFail (s : lpm_lkup_table_stat) (n : Nat) :
    statBtrieFreeN (statMtrieFail s) n = statMtrieFail (statBtrieFreeN s n) := by
  simp [statBtrieFreeN, statMtrieFail]

theorem mtrie_chain_ok_zero (a : Addr) (m : mtrie_t) (lvl : Nat)
    (hm : m.isNullp = false) : mtrie_chain_ok a m lvl 0 = true := by
  cases m with
  | nullp => simp [mtrie_t.isNullp] at hm
  | block d b => rfl

theorem mtrie_chain_ok_congr (a a' : Addr) :
    ∀ (rem : Nat) (m : mtrie_t) (lvl : Nat),
    (∀ i, lvl ≤ i → i < lvl + rem → a i = a' i) →
    mtrie_chain_ok a m lvl rem = mtrie_chain_ok a' m lvl rem := by
  intro rem
  induction rem with
  | zero => intro m lvl _; cases m <;> rfl
  | succ rem ih =>
      intro m lvl h
      cases m with
      | nullp => rfl
      | block d b =>
          rw [mtrie_chain_ok, mtrie_chain_ok]
          have ha : a lvl = a' lvl := h lvl (Nat.le_refl _) (by omega)
          rw [ha]
          exact ih (b (a' lvl)) (lvl + 1) (fun i h1 h2 => h i (by omega) (by omega))

theorem SET_BIT_AT_POSITION_ne (a : Addr) (pos i : Nat) (h : i ≠ pos / 8) :
    SET_BIT_AT_POSITION a pos i = a i := by
  unfold SET_BIT_AT_POSITION
  exact Function.update_noteq h _ _

theorem CLEAR_BIT_AT_POSITION_ne (a : Addr) (pos i : Nat) (h : i ≠ pos / 8) :
    CLEAR_BIT_AT_POSITION a pos i = a i := by
  unfold CLEAR_BIT_AT_POSITION
  exact Function.update_noteq h _ _

theorem boundary_succ_div (tb : Nat) (h : BOUNDARY_BIT_POSITION tb = false) :
    (tb + 1) / 8 = tb / 8 := by
  unfold BOUNDARY_BIT_POSITION at h
  simp only [beq_eq_false_iff_ne, ne_eq] at h
  omega

theorem mtrie_build_write_fail (a : Addr) (wr : mtrie_t → mtrie_t) :
    ∀ (rem : Nat) (m : mtrie_t) (lvl : Nat) (st : lpm_lkup_table_stat) (al : lpm_alloc_t),
    (mtrie_build_write a m lvl rem wr st al).1 ≠ LPM_SUCCESS →
    (mtrie_build_write a m lvl rem wr st al).1 = LPM_ERR_RESOURCES ∧
    (mtrie_build_write a m lvl rem wr st al).2.1 = m ∧
    (mtrie_build_write a m lvl rem wr st al).2.2.1 = statMtrieFail st := by
  intro rem
  induction rem with
  | zero =>
      intro m lvl st al h
      cases m with
      | nullp =>
          rcases hnx : lpm_alloc_t.next al with ⟨ok, al1⟩
          rw [mtrie_build_write, hnx] at h ⊢
          cases ok with
          | true => exact absurd rfl h
          | false => exact ⟨rfl, rfl, rfl⟩
      | block d b => exact absurd rfl h
  | succ rem ih =>
      intro m lvl st al h
      cases m with
      | nullp =>
          rcases hnx : lpm_alloc_t.next al with ⟨ok, al1⟩
          rw [mtrie_build_write, hnx] at h ⊢
          cases ok with
          | false => exact ⟨rfl, rfl, rfl⟩
          | true =>
              dsimp only at h ⊢
              rcases hrec : mtrie_build_write a .nullp (lvl + 1) rem wr
                  (statMtrieAlloc st) al1 with ⟨r2, sub, st2, al2⟩
              rw [hrec] at h
              cases r2 with
              | LPM_SUCCESS => exact absurd rfl h
              | LPM_ERR_RESOURCES =>
                  have := ih .nullp (lvl + 1) (statMtrieAlloc st) al1 (by rw [hrec]; simp)
                  rw [hrec] at this
                  refine ⟨rfl, rfl, ?_⟩
                  have hst2 : st2 = statMtrieFail (statMtrieAlloc st) := this.2.2
                  simp only [hst2, statMtrieFreeN_fail, statMtrieFreeN_alloc, if_true]
              | LPM_ERR_INVALID =>
                  have := ih .nullp (lvl + 1) (statMtrieAlloc st) al1 (by rw [hrec]; simp)
                  rw [hrec] at this
                  exact absurd this.1 (by simp)
              | LPM_ERR_INTERNAL =>
                  have := ih .nullp (lvl + 1) (statMtrieAlloc st) al1 (by rw [hrec]; simp)
                  rw [hrec] at this
                  exact absurd this.1 (by simp)
              | LPM_ERR_NOTFOUND =>
                  have := ih .nullp (lvl + 1) (statMtrieAlloc st) al1 (by rw [hrec]; simp)
                  rw [hrec] at this
                  exact absurd this.1 (by simp)
              | LPM_ERR_EXISTS =>
                  have := ih .nullp (lvl + 1) (statMtrieAlloc st) al1 (by rw [hrec]; simp)
                  rw [hrec] at this
                  exact absurd this.1 (by simp)
              | LPM_ERR_CONFLICT =>
                  have := ih .nullp (lvl + 1) (statMtrieAlloc st) al1 (by rw [hrec]; simp)
                  rw [hrec] at this
                  exact absurd this.1 (by simp)
              | LPM_ERR_EXOTIC =>
                  have := ih .nullp (lvl + 1) (statMtrieAlloc st) al1 (by rw [hrec]; simp)
                  rw [hrec] at this
                  exact absurd this.1 (by simp)
      | block d b =>
          rcases hrec : mtrie_build_write a (b (a lvl)) (lvl + 1) rem wr st al
            with ⟨r2, sub, st2, al2⟩
          rw [mtrie_build_write, hrec] at h ⊢
          cases r2 with
          | LPM_SUCCESS => exact absurd rfl h
          | LPM_ERR_RESOURCES =>
              have := ih (b (a lvl)) (lvl + 1) st al (by rw [hrec]; simp)
              rw [hrec] at this
              exact ⟨rfl, rfl, this.2.2⟩
          | LPM_ERR_INVALID =>
              have := ih (b (a lvl)) (lvl + 1) st al (by rw [hrec]; simp)
              rw [hrec] at this
              exact absurd this.1 (by simp)
          | LPM_ERR_INTERNAL =>
              have := ih (b (a lvl)) (lvl + 1) st al (by rw [hrec]; simp)
              rw [hrec] at this
              exact absurd this.1 (by simp)
          | LPM_ERR_NOTFOUND =>
              have := ih (b (a lvl)) (lvl + 1) st al (by rw [hrec]; simp)
              rw [hrec] at this
              exact absurd this.1 (by simp)
          | LPM_ERR_EXISTS =>
              have := ih (b (a lvl)) (lvl + 1) st al (by rw [hrec]; simp)
              rw [hrec] at this
              exact absurd this.1 (by simp)
          | LPM_ERR_CONFLICT =>
              have := ih (b (a lvl)) (lvl + 1) st al (by rw [hrec]; simp)
              rw [hrec] at this
              exact absurd this.1 (by simp)
          | LPM_ERR_EXOTIC =>
              have := ih (b (a lvl)) (lvl + 1) st al (by rw [hrec]; simp)
              rw [hrec] at this
              exact absurd this.1 (by simp)

theorem mtrie_build_write_chain (a : Addr) (wr : mtrie_t → mtrie_t)
    (hwr : ∀ x : mtrie_t, x.isNullp = false → (wr x).isNullp = false) :
    ∀ (rem : Nat) (m : mtrie_t) (lvl : Nat) (st : lpm_lkup_table_stat) (al : lpm_alloc_t),
    (mtrie_build_write a m lvl rem wr st al).1 = LPM_SUCCESS →
    mtrie_chain_ok a (mtrie_build_write a m lvl rem wr st al).2.1 lvl rem = true := by
  intro rem
  induction rem with
  | zero =>
      intro m lvl st al h
      cases m with
      | nullp =>
          rcases hnx : lpm_alloc_t.next al with ⟨ok, al1⟩
          rw [mtrie_build_write, hnx] at h ⊢
          cases ok with
          | false => exact absurd h (by simp)
          | true =>
              exact mtrie_chain_ok_zero a _ lvl (hwr mtrie_empty_block rfl)
      | block d b =>
          rw [mtrie_build_write] at h ⊢
          exact mtrie_chain_ok_zero a _ lvl (hwr (.block d b) rfl)
  | succ rem ih =>
      intro m lvl st al h
      cases m with
      | nullp =>
          rcases hnx : lpm_alloc_t.next al with ⟨ok, al1⟩
          rw [mtrie_build_write, hnx] at h ⊢
          cases ok with
          | false => exact absurd h (by simp)
          | true =>
              dsimp only at h ⊢
              rcases hrec : mtrie_build_write a .nullp (lvl + 1) rem wr
                  (statMtrieAlloc st) al1 with ⟨r2, sub, st2, al2⟩
              rw [hrec] at h
              cases r2 with
              | LPM_SUCCESS =>
                  have hc := ih .nullp (lvl + 1) (statMtrieAlloc st) al1 (by rw [hrec])
                  rw [hrec] at hc
                  show mtrie_chain_ok a (mtrie_empty_block.setBase (a lvl) sub) lvl
                    (rem + 1) = true
                  rw [show mtrie_empty_block.setBase (a lvl) sub =
                      .block (fun _ => none) (Function.update (fun _ => .nullp) (a lvl) sub)
                    from rfl, mtrie_chain_ok, Function.update_same]
                  exact hc
              | LPM_ERR_RESOURCES => exact absurd h (by simp)
              | LPM_ERR_INVALID => exact absurd h (by simp)
              | LPM_ERR_INTERNAL => exact absurd h (by simp)
              | LPM_ERR_NOTFOUND => exact absurd h (by simp)
              | LPM_ERR_EXISTS => exact absurd h (by simp)
              | LPM_ERR_CONFLICT => exact absurd h (by simp)
              | LPM_ERR_EXOTIC => exact absurd h (by simp)
      | block d b =>
          rcases hrec : mtrie_build_write a (b (a lvl)) (lvl + 1) rem wr st al
            with ⟨r2, sub, st2, al2⟩
          rw [mtrie_build_write, hrec] at h ⊢
          cases r2 with
          | LPM_SUCCESS =>
              have hc := ih (b (a lvl)) (lvl + 1) st al (by rw [hrec])
              rw [hrec] at hc
              show mtrie_chain_ok a ((mtrie_t.block d b).setBase (a lvl) sub) lvl
                (rem + 1) = true
              rw [show (mtrie_t.block d b).setBase (a lvl) sub =
                  .block d (Function.update b (a lvl) sub) from rfl,
                mtrie_chain_ok, Function.update_same]
              exact hc
          | LPM_ERR_RESOURCES => exact absurd h (by simp)
          | LPM_ERR_INVALID => exact absurd h (by simp)
          | LPM_ERR_INTERNAL => exact absurd h (by simp)
          | LPM_ERR_NOTFOUND => exact absurd h (by simp)
          | LPM_ERR_EXISTS => exact absurd h (by simp)
          | LPM_ERR_CONFLICT => exact absurd h (by simp)
          | LPM_ERR_EXOTIC => exact absurd h (by simp)

theorem mtrie_build_write_of_chain (a : Addr) (wr : mtrie_t → mtrie_t) :
    ∀ (rem : Nat) (m : mtrie_t) (lvl : Nat) (st : lpm_lkup_table_stat) (al : lpm_alloc_t),
    mtrie_chain_ok a m lvl rem = true →
    (mtrie_build_write a m lvl rem wr st al).1 = LPM_SUCCESS ∧
    (mtrie_build_write a m lvl rem wr st al).2.2.1 = st ∧
    (mtrie_build_write a m lvl rem wr st al).2.2.2 = al := by
  intro rem
  induction rem with
  | zero =>
      intro m lvl st al h
      cases m with
      | nullp => exact absurd h (by rw [mtrie_chain_ok]; simp)
      | block d b => exact ⟨rfl, rfl, rfl⟩
  | succ rem ih =>
      intro m lvl st al h
      cases m with
      | nullp => exact absurd h (by rw [mtrie_chain_ok]; simp)
      | block d b =>
          rw [mtrie_chain_ok] at h
          have hc := ih (b (a lvl)) (lvl + 1) st al h
          rcases hrec : mtrie_build_write a (b (a lvl)) (lvl + 1) rem wr st al
            with ⟨r2, sub, st2, al2⟩
          rw [hrec] at hc
          rw [mtrie_build_write, hrec]
          obtain ⟨h1, h2, h3⟩ := hc
          cases r2 with
          | LPM_SUCCESS =>
              refine ⟨rfl, ?_, ?_⟩
              · exact h2
              · exact h3
          | LPM_ERR_RESOURCES => exact absurd h1 (by simp)
          | LPM_ERR_INVALID => exact absurd h1 (by simp)
          | LPM_ERR_INTERNAL => exact absurd h1 (by simp)
          | LPM_ERR_NOTFOUND => exact absurd h1 (by simp)
          | LPM_ERR_EXISTS => exact absurd h1 (by simp)
          | LPM_ERR_CONFLICT => exact absurd h1 (by simp)
          | LPM_ERR_EXOTIC => exact absurd h1 (by simp)

theorem lpm_gen_combinations_fail (m : mtrie_t) (a : Addr) (tb : Nat) (v : Option Val)
    (nb : nextbit_t) (st : lpm_lkup_table_stat) (al : lpm_alloc_t)
    (h : (lpm_gen_combinations m a tb v nb st al).1 ≠ LPM_SUCCESS) :
    (lpm_gen_combinations m a tb v nb st al).1 = LPM_ERR_RESOURCES ∧
    (lpm_gen_combinations m a tb v nb st al).2.1 = m ∧
    (lpm_gen_combinations m a tb v nb st al).2.2.1 = statMtrieFail st := by
  unfold lpm_gen_combinations at h ⊢
  by_cases htb : tb < 8
  · rw [if_pos htb] at h ⊢
    cases nb <;> exact absurd rfl h
  · rw [if_neg htb] at h ⊢
    exact mtrie_build_write_fail a _ _ m 0 st al h

theorem lpm_gen_combinations_chain (m : mtrie_t) (a : Addr) (tb : Nat) (v : Option Val)
    (nb : nextbit_t) (st : lpm_lkup_table_stat) (al : lpm_alloc_t)
    (hm : m.isNullp = false)
    (h : (lpm_gen_combinations m a tb v nb st al).1 = LPM_SUCCESS) :
    mtrie_chain_ok a (lpm_gen_combinations m a tb v nb st al).2.1 0 (tb / 8) = true := by
  unfold lpm_gen_combinations at h ⊢
  by_cases htb : tb < 8
  · rw [if_pos htb]
    have h0 : tb / 8 = 0 := Nat.div_eq_of_lt (by omega)
    rw [h0]
    apply mtrie_chain_ok_zero
    cases nb <;> simpa [lpm_pattern_generate_isNullp] using hm
  · rw [if_neg htb] at h ⊢
    apply mtrie_build_write_chain a _ _ (tb / 8) m 0 st al
    · exact h
    · intro x hx
      cases nb <;> simpa [lpm_pattern_generate_isNullp] using hx

theorem lpm_gen_combinations_of_chain (m : mtrie_t) (a : Addr) (tb : Nat) (v : Option Val)
    (nb : nextbit_t) (st : lpm_lkup_table_stat) (al : lpm_alloc_t)
    (h : mtrie_chain_ok a m 0 (tb / 8) = true) :
    (lpm_gen_combinations m a tb v nb st al).1 = LPM_SUCCESS ∧
    (lpm_gen_combinations m a tb v nb st al).2.2.1 = st ∧
    (lpm_gen_combinations m a tb v nb st al).2.2.2 = al := by
  unfold lpm_gen_combinations
  by_cases htb : tb < 8
  · rw [if_pos htb]
    cases nb <;> exact ⟨rfl, rfl, rfl⟩
  · rw [if_neg htb]
    exact mtrie_build_write_of_chain a _ (tb / 8) m 0 st al h

theorem seq_prop
    (P : lpm_result_t × mtrie_t × Addr × lpm_lkup_table_stat × lpm_alloc_t → Prop)
    (L : lpm_result_t × mtrie_t × Addr × lpm_lkup_table_stat × lpm_alloc_t)
    (f : lpm_result_t × mtrie_t × Addr × lpm_lkup_table_stat × lpm_alloc_t →
         lpm_result_t × mtrie_t × Addr × lpm_lkup_table_stat × lpm_alloc_t)
    (hL : P L) (hf : P L → P (f L)) :
    P (if L.1 = LPM_SUCCESS then f L else L) := by
  split
  · exact hf hL
  · exact hL

theorem __lpm_prefix_expansion_addr :
    ∀ (t : btrie_node_t) (a : Addr) (tb : Nat) (v : Option Val) (m : mtrie_t)
      (st : lpm_lkup_table_stat) (al : lpm_alloc_t) (i : Nat), i < tb / 8 →
    (__lpm_prefix_expansion t a tb v m st al).2.2.1 i = a i := by
  intro t
  induction t with
  | nil =>
      intro a tb v m st al i hi
      rw [__lpm_prefix_expansion]
      split
      · rfl
      · rfl
  | node d c0 c1 ih0 ih1 =>
      intro a tb v m st al i hi
      rw [__lpm_prefix_expansion]
      dsimp only
      split
      · rfl
      · split
        · rfl
        · rename_i hbd hnil
          have hdiv : (tb + 1) / 8 = tb / 8 :=
            boundary_succ_div tb (by revert hbd; cases BOUNDARY_BIT_POSITION tb <;> simp)
          exact seq_prop (fun x => x.2.2.1 i = a i)
            (if c0.isNil then
               let out := lpm_gen_combinations m a tb v .nb_zero st al
               (out.1, out.2.1, a, out.2.2)
             else if c0.data = none then
               __lpm_prefix_expansion c0 (CLEAR_BIT_AT_POSITION a (tb + 1)) (tb + 1) v m st al
             else (LPM_SUCCESS, m, a, st, al))
            (fun x =>
              if c1.isNil then
                let out := lpm_gen_combinations x.2.1 x.2.2.1 tb v .nb_one x.2.2.2.1 x.2.2.2.2
                (out.1, out.2.1, x.2.2.1, out.2.2)
              else if c1.data = none then
                __lpm_prefix_expansion c1 (SET_BIT_AT_POSITION x.2.2.1 (tb + 1)) (tb + 1) v
                  x.2.1 x.2.2.2.1 x.2.2.2.2
              else (LPM_SUCCESS, x.2.1, x.2.2.1, x.2.2.2))
            (by
              split
              · rfl
              · split
                · have := ih0 (CLEAR_BIT_AT_POSITION a (tb + 1)) (tb + 1) v m st al i
                    (by omega)
                  rw [this]
                  exact CLEAR_BIT_AT_POSITION_ne a (tb + 1) i (by omega)
                · rfl)
            (by
              intro hx
              split
              · exact hx
              · split
                · have := ih1 (SET_BIT_AT_POSITION
                      (if c0.isNil then
                         let out := lpm_gen_combinations m a tb v .nb_zero st al
                         (out.1, out.2.1, a, out.2.2)
                       else if c0.data = none then
                         __lpm_prefix_expansion c0 (CLEAR_BIT_AT_POSITION a (tb + 1)) (tb + 1)
                           v m st al
                       else (LPM_SUCCESS, m, a, st, al)).2.2.1 (tb + 1)) (tb + 1) v
                      (if c0.isNil then
                         let out := lpm_gen_combinations m a tb v .nb_zero st al
                         (out.1, out.2.1, a, out.2.2)
                       else if c0.data = none then
                         __lpm_prefix_expansion c0 (CLEAR_BIT_AT_POSITION a (tb + 1)) (tb + 1)
                           v m st al
                       else (LPM_SUCCESS, m, a, st, al)).2.1
                      (if c0.isNil then
                         let out := lpm_gen_combinations m a tb v .nb_zero st al
                         (out.1, out.2.1, a, out.2.2)
                       else if c0.data = none then
                         __lpm_prefix_expansion c0 (CLEAR_BIT_AT_POSITION a (tb + 1)) (tb + 1)
                           v m st al
                       else (LPM_SUCCESS, m, a, st, al)).2.2.2.1
                      (if c0.isNil then
                         let out := lpm_gen_combinations m a tb v .nb_zero st al
                         (out.1, out.2.1, a, out.2.2)
                       else if c0.data = none then
                         __lpm_prefix_expansion c0 (CLEAR_BIT_AT_POSITION a (tb + 1)) (tb + 1)
                           v m st al
                       else (LPM_SUCCESS, m, a, st, al)).2.2.2.2 i (by omega)
                  rw [this, SET_BIT_AT_POSITION_ne _ (tb + 1) i (by omega)]
                  exact hx
                · exact hx)

theorem seq_roll (m : mtrie_t) (st : lpm_lkup_table_stat) (al : lpm_alloc_t)
    (C : mtrie_t → Prop)
    (L : lpm_result_t × mtrie_t × Addr × lpm_lkup_table_stat × lpm_alloc_t)
    (f : lpm_result_t × mtrie_t × Addr × lpm_lkup_table_stat × lpm_alloc_t →
         lpm_result_t × mtrie_t × Addr × lpm_lkup_table_stat × lpm_alloc_t)
    (hLa : L.1 = LPM_ERR_RESOURCES → L.2.1 = m ∧ L.2.2.2.1 = statMtrieFail st)
    (hLb : L.1 = LPM_SUCCESS →
      (L.2.1 = m ∧ L.2.2.2.1 = st ∧ L.2.2.2.2 = al) ∨ C L.2.1)
    (hLc : C m → L.1 ≠ LPM_ERR_RESOURCES)
    (hfa : (f L).1 = LPM_ERR_RESOURCES →
      (f L).2.1 = L.2.1 ∧ (f L).2.2.2.1 = statMtrieFail L.2.2.2.1)
    (hfb : (f L).1 = LPM_SUCCESS →
      ((f L).2.1 = L.2.1 ∧ (f L).2.2.2.1 = L.2.2.2.1 ∧ (f L).2.2.2.2 = L.2.2.2.2) ∨
      C (f L).2.1)
    (hfc : C L.2.1 → (f L).1 ≠ LPM_ERR_RESOURCES) :
    ((if L.1 = LPM_SUCCESS then f L else L).1 = LPM_ERR_RESOURCES →
      (if L.1 = LPM_SUCCESS then f L else L).2.1 = m ∧
      (if L.1 = LPM_SUCCESS then f L else L).2.2.2.1 = statMtrieFail st) ∧
    ((if L.1 = LPM_SUCCESS then f L else L).1 = LPM_SUCCESS →
      ((if L.1 = LPM_SUCCESS then f L else L).2.1 = m ∧
       (if L.1 = LPM_SUCCESS then f L else L).2.2.2.1 = st ∧
       (if L.1 = LPM_SUCCESS then f L else L).2.2.2.2 = al) ∨
      C (if L.1 = LPM_SUCCESS then f L else L).2.1) ∧
    (C m → (if L.1 = LPM_SUCCESS then f L else L).1 ≠ LPM_ERR_RESOURCES) := by
  by_cases hL : L.1 = LPM_SUCCESS
  · rw [if_pos hL]
    refine ⟨?_, ?_, ?_⟩
    · intro hR
      obtain ⟨e1, e2⟩ := hfa hR
      rcases hLb hL with ⟨u1, u2, u3⟩ | hc
      · exact ⟨e1.trans u1, by rw [e2, u2]⟩
      · exact absurd hR (hfc hc)
    · intro hR
      rcases hfb hR with ⟨u1, u2, u3⟩ | hc
      · rcases hLb hL with ⟨w1, w2, w3⟩ | hc2
        · exact Or.inl ⟨u1.trans w1, u2.trans w2, u3.trans w3⟩
        · exact Or.inr (by rw [u1]; exact hc2)
      · exact Or.inr hc
    · intro hCm
      rcases hLb hL with ⟨w1, w2, w3⟩ | hc2
      · exact hfc (by rw [w1]; exact hCm)
      · exact hfc hc2
  · rw [if_neg hL]
    refine ⟨hLa, ?_, hLc⟩
    intro hR
    exact absurd hR hL

theorem gen_comb_roll (m : mtrie_t) (a : Addr) (tb : Nat) (v : Option Val)
    (nb : nextbit_t) (st : lpm_lkup_table_stat) (al : lpm_alloc_t)
    (hm : m.isNullp = false) :
    ((lpm_gen_combinations m a tb v nb st al).1 = LPM_ERR_RESOURCES →
      (lpm_gen_combinations m a tb v nb st al).2.1 = m ∧
      (lpm_gen_combinations m a tb v nb st al).2.2.1 = statMtrieFail st) ∧
    ((lpm_gen_combinations m a tb v nb st al).1 = LPM_SUCCESS →
      ((lpm_gen_combinations m a tb v nb st al).2.1 = m ∧
       (lpm_gen_combinations m a tb v nb st al).2.2.1 = st ∧
       (lpm_gen_combinations m a tb v nb st al).2.2.2 = al) ∨
      mtrie_chain_ok a (lpm_gen_combinations m a tb v nb st al).2.1 0 (tb / 8) = true) ∧
    (mtrie_chain_ok a m 0 (tb / 8) = true →
      (lpm_gen_combinations m a tb v nb st al).1 ≠ LPM_ERR_RESOURCES) := by
  refine ⟨?_, ?_, ?_⟩
  · intro h
    have := lpm_gen_combinations_fail m a tb v nb st al (by rw [h]; simp)
    exact ⟨this.2.1, this.2.2⟩
  · intro h
    exact Or.inr (lpm_gen_combinations_chain m a tb v nb st al hm h)
  · intro hc heq
    have := (lpm_gen_combinations_of_chain m a tb v nb st al hc).1
    rw [heq] at this
    exact absurd this (by simp)

set_option maxHeartbeats 1000000 in
theorem __lpm_prefix_expansion_roll :
    ∀ (t : btrie_node_t) (a : Addr) (tb : Nat) (v : Option Val) (m : mtrie_t)
      (st : lpm_lkup_table_stat) (al : lpm_alloc_t), m.isNullp = false →
    ((__lpm_prefix_expansion t a tb v m st al).1 = LPM_ERR_RESOURCES →
      (__lpm_prefix_expansion t a tb v m st al).2.1 = m ∧
      (__lpm_prefix_expansion t a tb v m st al).2.2.2.1 = statMtrieFail st) ∧
    ((__lpm_prefix_expansion t a tb v m st al).1 = LPM_SUCCESS →
      ((__lpm_prefix_expansion t a tb v m st al).2.1 = m ∧
       (__lpm_prefix_expansion t a tb v m st al).2.2.2.1 = st ∧
       (__lpm_prefix_expansion t a tb v m st al).2.2.2.2 = al) ∨
      mtrie_chain_ok a (__lpm_prefix_expansion t a tb v m st al).2.1 0 (tb / 8) = true) ∧
    (mtrie_chain_ok a m 0 (tb / 8) = true →
      (__lpm_prefix_expansion t a tb v m st al).1 ≠ LPM_ERR_RESOURCES) := by
  intro t
  induction t with
  | nil =>
      intro a tb v m st al hm
      rw [__lpm_prefix_expansion]
      split
      · exact gen_comb_roll m a tb v .nb_none st al hm
      · refine ⟨?_, ?_, ?_⟩
        · intro h; exact absurd h (by simp)
        · intro h; exact absurd h (by simp)
        · intro _ h; exact absurd h (by simp)
  | node d c0 c1 ih0 ih1 =>
      intro a tb v m st al hm
      rw [__lpm_prefix_expansion]
      dsimp only
      by_cases hbd : BOUNDARY_BIT_POSITION tb = true
      · rw [if_pos hbd]
        exact gen_comb_roll m a tb v .nb_none st al hm
      · rw [if_neg hbd]
        have hbd7 : ¬ tb % 8 = 7 := by simpa [BOUNDARY_BIT_POSITION] using hbd
        by_cases hnn : (c0.isNil && c1.isNil) = true
        · rw [if_pos hnn]
          exact gen_comb_roll m a tb v .nb_none st al hm
        · rw [if_neg hnn]
          have hLnull : (if c0.isNil then
           let out := lpm_gen_combinations m a tb v .nb_zero st al
           (out.1, out.2.1, a, out.2.2)
         else if c0.data = none then
           __lpm_prefix_expansion c0 (CLEAR_BIT_AT_POSITION a (tb + 1)) (tb + 1) v m st al
         else (LPM_SUCCESS, m, a, st, al)).2.1.isNullp = false := by
            split
            · exact lpm_gen_combinations_isNullp m a tb v .nb_zero st al hm
            · split
              · exact lpm_prefix_expansion_isNullp c0 (CLEAR_BIT_AT_POSITION a (tb + 1))
                  (tb + 1) v m st al hm
              · exact hm
          have hLaddr : ∀ i, i < tb / 8 → (if c0.isNil then
           let out := lpm_gen_combinations m a tb v .nb_zero st al
           (out.1, out.2.1, a, out.2.2)
         else if c0.data = none then
           __lpm_prefix_expansion c0 (CLEAR_BIT_AT_POSITION a (tb + 1)) (tb + 1) v m st al
         else (LPM_SUCCESS, m, a, st, al)).2.2.1 i = a i := by
            intro i hi
            split
            · rfl
            · split
              · rw [__lpm_prefix_expansion_addr c0 (CLEAR_BIT_AT_POSITION a (tb + 1))
                    (tb + 1) v m st al i (by omega)]
                exact CLEAR_BIT_AT_POSITION_ne a (tb + 1) i (by omega)
              · rfl
          have hLa : (if c0.isNil then
           let out := lpm_gen_combinations m a tb v .nb_zero st al
           (out.1, out.2.1, a, out.2.2)
         else if c0.data = none then
           __lpm_prefix_expansion c0 (CLEAR_BIT_AT_POSITION a (tb + 1)) (tb + 1) v m st al
         else (LPM_SUCCESS, m, a, st, al)).1 = LPM_ERR_RESOURCES →
              (if c0.isNil then
           let out := lpm_gen_combinations m a tb v .nb_zero st al
           (out.1, out.2.1, a, out.2.2)
         else if c0.data = none then
           __lpm_prefix_expansion c0 (CLEAR_BIT_AT_POSITION a (tb + 1)) (tb + 1) v m st al
         else (LPM_SUCCESS, m, a, st, al)).2.1 = m ∧ (if c0.isNil then
           let out := lpm_gen_combinations m a tb v .nb_zero st al
           (out.1, out.2.1, a, out.2.2)
         else if c0.data = none then
           __lpm_prefix_expansion c0 (CLEAR_BIT_AT_POSITION a (tb + 1)) (tb + 1) v m st al
         else (LPM_SUCCESS, m, a, st, al)).2.2.2.1 = statMtrieFail st := by
            split
            · exact (gen_comb_roll m a tb v .nb_zero st al hm).1
            · split
              · exact (ih0 (CLEAR_BIT_AT_POSITION a (tb + 1)) (tb + 1) v m st al hm).1
              · intro h; exact absurd h (by simp)
          have hLb : (if c0.isNil then
           let out := lpm_gen_combinations m a tb v .nb_zero st al
           (out.1, out.2.1, a, out.2.2)
         else if c0.data = none then
           __lpm_prefix_expansion c0 (CLEAR_BIT_AT_POSITION a (tb + 1)) (tb + 1) v m st al
         else (LPM_SUCCESS, m, a, st, al)).1 = LPM_SUCCESS →
              ((if c0.isNil then
           let out := lpm_gen_combinations m a tb v .nb_zero st al
           (out.1, out.2.1, a, out.2.2)
         else if c0.data = none then
           __lpm_prefix_expansion c0 (CLEAR_BIT_AT_POSITION a (tb + 1)) (tb + 1) v m st al
         else (LPM_SUCCESS, m, a, st, al)).2.1 = m ∧ (if c0.isNil then
           let out := lpm_gen_combinations m a tb v .nb_zero st al
           (out.1, out.2.1, a, out.2.2)
         else if c0.data = none then
           __lpm_prefix_expansion c0 (CLEAR_BIT_AT_POSITION a (tb + 1)) (tb + 1) v m st al
         else (LPM_SUCCESS, m, a, st, al)).2.2.2.1 = st ∧ (if c0.isNil then
           let out := lpm_gen_combinations m a tb v .nb_zero st al
           (out.1, out.2.1, a, out.2.2)
         else if c0.data = none then
           __lpm_prefix_expansion c0 (CLEAR_BIT_AT_POSITION a (tb + 1)) (tb + 1) v m st al
         else (LPM_SUCCESS, m, a, st, al)).2.2.2.2 = al) ∨
              mtrie_chain_ok a (if c0.isNil then
           let out := lpm_gen_combinations m a tb v .nb_zero st al
           (out.1, out.2.1, a, out.2.2)
         else if c0.data = none then
           __lpm_prefix_expansion c0 (CLEAR_BIT_AT_POSITION a (tb + 1)) (tb + 1) v m st al
         else (LPM_SUCCESS, m, a, st, al)).2.1 0 (tb / 8) = true := by
            split
            · exact (gen_comb_roll m a tb v .nb_zero st al hm).2.1
            · split
              · intro h
                rcases (ih0 (CLEAR_BIT_AT_POSITION a (tb + 1)) (tb + 1) v m st al hm).2.1 h
                  with h1 | h2
                · exact Or.inl h1
                · refine Or.inr ?_
                  rw [show tb / 8 = (tb + 1) / 8 from by omega]
                  rw [mtrie_chain_ok_congr a (CLEAR_BIT_AT_POSITION a (tb + 1)) ((tb + 1) / 8)
                    _ 0 (fun i hi1 hi2 => (CLEAR_BIT_AT_POSITION_ne a (tb + 1) i
                      (by omega)).symm)]
                  exact h2
              · intro h; exact Or.inl ⟨rfl, rfl, rfl⟩
          have hLc : mtrie_chain_ok a m 0 (tb / 8) = true →
              (if c0.isNil then
           let out := lpm_gen_combinations m a tb v .nb_zero st al
           (out.1, out.2.1, a, out.2.2)
         else if c0.data = none then
           __lpm_prefix_expansion c0 (CLEAR_BIT_AT_POSITION a (tb + 1)) (tb + 1) v m st al
         else (LPM_SUCCESS, m, a, st, al)).1 ≠ LPM_ERR_RESOURCES := by
            intro hc
            split
            · exact (gen_comb_roll m a tb v .nb_zero st al hm).2.2 hc
            · split
              · refine (ih0 (CLEAR_BIT_AT_POSITION a (tb + 1)) (tb + 1) v m st al hm).2.2 ?_
                rw [mtrie_chain_ok_congr (CLEAR_BIT_AT_POSITION a (tb + 1)) a ((tb + 1) / 8)
                  m 0 (fun i hi1 hi2 => CLEAR_BIT_AT_POSITION_ne a (tb + 1) i (by omega))]
                rw [show (tb + 1) / 8 = tb / 8 from by omega]
                exact hc
              · intro h; exact absurd h (by simp)
          refine seq_roll m st al (fun x => mtrie_chain_ok a x 0 (tb / 8) = true)
            (if c0.isNil then
           let out := lpm_gen_combinations m a tb v .nb_zero st al
           (out.1, out.2.1, a, out.2.2)
         else if c0.data = none then
           __lpm_prefix_expansion c0 (CLEAR_BIT_AT_POSITION a (tb + 1)) (tb + 1) v m st al
         else (LPM_SUCCESS, m, a, st, al))
            (fun x =>
          if c1.isNil then
            let out := lpm_gen_combinations x.2.1 x.2.2.1 tb v .nb_one x.2.2.2.1 x.2.2.2.2
            (out.1, out.2.1, x.2.2.1, out.2.2)
          else if c1.data = none then
            __lpm_prefix_expansion c1 (SET_BIT_AT_POSITION x.2.2.1 (tb + 1)) (tb + 1) v
              x.2.1 x.2.2.2.1 x.2.2.2.2
          else (LPM_SUCCESS, x.2.1, x.2.2.1, x.2.2.2))
            hLa hLb hLc ?_ ?_ ?_
          · split
            · exact (gen_comb_roll (if c0.isNil then
           let out := lpm_gen_combinations m a tb v .nb_zero st al
           (out.1, out.2.1, a, out.2.2)
         else if c0.data = none then
           __lpm_prefix_expansion c0 (CLEAR_BIT_AT_POSITION a (tb + 1)) (tb + 1) v m st al
         else (LPM_SUCCESS, m, a, st, al)).2.1 (if c0.isNil then
           let out := lpm_gen_combinations m a tb v .nb_zero st al
           (out.1, out.2.1, a, out.2.2)
         else if c0.data = none then
           __lpm_prefix_expansion c0 (CLEAR_BIT_AT_POSITION a (tb + 1)) (tb + 1) v m st al
         else (LPM_SUCCESS, m, a, st, al)).2.2.1 tb v .nb_one
                (if c0.isNil then
           let out := lpm_gen_combinations m a tb v .nb_zero st al
           (out.1, out.2.1, a, out.2.2)
         else if c0.data = none then
           __lpm_prefix_expansion c0 (CLEAR_BIT_AT_POSITION a (tb + 1)) (tb + 1) v m st al
         else (LPM_SUCCESS, m, a, st, al)).2.2.2.1 (if c0.isNil then
           let out := lpm_gen_combinations m a tb v .nb_zero st al
           (out.1, out.2.1, a, out.2.2)
         else if c0.data = none then
           __lpm_prefix_expansion c0 (CLEAR_BIT_AT_POSITION a (tb + 1)) (tb + 1) v m st al
         else (LPM_SUCCESS, m, a, st, al)).2.2.2.2 hLnull).1
            · split
              · exact (ih1 (SET_BIT_AT_POSITION (if c0.isNil then
           let out := lpm_gen_combinations m a tb v .nb_zero st al
           (out.1, out.2.1, a, out.2.2)
         else if c0.data = none then
           __lpm_prefix_expansion c0 (CLEAR_BIT_AT_POSITION a (tb + 1)) (tb + 1) v m st al
         else (LPM_SUCCESS, m, a, st, al)).2.2.1 (tb + 1)) (tb + 1) v
                  (if c0.isNil then
           let out := lpm_gen_combinations m a tb v .nb_zero st al
           (out.1, out.2.1, a, out.2.2)
         else if c0.data = none then
           __lpm_prefix_expansion c0 (CLEAR_BIT_AT_POSITION a (tb + 1)) (tb + 1) v m st al
         else (LPM_SUCCESS, m, a, st, al)).2.1 (if c0.isNil then
           let out := lpm_gen_combinations m a tb v .nb_zero st al
           (out.1, out.2.1, a, out.2.2)
         else if c0.data = none then
           __lpm_prefix_expansion c0 (CLEAR_BIT_AT_POSITION a (tb + 1)) (tb + 1) v m st al
         else (LPM_SUCCESS, m, a, st, al)).2.2.2.1 (if c0.isNil then
           let out := lpm_gen_combinations m a tb v .nb_zero st al
           (out.1, out.2.1, a, out.2.2)
         else if c0.data = none then
           __lpm_prefix_expansion c0 (CLEAR_BIT_AT_POSITION a (tb + 1)) (tb + 1) v m st al
         else (LPM_SUCCESS, m, a, st, al)).2.2.2.2 hLnull).1
              · intro h; exact absurd h (by simp)
          · split
            · intro h
              rcases (gen_comb_roll (if c0.isNil then
           let out := lpm_gen_combinations m a tb v .nb_zero st al
           (out.1, out.2.1, a, out.2.2)
         else if c0.data = none then
           __lpm_prefix_expansion c0 (CLEAR_BIT_AT_POSITION a (tb + 1)) (tb + 1) v m st al
         else (LPM_SUCCESS, m, a, st, al)).2.1 (if c0.isNil then
           let out := lpm_gen_combinations m a tb v .nb_zero st al
           (out.1, out.2.1, a, out.2.2)
         else if c0.data = none then
           __lpm_prefix_expansion c0 (CLEAR_BIT_AT_POSITION a (tb + 1)) (tb + 1) v m st al
         else (LPM_SUCCESS, m, a, st, al)).2.2.1 tb v .nb_one
                  (if c0.isNil then
           let out := lpm_gen_combinations m a tb v .nb_zero st al
           (out.1, out.2.1, a, out.2.2)
         else if c0.data = none then
           __lpm_prefix_expansion c0 (CLEAR_BIT_AT_POSITION a (tb + 1)) (tb + 1) v m st al
         else (LPM_SUCCESS, m, a, st, al)).2.2.2.1 (if c0.isNil then
           let out := lpm_gen_combinations m a tb v .nb_zero st al
           (out.1, out.2.1, a, out.2.2)
         else if c0.data = none then
           __lpm_prefix_expansion c0 (CLEAR_BIT_AT_POSITION a (tb + 1)) (tb + 1) v m st al
         else (LPM_SUCCESS, m, a, st, al)).2.2.2.2 hLnull).2.1 h with h1 | h2
              · exact Or.inl h1
              · refine Or.inr ?_
                show mtrie_chain_ok a _ 0 (tb / 8) = true
                rw [mtrie_chain_ok_congr a (if c0.isNil then
           let out := lpm_gen_combinations m a tb v .nb_zero st al
           (out.1, out.2.1, a, out.2.2)
         else if c0.data = none then
           __lpm_prefix_expansion c0 (CLEAR_BIT_AT_POSITION a (tb + 1)) (tb + 1) v m st al
         else (LPM_SUCCESS, m, a, st, al)).2.2.1 (tb / 8)
                  _ 0 (fun i hi1 hi2 => (hLaddr i (by omega)).symm)]
                exact h2
            · split
              · intro h
                rcases (ih1 (SET_BIT_AT_POSITION (if c0.isNil then
           let out := lpm_gen_combinations m a tb v .nb_zero st al
           (out.1, out.2.1, a, out.2.2)
         else if c0.data = none then
           __lpm_prefix_expansion c0 (CLEAR_BIT_AT_POSITION a (tb + 1)) (tb + 1) v m st al
         else (LPM_SUCCESS, m, a, st, al)).2.2.1 (tb + 1)) (tb + 1) v
                    (if c0.isNil then
           let out := lpm_gen_combinations m a tb v .nb_zero st al
           (out.1, out.2.1, a, out.2.2)
         else if c0.data = none then
           __lpm_prefix_expansion c0 (CLEAR_BIT_AT_POSITION a (tb + 1)) (tb + 1) v m st al
         else (LPM_SUCCESS, m, a, st, al)).2.1 (if c0.isNil then
           let out := lpm_gen_combinations m a tb v .nb_zero st al
           (out.1, out.2.1, a, out.2.2)
         else if c0.data = none then
           __lpm_prefix_expansion c0 (CLEAR_BIT_AT_POSITION a (tb + 1)) (tb + 1) v m st al
         else (LPM_SUCCESS, m, a, st, al)).2.2.2.1 (if c0.isNil then
           let out := lpm_gen_combinations m a tb v .nb_zero st al
           (out.1, out.2.1, a, out.2.2)
         else if c0.data = none then
           __lpm_prefix_expansion c0 (CLEAR_BIT_AT_POSITION a (tb + 1)) (tb + 1) v m st al
         else (LPM_SUCCESS, m, a, st, al)).2.2.2.2 hLnull).2.1 h with h1 | h2
                · exact Or.inl h1
                · refine Or.inr ?_
                  show mtrie_chain_ok a _ 0 (tb / 8) = true
                  rw [show tb / 8 = (tb + 1) / 8 from by omega]
                  rw [mtrie_chain_ok_congr a (SET_BIT_AT_POSITION (if c0.isNil then
           let out := lpm_gen_combinations m a tb v .nb_zero st al
           (out.1, out.2.1, a, out.2.2)
         else if c0.data = none then
           __lpm_prefix_expansion c0 (CLEAR_BIT_AT_POSITION a (tb + 1)) (tb + 1) v m st al
         else (LPM_SUCCESS, m, a, st, al)).2.2.1 (tb + 1))
                    ((tb + 1) / 8) _ 0 (fun i hi1 hi2 =>
                      ((SET_BIT_AT_POSITION_ne (if c0.isNil then
           let out := lpm_gen_combinations m a tb v .nb_zero st al
           (out.1, out.2.1, a, out.2.2)
         else if c0.data = none then
           __lpm_prefix_expansion c0 (CLEAR_BIT_AT_POSITION a (tb + 1)) (tb + 1) v m st al
         else (LPM_SUCCESS, m, a, st, al)).2.2.1 (tb + 1) i (by omega)).trans
                        (hLaddr i (by omega))).symm)]
                  exact h2
              · intro h; exact Or.inl ⟨rfl, rfl, rfl⟩
          · intro hc
            split
            · refine (gen_comb_roll (if c0.isNil then
           let out := lpm_gen_combinations m a tb v .nb_zero st al
           (out.1, out.2.1, a, out.2.2)
         else if c0.data = none then
           __lpm_prefix_expansion c0 (CLEAR_BIT_AT_POSITION a (tb + 1)) (tb + 1) v m st al
         else (LPM_SUCCESS, m, a, st, al)).2.1 (if c0.isNil then
           let out := lpm_gen_combinations m a tb v .nb_zero st al
           (out.1, out.2.1, a, out.2.2)
         else if c0.data = none then
           __lpm_prefix_expansion c0 (CLEAR_BIT_AT_POSITION a (tb + 1)) (tb + 1) v m st al
         else (LPM_SUCCESS, m, a, st, al)).2.2.1 tb v .nb_one
                (if c0.isNil then
           let out := lpm_gen_combinations m a tb v .nb_zero st al
           (out.1, out.2.1, a, out.2.2)
         else if c0.data = none then
           __lpm_prefix_expansion c0 (CLEAR_BIT_AT_POSITION a (tb + 1)) (tb + 1) v m st al
         else (LPM_SUCCESS, m, a, st, al)).2.2.2.1 (if c0.isNil then
           let out := lpm_gen_combinations m a tb v .nb_zero st al
           (out.1, out.2.1, a, out.2.2)
         else if c0.data = none then
           __lpm_prefix_expansion c0 (CLEAR_BIT_AT_POSITION a (tb + 1)) (tb + 1) v m st al
         else (LPM_SUCCESS, m, a, st, al)).2.2.2.2 hLnull).2.2 ?_
              rw [mtrie_chain_ok_congr (if c0.isNil then
           let out := lpm_gen_combinations m a tb v .nb_zero st al
           (out.1, out.2.1, a, out.2.2)
         else if c0.data = none then
           __lpm_prefix_expansion c0 (CLEAR_BIT_AT_POSITION a (tb + 1)) (tb + 1) v m st al
         else (LPM_SUCCESS, m, a, st, al)).2.2.1 a (tb / 8)
                _ 0 (fun i hi1 hi2 => hLaddr i (by omega))]
              exact hc
            · split
              · refine (ih1 (SET_BIT_AT_POSITION (if c0.isNil then
           let out := lpm_gen_combinations m a tb v .nb_zero st al
           (out.1, out.2.1, a, out.2.2)
         else if c0.data = none then
           __lpm_prefix_expansion c0 (CLEAR_BIT_AT_POSITION a (tb + 1)) (tb + 1) v m st al
         else (LPM_SUCCESS, m, a, st, al)).2.2.1 (tb + 1)) (tb + 1) v
                  (if c0.isNil then
           let out := lpm_gen_combinations m a tb v .nb_zero st al
           (out.1, out.2.1, a, out.2.2)
         else if c0.data = none then
           __lpm_prefix_expansion c0 (CLEAR_BIT_AT_POSITION a (tb + 1)) (tb + 1) v m st al
         else (LPM_SUCCESS, m, a, st, al)).2.1 (if c0.isNil then
           let out := lpm_gen_combinations m a tb v .nb_zero st al
           (out.1, out.2.1, a, out.2.2)
         else if c0.data = none then
           __lpm_prefix_expansion c0 (CLEAR_BIT_AT_POSITION a (tb + 1)) (tb + 1) v m st al
         else (LPM_SUCCESS, m, a, st, al)).2.2.2.1 (if c0.isNil then
           let out := lpm_gen_combinations m a tb v .nb_zero st al
           (out.1, out.2.1, a, out.2.2)
         else if c0.data = none then
           __lpm_prefix_expansion c0 (CLEAR_BIT_AT_POSITION a (tb + 1)) (tb + 1) v m st al
         else (LPM_SUCCESS, m, a, st, al)).2.2.2.2 hLnull).2.2 ?_
                rw [mtrie_chain_ok_congr (SET_BIT_AT_POSITION (if c0.isNil then
           let out := lpm_gen_combinations m a tb v .nb_zero st al
           (out.1, out.2.1, a, out.2.2)
         else if c0.data = none then
           __lpm_prefix_expansion c0 (CLEAR_BIT_AT_POSITION a (tb + 1)) (tb + 1) v m st al
         else (LPM_SUCCESS, m, a, st, al)).2.2.1 (tb + 1)) a
                  ((tb + 1) / 8) _ 0 (fun i hi1 hi2 =>
                    (SET_BIT_AT_POSITION_ne (if c0.isNil then
           let out := lpm_gen_combinations m a tb v .nb_zero st al
           (out.1, out.2.1, a, out.2.2)
         else if c0.data = none then
           __lpm_prefix_expansion c0 (CLEAR_BIT_AT_POSITION a (tb + 1)) (tb + 1) v m st al
         else (LPM_SUCCESS, m, a, st, al)).2.2.1 (tb + 1) i (by omega)).trans
                      (hLaddr i (by omega)))]
                rw [show (tb + 1) / 8 = tb / 8 from by omega]
                exact hc
              · intro h; exact absurd h (by simp)

/-! ## Rollback composition for `lpm_add_entry` failures -/

theorem btrie_set_set_none (a : Addr) :
    ∀ (rem pos : Nat) (t : btrie_node_t) (v : Option Val),
    (btrie_find_node_go a t pos rem).data = none →
    btrie_set_data_go a (btrie_set_data_go a t pos rem v) pos rem none = t := by
  intro rem
  induction rem with
  | zero =>
      intro pos t v h
      cases t with
      | nil => rfl
      | node d c0 c1 =>
          rw [btrie_find_go_zero] at h
          have hd : d = none := h
          simp [btrie_set_data_go, hd]
  | succ rem ih =>
      intro pos t v h
      cases t with
      | nil => rfl
      | node d c0 c1 =>
          rw [btrie_find_go_succ] at h
          cases hb : bit_at_position a pos with
          | true =>
              rw [hb, if_pos rfl] at h
              simp [btrie_set_data_go, hb, ih (pos + 1) c1 v h]
          | false =>
              rw [hb] at h
              simp only [Bool.false_eq_true, if_false] at h
              simp [btrie_set_data_go, hb, ih (pos + 1) c0 v h]

theorem btrie_add_node_go_exists_out (a : Addr) :
    ∀ (rem pos : Nat) (t : btrie_node_t) (ap : Nat × Bool) (st : lpm_lkup_table_stat)
      (al : lpm_alloc_t),
    (btrie_add_node_go a t pos rem LPM_ERR_EXISTS ap st al).1 = LPM_ERR_EXISTS →
    (btrie_add_node_go a t pos rem LPM_ERR_EXISTS ap st al).2.1 = t ∧
    (btrie_add_node_go a t pos rem LPM_ERR_EXISTS ap st al).2.2.2.1 = st ∧
    (btrie_add_node_go a t pos rem LPM_ERR_EXISTS ap st al).2.2.2.2 = al := by
  intro rem
  induction rem with
  | zero =>
      intro pos t ap st al _
      rw [btrie_add_node_go_zero]
      exact ⟨rfl, rfl, rfl⟩
  | succ rem ih =>
      intro pos t ap st al h
      cases t with
      | nil => exact absurd h (by simp [btrie_add_node_go])
      | node d c0 c1 =>
          cases hb : bit_at_position a pos with
          | true =>
              cases c1 with
              | nil =>
                  cases hok : (lpm_alloc_t.next al).1 with
                  | false =>
                      simp only [btrie_add_node_go, hb, hok, if_true,
                        Bool.false_eq_true, if_false] at h
                      exact absurd h (by simp)
                  | true =>
                      simp only [btrie_add_node_go, hb, hok, if_true,
                        Bool.false_eq_true, if_false] at h
                      have := (btrie_add_fresh_roll a rem (pos + 1) ap (statBtrieAlloc st)
                        (lpm_alloc_t.next al).2).1
                      rcases this with h2 | h2 <;> rw [h2] at h <;> exact absurd h (by simp)
              | node d1 l1 r1 =>
                  simp only [btrie_add_node_go, hb, if_true] at h ⊢
                  obtain ⟨e1, e2, e3⟩ := ih (pos + 1) (.node d1 l1 r1)
                    (pos + 1, bit_at_position a (pos + 1)) st al h
                  rw [e1, e2, e3]
                  exact ⟨rfl, rfl, rfl⟩
          | false =>
              cases c0 with
              | nil =>
                  cases hok : (lpm_alloc_t.next al).1 with
                  | false =>
                      simp only [btrie_add_node_go, hb, hok, if_true,
                        Bool.false_eq_true, if_false] at h
                      exact absurd h (by simp)
                  | true =>
                      simp only [btrie_add_node_go, hb, hok, if_true,
                        Bool.false_eq_true, if_false] at h
                      have := (btrie_add_fresh_roll a rem (pos + 1) ap (statBtrieAlloc st)
                        (lpm_alloc_t.next al).2).1
                      rcases this with h2 | h2 <;> rw [h2] at h <;> exact absurd h (by simp)
              | node d0 l0 r0 =>
                  simp only [btrie_add_node_go, hb, Bool.false_eq_true, if_false] at h ⊢
                  obtain ⟨e1, e2, e3⟩ := ih (pos + 1) (.node d0 l0 r0)
                    (pos + 1, bit_at_position a (pos + 1)) st al h
                  rw [e1, e2, e3]
                  exact ⟨rfl, rfl, rfl⟩

theorem zero_out_walk_not_res (a : Addr) (masklen : Nat) :
    ∀ (m : mtrie_t) (lvl : Nat), (zero_out_walk a masklen m lvl).1 ≠ LPM_ERR_RESOURCES := by
  intro m
  induction m with
  | nullp => intro lvl; simp [zero_out_walk]
  | block d b ih =>
      intro lvl
      rw [zero_out_walk]
      split
      · simp
      · split
        · simp
        · exact ih (a lvl) (lvl + 1)

theorem zero_out_data_not_res (m : mtrie_t) (a : Addr) (masklen : Nat) :
    (zero_out_data m a masklen).1 ≠ LPM_ERR_RESOURCES := by
  cases m with
  | nullp => simp [zero_out_data]
  | block d b =>
      rw [zero_out_data]
      split
      · simp
      · rcases hsub : b (a 0) with _ | ⟨d2, b2⟩
        · simp only [hsub]; simp
        · simp only [hsub]
          have := zero_out_walk_not_res a masklen (.block d2 b2) 1
          simpa using this

set_option maxHeartbeats 1000000 in
theorem btrie_add_walk_roll (a : Addr) :
    ∀ (rem pos : Nat) (t : btrie_node_t) (st : lpm_lkup_table_stat) (al : lpm_alloc_t),
    t ≠ .nil →
    ((btrie_add_node_go a t pos rem LPM_ERR_EXISTS (pos, bit_at_position a pos) st al).1 =
        LPM_ERR_RESOURCES ∨
     (btrie_add_node_go a t pos rem LPM_ERR_EXISTS (pos, bit_at_position a pos) st al).1 =
        LPM_SUCCESS) →
    pos ≤ (btrie_add_node_go a t pos rem LPM_ERR_EXISTS (pos, bit_at_position a pos)
        st al).2.2.1.1 ∧
    (btrie_cut_child_go a
        (btrie_add_node_go a t pos rem LPM_ERR_EXISTS (pos, bit_at_position a pos)
          st al).2.1 pos
        ((btrie_add_node_go a t pos rem LPM_ERR_EXISTS (pos, bit_at_position a pos)
          st al).2.2.1.1 - pos)
        (btrie_add_node_go a t pos rem LPM_ERR_EXISTS (pos, bit_at_position a pos)
          st al).2.2.1.2).1 = t ∧
    statBtrieFreeN
        (btrie_add_node_go a t pos rem LPM_ERR_EXISTS (pos, bit_at_position a pos)
          st al).2.2.2.1
        (btrie_del_appended_count
          (btrie_cut_child_go a
            (btrie_add_node_go a t pos rem LPM_ERR_EXISTS (pos, bit_at_position a pos)
              st al).2.1 pos
            ((btrie_add_node_go a t pos rem LPM_ERR_EXISTS (pos, bit_at_position a pos)
              st al).2.2.1.1 - pos)
            (btrie_add_node_go a t pos rem LPM_ERR_EXISTS (pos, bit_at_position a pos)
              st al).2.2.1.2).2) =
      (if (btrie_add_node_go a t pos rem LPM_ERR_EXISTS (pos, bit_at_position a pos)
          st al).1 = LPM_ERR_RESOURCES
       then statBtrieFail st else st) := by
  intro rem
  induction rem with
  | zero =>
      intro pos t st al ht hres
      rw [btrie_add_node_go_zero] at hres
      rcases hres with h | h <;> exact absurd h (by simp)
  | succ rem ih =>
      intro pos t st al ht hres
      cases t with
      | nil => exact absurd rfl ht
      | node d c0 c1 =>
          cases hb : bit_at_position a pos with
          | true =>
              cases c1 with
              | node d1 l1 r1 =>
                  simp only [btrie_add_node_go, hb, if_true] at hres ⊢
                  obtain ⟨hle, hcut, hstat⟩ := ih (pos + 1) (.node d1 l1 r1) st al
                    (by simp) hres
                  rcases hc : btrie_cut_child_go a
                      (btrie_add_node_go a (btrie_node_t.node d1 l1 r1) (pos + 1) rem
                      LPM_ERR_EXISTS (pos + 1, bit_at_position a (pos + 1)) st al).2.1 (pos + 1)
                      ((btrie_add_node_go a (btrie_node_t.node d1 l1 r1) (pos + 1) rem
                      LPM_ERR_EXISTS (pos + 1, bit_at_position a (pos + 1)) st al).2.2.1.1 - (pos + 1))
                      (btrie_add_node_go a (btrie_node_t.node d1 l1 r1) (pos + 1) rem
                      LPM_ERR_EXISTS (pos + 1, bit_at_position a (pos + 1)) st al).2.2.1.2 with ⟨c1p, cutp⟩
                  simp only [hc] at hcut hstat
                  refine ⟨by omega, ?_, ?_⟩
                  · rw [show (btrie_add_node_go a (btrie_node_t.node d1 l1 r1) (pos + 1) rem
                      LPM_ERR_EXISTS (pos + 1, bit_at_position a (pos + 1)) st al).2.2.1.1 - pos =
                        ((btrie_add_node_go a (btrie_node_t.node d1 l1 r1) (pos + 1) rem
                      LPM_ERR_EXISTS (pos + 1, bit_at_position a (pos + 1)) st al).2.2.1.1 - (pos + 1)) + 1 from by omega]
                    simp only [btrie_cut_child_go, hb, if_true, hc]
                    rw [hcut]
                  · rw [show (btrie_add_node_go a (btrie_node_t.node d1 l1 r1) (pos + 1) rem
                      LPM_ERR_EXISTS (pos + 1, bit_at_position a (pos + 1)) st al).2.2.1.1 - pos =
                        ((btrie_add_node_go a (btrie_node_t.node d1 l1 r1) (pos + 1) rem
                      LPM_ERR_EXISTS (pos + 1, bit_at_position a (pos + 1)) st al).2.2.1.1 - (pos + 1)) + 1 from by omega]
                    simp only [btrie_cut_child_go, hb, if_true, hc]
                    exact hstat
              | nil =>
                  cases hok : (lpm_alloc_t.next al).1 with
                  | false =>
                      simp only [btrie_add_node_go, hb, hok, if_true,
                        Bool.false_eq_true, if_false] at hres ⊢
                      refine ⟨Nat.le_refl pos, ?_, ?_⟩
                      · simp [btrie_cut_child_go, Nat.sub_self]
                      · simp [btrie_cut_child_go, Nat.sub_self,
                          btrie_del_appended_count_nil, statBtrieFreeN_zero]
                  | true =>
                      simp only [btrie_add_node_go, hb, hok, if_true,
                        Bool.false_eq_true, if_false] at hres ⊢
                      obtain ⟨hf1, hf2, hf3⟩ := btrie_add_fresh_roll a rem (pos + 1)
                        (pos, true) (statBtrieAlloc st) (lpm_alloc_t.next al).2
                      rw [statBtrieFreeN_alloc] at hf3
                      rw [hf2]
                      refine ⟨Nat.le_refl pos, ?_, ?_⟩
                      · simp [btrie_cut_child_go, Nat.sub_self]
                      · simp only [btrie_cut_child_go, Nat.sub_self, if_true]
                        exact hf3
          | false =>
              cases c0 with
              | node d0 l0 r0 =>
                  simp only [btrie_add_node_go, hb, Bool.false_eq_true, if_false] at hres ⊢
                  obtain ⟨hle, hcut, hstat⟩ := ih (pos + 1) (.node d0 l0 r0) st al
                    (by simp) hres
                  rcases hc : btrie_cut_child_go a
                      (btrie_add_node_go a (btrie_node_t.node d0 l0 r0) (pos + 1) rem
                      LPM_ERR_EXISTS (pos + 1, bit_at_position a (pos + 1)) st al).2.1 (pos + 1)
                      ((btrie_add_node_go a (btrie_node_t.node d0 l0 r0) (pos + 1) rem
                      LPM_ERR_EXISTS (pos + 1, bit_at_position a (pos + 1)) st al).2.2.1.1 - (pos + 1))
                      (btrie_add_node_go a (btrie_node_t.node d0 l0 r0) (pos + 1) rem
                      LPM_ERR_EXISTS (pos + 1, bit_at_position a (pos + 1)) st al).2.2.1.2 with ⟨c0p, cutp⟩
                  simp only [hc] at hcut hstat
                  refine ⟨by omega, ?_, ?_⟩
                  · rw [show (btrie_add_node_go a (btrie_node_t.node d0 l0 r0) (pos + 1) rem
                      LPM_ERR_EXISTS (pos + 1, bit_at_position a (pos + 1)) st al).2.2.1.1 - pos =
                        ((btrie_add_node_go a (btrie_node_t.node d0 l0 r0) (pos + 1) rem
                      LPM_ERR_EXISTS (pos + 1, bit_at_position a (pos + 1)) st al).2.2.1.1 - (pos + 1)) + 1 from by omega]
                    simp only [btrie_cut_child_go, hb, Bool.false_eq_true, if_false, hc]
                    rw [hcut]
                  · rw [show (btrie_add_node_go a (btrie_node_t.node d0 l0 r0) (pos + 1) rem
                      LPM_ERR_EXISTS (pos + 1, bit_at_position a (pos + 1)) st al).2.2.1.1 - pos =
                        ((btrie_add_node_go a (btrie_node_t.node d0 l0 r0) (pos + 1) rem
                      LPM_ERR_EXISTS (pos + 1, bit_at_position a (pos + 1)) st al).2.2.1.1 - (pos + 1)) + 1 from by omega]
                    simp only [btrie_cut_child_go, hb, Bool.false_eq_true, if_false, hc]
                    exact hstat
              | nil =>
                  cases hok : (lpm_alloc_t.next al).1 with
                  | false =>
                      simp only [btrie_add_node_go, hb, hok, if_true,
                        Bool.false_eq_true, if_false] at hres ⊢
                      refine ⟨Nat.le_refl pos, ?_, ?_⟩
                      · simp [btrie_cut_child_go, Nat.sub_self]
                      · simp [btrie_cut_child_go, Nat.sub_self,
                          btrie_del_appended_count_nil, statBtrieFreeN_zero]
                  | true =>
                      simp only [btrie_add_node_go, hb, hok, if_true,
                        Bool.false_eq_true, if_false] at hres ⊢
                      obtain ⟨hf1, hf2, hf3⟩ := btrie_add_fresh_roll a rem (pos + 1)
                        (pos, false) (statBtrieAlloc st) (lpm_alloc_t.next al).2
                      rw [statBtrieFreeN_alloc] at hf3
                      rw [hf2]
                      refine ⟨Nat.le_refl pos, ?_, ?_⟩
                      · simp [btrie_cut_child_go, Nat.sub_self]
                      · simp only [btrie_cut_child_go, Nat.sub_self,
                          Bool.false_eq_true, if_false]
                        exact hf3

theorem btrie_add_node_roll (a : Addr) (root : btrie_node_t) (m : Nat)
    (st : lpm_lkup_table_stat) (al : lpm_alloc_t) (hr : root ≠ .nil) (hm0 : m ≠ 0)
    (hres : (btrie_add_node root a m st al).1 = LPM_ERR_RESOURCES ∨
            (btrie_add_node root a m st al).1 = LPM_SUCCESS) :
    (btrie_cut_child (btrie_add_node root a m st al).2.1 a
        (btrie_add_node root a m st al).2.2.1.1
        (btrie_add_node root a m st al).2.2.1.2).1 = root ∧
    statBtrieFreeN (btrie_add_node root a m st al).2.2.2.1
        (btrie_del_appended_count
          (btrie_cut_child (btrie_add_node root a m st al).2.1 a
            (btrie_add_node root a m st al).2.2.1.1
            (btrie_add_node root a m st al).2.2.1.2).2) =
      (if (btrie_add_node root a m st al).1 = LPM_ERR_RESOURCES
       then statBtrieFail st else st) := by
  unfold btrie_add_node at hres ⊢
  rw [if_neg hm0] at hres ⊢
  obtain ⟨-, hcut, hstat⟩ := btrie_add_walk_roll a m 0 root st al hr hres
  rw [Nat.sub_zero] at hcut hstat
  unfold btrie_cut_child
  exact ⟨hcut, hstat⟩

theorem btrie_add_node_exists_out (a : Addr) (root : btrie_node_t) (m : Nat)
    (st : lpm_lkup_table_stat) (al : lpm_alloc_t)
    (h : (btrie_add_node root a m st al).1 = LPM_ERR_EXISTS) :
    (btrie_add_node root a m st al).2.1 = root ∧
    (btrie_add_node root a m st al).2.2.2.1 = st ∧
    (btrie_add_node root a m st al).2.2.2.2 = al := by
  unfold btrie_add_node at h ⊢
  by_cases hm0 : m = 0
  · subst hm0
    rw [if_pos rfl] at h ⊢
    exact btrie_add_node_go_exists_out a 0 0 root (0, false) st al h
  · rw [if_neg hm0] at h ⊢
    exact btrie_add_node_go_exists_out a m 0 root (0, bit_at_position a 0) st al h

theorem lpm_prefix_expansion_roll (tn : btrie_node_t) (a : Addr) (tb : Nat)
    (v : Option Val) (m : mtrie_t) (st : lpm_lkup_table_stat) (al : lpm_alloc_t)
    (hm : m.isNullp = false) :
    ((lpm_prefix_expansion tn a tb v m st al).1 = LPM_ERR_RESOURCES →
      (lpm_prefix_expansion tn a tb v m st al).2.1 = m ∧
      (lpm_prefix_expansion tn a tb v m st al).2.2.2.1 = statMtrieFail st) ∧
    (mtrie_chain_ok a m 0 (tb / 8) = true →
      (lpm_prefix_expansion tn a tb v m st al).1 ≠ LPM_ERR_RESOURCES) := by
  have := __lpm_prefix_expansion_roll tn a tb v m st al hm
  exact ⟨this.1, this.2.2⟩

set_option maxHeartbeats 1000000 in
theorem lpm_add_entry_resources (t : lpm_lkup_table_t) (a : Addr) (m : Nat) (v : Val)
    (al : lpm_alloc_t) (t' : lpm_lkup_table_t) (al' : lpm_alloc_t)
    (h : lpm_add_entry (some t) (some a) m (some v) al = (LPM_ERR_RESOURCES, some t', al')) :
    t' = { t with stat := statBtrieFail t.stat } ∨
    t' = { t with stat := statMtrieFail t.stat } := by
  by_cases hm : m ≤ LPM_MASKLEN_MAX
  case neg =>
    exfalso
    have hc : lpm_check_arg (some t) (some a) m = LPM_ERR_INVALID := by
      simp [lpm_check_arg, Nat.lt_of_not_le hm]
    unfold lpm_add_entry at h
    rw [hc] at h
    simp at h
  case pos =>
    have hc := lpm_check_arg_ok t a m hm
    unfold lpm_add_entry at h
    rw [hc] at h
    simp only [addrD] at h
    rcases hroot : t.btrie_root with _ | ⟨rd, rc0, rc1⟩
    · rw [hroot] at h; simp at h
    rcases hmt : t.hi256_table_base with _ | ⟨db, bb⟩
    · rw [hroot, hmt] at h; simp at h
    rw [hroot, hmt] at h
    simp only at h
    have hnodenil : (btrie_node_t.node rd rc0 rc1 : btrie_node_t) ≠ .nil := by simp
    split at h
    · -- btrie_add_node reported RESOURCES: pure btrie rollback
      rename_i heq1
      by_cases hm0 : m = 0
      · exfalso
        subst hm0
        unfold btrie_add_node at heq1
        rw [if_pos rfl, btrie_add_node_go_zero] at heq1
        simp at heq1
      · obtain ⟨hcut, hstat⟩ := btrie_add_node_roll a (.node rd rc0 rc1) m t.stat al
          hnodenil hm0 (Or.inl heq1)
        simp only [heq1, eq_self_iff_true, if_true] at hstat
        simp only [Prod.mk.injEq, Option.some.injEq] at h
        obtain ⟨-, ht', -⟩ := h
        left
        rw [← ht', hcut, hstat, ← hroot]
    · -- btrie_add_node reported EXISTS
      rename_i heq1
      obtain ⟨e1, e2, e3⟩ := btrie_add_node_exists_out a (.node rd rc0 rc1) m t.stat al heq1
      split at h
      · split at h <;> simp at h
      · rename_i heq2
        split at h
        · simp at h
        · rename_i hm0
          split at h
          · simp at h
          · rename_i heq3
            rw [e1, e2, e3] at h
            rw [e1] at heq2
            rw [e1, e2, e3] at heq3
            have hcollapse : btrie_set_data
                (btrie_set_data (btrie_node_t.node rd rc0 rc1) a m (some v)) a m none =
                btrie_node_t.node rd rc0 rc1 :=
              btrie_set_set_none a m 0 (btrie_node_t.node rd rc0 rc1) (some v) heq2
            have hexp := (lpm_prefix_expansion_roll
              (btrie_find_node (btrie_set_data (btrie_node_t.node rd rc0 rc1) a m (some v))
                a m)
              (temp_addr_of a m) (m - 1) (some v) (.block db bb)
              (statDataAdd t.stat m) al rfl).1 heq3
            rw [hexp.1, hexp.2, statDataDel_mtrieFail, statDataDel_add, hcollapse] at h
            simp only [Prod.mk.injEq, Option.some.injEq] at h
            obtain ⟨-, ht', -⟩ := h
            right
            rw [← ht', ← hroot, ← hmt]
          · simp at h
    · -- btrie_add_node reported SUCCESS: btrie rollback after mtrie failure
      rename_i heq1
      split at h
      · split at h <;> simp at h
      · rename_i heq2
        split at h
        · simp at h
        · rename_i hm0
          split at h
          · simp at h
          · rename_i heq3
            have hcollapse : btrie_set_data
                (btrie_set_data (btrie_add_node (btrie_node_t.node rd rc0 rc1) a m t.stat
                  al).2.1 a m (some v)) a m none =
                (btrie_add_node (btrie_node_t.node rd rc0 rc1) a m t.stat al).2.1 :=
              btrie_set_set_none a m 0 _ (some v) heq2
            have hexp := (lpm_prefix_expansion_roll
              (btrie_find_node (btrie_set_data
                (btrie_add_node (btrie_node_t.node rd rc0 rc1) a m t.stat al).2.1 a m
                (some v)) a m)
              (temp_addr_of a m) (m - 1) (some v) (.block db bb)
              (statDataAdd (btrie_add_node (btrie_node_t.node rd rc0 rc1) a m t.stat
                al).2.2.2.1 m)
              (btrie_add_node (btrie_node_t.node rd rc0 rc1) a m t.stat al).2.2.2.2
              rfl).1 heq3
            obtain ⟨hcut, hstat⟩ := btrie_add_node_roll a (.node rd rc0 rc1) m t.stat al
              hnodenil hm0 (Or.inr heq1)
            simp [heq1] at hstat
            rw [hcollapse] at h
            rw [hexp.1, hexp.2, statDataDel_mtrieFail, statDataDel_add,
              statBtrieFreeN_mtrieFail, hstat, hcut] at h
            rw [heq1] at h
            rw [if_neg (show ¬ ((LPM_SUCCESS : lpm_result_t) = LPM_ERR_EXISTS)
              from by simp)] at h
            simp only [Prod.mk.injEq, Option.some.injEq] at h
            obtain ⟨-, ht', -⟩ := h
            right
            rw [← ht', ← hroot, ← hmt]
          · simp at h
    · rename_i hns1 hns2 hns3
      simp only [Prod.mk.injEq] at h
      exact absurd h.1 hns1

/-! ## C3: update and delete never fail with RESOURCES on complete chains -/

theorem del_mtrie_fix_not_res (t : lpm_lkup_table_t) (a : Addr) (m lkd : Nat)
    (lkdat : Option Val) (lkb : Nat) (al : lpm_alloc_t)
    (hm : t.hi256_table_base.isNullp = false)
    (hch : mtrie_chain_ok a t.hi256_table_base 0 ((m - 1) / 8) = true) :
    (del_mtrie_fix t a m lkd lkdat lkb al).1 ≠ LPM_ERR_RESOURCES := by
  have hE := fun tn tb v st =>
    (lpm_prefix_expansion_roll tn a tb v t.hi256_table_base st al hm).2
  rcases lkdat with _ | lkv
  · unfold del_mtrie_fix
    dsimp only
    split
    · exact hE _ (m - 1) none _ hch
    · exact zero_out_data_not_res t.hi256_table_base a m
  · unfold del_mtrie_fix
    dsimp only
    by_cases hss : (m - 1) / 8 = lkb / 8
    · rw [if_pos hss]
      exact hE _ lkb (some lkv) _ (by rw [← hss]; exact hch)
    · rw [if_neg hss]
      exact hE _ (m - 1) none _ hch

theorem __lpm_del_entry_not_res (t : lpm_lkup_table_t) (a : Addr) (m : Nat)
    (al : lpm_alloc_t)
    (hm : t.hi256_table_base.isNullp = false)
    (hch : mtrie_chain_ok a t.hi256_table_base 0 ((m - 1) / 8) = true) :
    (__lpm_del_entry t a m al).1 ≠ LPM_ERR_RESOURCES := by
  unfold __lpm_del_entry
  rcases hdw : del_walk a t.btrie_root 0 m (0, none, 0) with _ | walked
  · simp
  · dsimp only
    rcases hnd : walked.1.data with _ | dv
    · simp
    · dsimp only
      split
      · simp
      · exact del_mtrie_fix_not_res t a m walked.2.1 walked.2.2.1 walked.2.2.2 al hm hch

theorem lpm_update_entry_not_res (t : lpm_lkup_table_t) (a : Addr) (m : Nat) (v : Val)
    (al : lpm_alloc_t)
    (hch : mtrie_chain_ok (temp_addr_of a m) t.hi256_table_base 0 ((m - 1) / 8) = true) :
    (lpm_update_entry (some t) (some a) m (some v) al).1 ≠ LPM_ERR_RESOURCES := by
  by_cases hmlen : m ≤ LPM_MASKLEN_MAX
  case neg =>
    have hc : lpm_check_arg (some t) (some a) m = LPM_ERR_INVALID := by
      simp [lpm_check_arg, Nat.lt_of_not_le hmlen]
    unfold lpm_update_entry
    rw [hc]
    simp
  case pos =>
    have hc := lpm_check_arg_ok t a m hmlen
    unfold lpm_update_entry
    rw [hc]
    simp only [addrD]
    rcases hroot : t.btrie_root with _ | ⟨rd, rc0, rc1⟩
    · simp
    rcases hmt : t.hi256_table_base with _ | ⟨db, bb⟩
    · simp
    rw [hmt] at hch
    dsimp only
    rcases hsn : btrie_find_node (btrie_node_t.node rd rc0 rc1) a m with _ | ⟨sd, sc0, sc1⟩
    · simp
    rcases sd with _ | d0
    · simp
    dsimp only
    by_cases hm0 : m = 0
    · rw [if_pos hm0]
      simp
    · rw [if_neg hm0]
      exact (lpm_prefix_expansion_roll _ (temp_addr_of a m) (m - 1) (some v)
        (.block db bb) t.stat al rfl).2 hch

theorem lpm_del_entry_not_res (t : lpm_lkup_table_t) (a : Addr) (m : Nat)
    (al : lpm_alloc_t)
    (hch : mtrie_chain_ok (temp_addr_of a m) t.hi256_table_base 0 ((m - 1) / 8) = true) :
    (lpm_del_entry (some t) (some a) m al).1 ≠ LPM_ERR_RESOURCES := by
  by_cases hmlen : m ≤ LPM_MASKLEN_MAX
  case neg =>
    have hc : lpm_check_arg (some t) (some a) m = LPM_ERR_INVALID := by
      simp [lpm_check_arg, Nat.lt_of_not_le hmlen]
    unfold lpm_del_entry
    rw [hc]
    simp
  case pos =>
    have hc := lpm_check_arg_ok t a m hmlen
    unfold lpm_del_entry
    rw [hc]
    simp only [addrD]
    rcases hroot : t.btrie_root with _ | ⟨rd, rc0, rc1⟩
    · simp
    rcases hmt : t.hi256_table_base with _ | ⟨db, bb⟩
    · simp
    dsimp only
    by_cases hm0 : m = 0
    · rw [if_pos hm0]
      rcases rd with _ | dv <;> simp [btrie_node_t.data]
    · rw [if_neg hm0]
      have hm' : t.hi256_table_base.isNullp = false := by rw [hmt]; rfl
      have hch' : mtrie_chain_ok (temp_addr_of a m) t.hi256_table_base 0 ((m - 1) / 8) =
          true := hch
      exact __lpm_del_entry_not_res t (temp_addr_of a m) m al hm' hch'

/-- Claim C3 (amended): all-or-nothing behaviour of allocation failure.
(1) If `lpm_add_entry` on a valid table fails with RESOURCES, the resulting
table is the pre-call table with every btrie node, stored value, mtrie block
and entry intact and every statistics counter unchanged except that exactly
one allocation-failure counter (`btrie_node_alloc_fail_stat` or
`mtrie_block_alloc_fail_stat`) has advanced by one.  (2)/(3) `lpm_update_entry`
and `lpm_del_entry` never return RESOURCES when the mtrie chain of the
affected prefix is complete (which holds for every stored prefix): they
perform no allocation at all. -/
theorem C3_allornothing :
    (∀ (t : lpm_lkup_table_t) (a : Addr) (m : Nat) (v : Val) (al : lpm_alloc_t)
       (t' : lpm_lkup_table_t) (al' : lpm_alloc_t),
       lpm_add_entry (some t) (some a) m (some v) al = (LPM_ERR_RESOURCES, some t', al') →
       t' = { t with stat := statBtrieFail t.stat } ∨
       t' = { t with stat := statMtrieFail t.stat }) ∧
    (∀ (t : lpm_lkup_table_t) (a : Addr) (m : Nat) (v : Val) (al : lpm_alloc_t),
       mtrie_chain_ok (temp_addr_of a m) t.hi256_table_base 0 ((m - 1) / 8) = true →
       (lpm_update_entry (some t) (some a) m (some v) al).1 ≠ LPM_ERR_RESOURCES) ∧
    (∀ (t : lpm_lkup_table_t) (a : Addr) (m : Nat) (al : lpm_alloc_t),
       mtrie_chain_ok (temp_addr_of a m) t.hi256_table_base 0 ((m - 1) / 8) = true →
       (lpm_del_entry (some t) (some a) m al).1 ≠ LPM_ERR_RESOURCES) :=
  ⟨lpm_add_entry_resources, lpm_update_entry_not_res, lpm_del_entry_not_res⟩

set_option maxRecDepth 10000 in
/-- Claim C3, witness: the concrete failing add of `10.0.0.0/8` on the fresh
table yields exactly the btrie-fail rollback state, and on the table holding
`10.0.0.0/8` (whose chain is complete) update and delete cannot return
RESOURCES. -/
theorem C3_allornothing_witness :
    (tableF = { table0 with stat := statBtrieFail table0.stat } ∨
      tableF = { table0 with stat := statMtrieFail table0.stat }) ∧
    (lpm_update_entry (some tableA) (some ip10) 8 (some 3) allocOK).1 ≠
      LPM_ERR_RESOURCES ∧
    (lpm_del_entry (some tableA) (some ip10) 8 allocOK).1 ≠ LPM_ERR_RESOURCES :=
  ⟨C3_allornothing.1 table0 ip10 8 2 ⟨[false]⟩ tableF ⟨[]⟩ (by rfl),
   C3_allornothing.2.1 tableA ip10 8 3 allocOK (by decide),
   C3_allornothing.2.2 tableA ip10 8 allocOK (by decide)⟩

/-! ## C1: the amended zero-masklen route behaviour -/

